import Mathlib

/-!
# npkern command core (`cmd_parser.c`): shallow embedding and verified properties

Bytes (`u8`) and words (`u32`) are natural numbers; every place where the C code
truncates (an assignment to a `u8`, `u32` arithmetic) carries an explicit
`% 256` or `% 2 ^ 32`.  Fixed-size C arrays are lists; an access `a[i]` is
`a.getD i 0` and a store is `a.set i v`.  Both coincide with C whenever the
index is inside the array, which the theorems below require through
hypotheses on the buffer lengths.
-/

namespace Npkern

/-! ## Serial frame decoder -/

/-- Frame-in-progress, `struct iso14230_msg`: expected header and data length,
the two write indices, a 4-byte header buffer and a 256-byte data buffer. -/
structure iso14230_msg where
  hdrlen : Nat
  datalen : Nat
  hi : Nat
  di : Nat
  hdr : List Nat
  data : List Nat
  deriving DecidableEq, Repr

/-- Result of the decoder, `enum iso_prc`. -/
inductive iso_prc where
  | ISO_PRC_ERROR
  | ISO_PRC_NEEDMORE
  | ISO_PRC_DONE
  deriving DecidableEq, Repr

/-- Loop of `cks_u8`: `while (len > 0) { len--; rv += data[len]; }` with `rv` a `u8`. -/
def cks_u8_loop (data : List Nat) : Nat → Nat → Nat
  | 0, rv => rv
  | len + 1, rv => cks_u8_loop data len ((rv + data.getD len 0) % 256)

/-- Simple 8-bit sum, `cks_u8(data, len)`. -/
def cks_u8 (data : List Nat) (len : Nat) : Nat :=
  cks_u8_loop data len 0

/-- The function `iso_clearmsg`: the four counters are zeroed, the buffers are left as they are. -/
def iso_clearmsg (msg : iso14230_msg) : iso14230_msg :=
  { msg with hdrlen := 0, datalen := 0, hi := 0, di := 0 }

/-- Steps 2 to 4 of `iso_parserx` (everything after the `if (msg->hi == 0)` block):
store the byte in the header or in the data buffer, and validate the checksum
once `di == datalen + 1`. -/
def iso_parserx_store (msg : iso14230_msg) (newbyte : Nat) : iso_prc × iso14230_msg :=
  if msg.hi ≠ msg.hdrlen then
    let msg := { msg with hdr := msg.hdr.set msg.hi newbyte, hi := msg.hi + 1 }
    let msg := if msg.datalen = 0 ∧ msg.hi = msg.hdrlen then { msg with datalen := newbyte } else msg
    (iso_prc.ISO_PRC_NEEDMORE, msg)
  else
    let msg := { msg with data := msg.data.set msg.di newbyte, di := msg.di + 1 }
    if msg.di ≠ msg.datalen + 1 then
      (iso_prc.ISO_PRC_NEEDMORE, msg)
    else
      let cks := cks_u8 msg.hdr msg.hdrlen
      let cks := (cks + cks_u8 msg.data msg.datalen) % 256
      if cks = msg.data.getD msg.datalen 0 then
        (iso_prc.ISO_PRC_DONE, msg)
      else
        (iso_prc.ISO_PRC_ERROR, msg)

/-- Add a newly received byte to the message, `iso_parserx(msg, newbyte)`.
Returns the verdict together with the updated message. -/
def iso_parserx (msg : iso14230_msg) (newbyte : Nat) : iso_prc × iso14230_msg :=
  if msg.hi = 0 then
    let msg := { msg with hdrlen := 1 }
    if newbyte &&& 0xC0 = 0x40 then
      (iso_prc.ISO_PRC_ERROR, msg)
    else
      let msg := if newbyte &&& 0x80 ≠ 0 then { msg with hdrlen := msg.hdrlen + 2 } else msg
      let dl := (newbyte &&& 0x3f) % 256
      let msg := if dl = 0 then { msg with hdrlen := msg.hdrlen + 1 } else { msg with datalen := dl }
      iso_parserx_store msg newbyte
  else
    iso_parserx_store msg newbyte

/-- Feed a byte sequence to `iso_parserx`, one byte per call, without clearing in
between; returns the verdict of every call and the final message. -/
def feed (msg : iso14230_msg) : List Nat → List iso_prc × iso14230_msg
  | [] => ([], msg)
  | b :: bs =>
    let r := iso_parserx msg b
    let rest := feed r.2 bs
    (r.1 :: rest.1, rest.2)

/-- A message as left by `iso_clearmsg`, with buffers of the declared sizes. -/
def iso14230_msg.cleared (msg : iso14230_msg) : Prop :=
  msg.hdrlen = 0 ∧ msg.datalen = 0 ∧ msg.hi = 0 ∧ msg.di = 0 ∧
    msg.hdr.length = 4 ∧ msg.data.length = 256

instance (msg : iso14230_msg) : Decidable msg.cleared := by
  unfold iso14230_msg.cleared; infer_instance

/-- A message whose four counters are zero and whose buffers hold zeroes. -/
def msg0 : iso14230_msg :=
  { hdrlen := 0, datalen := 0, hi := 0, di := 0,
    hdr := List.replicate 4 0, data := List.replicate 256 0 }

/-- Step 1 of `iso_parserx`, the block under `if (msg->hi == 0)`: `none` when the
function returns ERROR from there (the unsupported format), else the message as
it goes on to the stores of steps 2 and 3. -/
def iso_parserx_fmt (msg : iso14230_msg) (newbyte : Nat) : Option iso14230_msg :=
  if msg.hi = 0 then
    let msg := { msg with hdrlen := 1 }
    if newbyte &&& 0xC0 = 0x40 then none
    else
      let msg := if newbyte &&& 0x80 ≠ 0 then { msg with hdrlen := msg.hdrlen + 2 } else msg
      let dl := (newbyte &&& 0x3f) % 256
      let msg := if dl = 0 then { msg with hdrlen := msg.hdrlen + 1 }
        else { msg with datalen := dl }
      some msg
  else some msg

/-- One received byte as `cmd_loop` handles it: the message is kept while the
decoder asks for more, and `iso_clearmsg` runs after a DONE or an ERROR. -/
def iso_rx (msg : iso14230_msg) (newbyte : Nat) : iso14230_msg :=
  match (iso_parserx msg newbyte).1 with
  | iso_prc.ISO_PRC_NEEDMORE => (iso_parserx msg newbyte).2
  | _ => iso_clearmsg (iso_parserx msg newbyte).2

/-- The message after a sequence of received bytes, under the contract of `iso_rx`. -/
def iso_rx_run (msg : iso14230_msg) (bytes : List Nat) : iso14230_msg :=
  bytes.foldl iso_rx msg

/-- What holds of the message between two calls of `iso_parserx`: the counters
are inside their frame, no data byte is stored before the header is complete,
and the buffers have the sizes of `struct iso14230_msg`. -/
def iso14230_msg.between_calls (msg : iso14230_msg) : Prop :=
  msg.hi ≤ msg.hdrlen ∧ msg.hdrlen ≤ 4 ∧ msg.di ≤ msg.datalen ∧ msg.datalen ≤ 255 ∧
    ((msg.hi = 0 ∨ msg.hi < msg.hdrlen) → msg.di = 0) ∧
    msg.hdr.length = 4 ∧ msg.data.length = 256

/-- Header length announced by a format byte `f`: one byte, two more when bit 7 is
set, one more when the length field `f & 0x3F` is zero. -/
def fmt_hdrlen (f : Nat) : Nat :=
  1 + (if f &&& 0x80 ≠ 0 then 2 else 0) + (if f &&& 0x3F = 0 then 1 else 0)

/-- Data length of a frame that starts with the bytes `hb` (format byte `f` first):
the length field of `f` when it is not zero, else the last header byte. -/
def frame_datalen (f : Nat) (hb : List Nat) : Nat :=
  if f &&& 0x3F ≠ 0 then f &&& 0x3F else hb.getD (fmt_hdrlen f - 1) 0

/-- Store the bytes `ds` in `buf` from index `i` on. -/
def overwrite (buf : List Nat) : Nat → List Nat → List Nat
  | _, [] => buf
  | i, d :: ds => overwrite (buf.set i d) (i + 1) ds


/-! ## Constants, collaborators and machine state -/

/-- Constants of the headers `iso_cmds.h`, `platf.h` and `npk_ver.h`.  The headers
are not among the sources, so the values are parameters of the model. -/
structure Consts where
  SID_STARTCOMM : Nat
  SID_RECUID : Nat
  SID_CONF : Nat
  SID_RESET : Nat
  SID_RMBA : Nat
  SID_WMBA : Nat
  SID_DUMP : Nat
  SID_FLASH : Nat
  SID_TP : Nat
  SID_FLREQ : Nat
  SID_DUMP_EEPROM : Nat
  SID_DUMP_ROM : Nat
  SIDFL_EB : Nat
  SIDFL_WB : Nat
  SIDFL_UNPROTECT : Nat
  SIDFL_WB_DLEN : Nat
  SID_CONF_SETSPEED : Nat
  SID_CONF_SETEEPR : Nat
  SID_CONF_CKS1 : Nat
  SID_CONF_LASTERR : Nat
  /-- Sub-identifier of the 16-bit probe; `none` when `DIAG_U16READ` is not defined. -/
  SID_CONF_R16 : Option Nat
  SID_CONF_CKS1_BADCKS : Nat
  ISO_NRC_GR : Nat
  ISO_NRC_SNS : Nat
  ISO_NRC_SFNS_IF : Nat
  ISO_NRC_CNCORSE : Nat
  ISO_NRC_IK : Nat
  ISO_NRC_CNDTSA : Nat
  ROMCRC_NUMCHUNKS : Nat
  ROMCRC_CHUNKSIZE : Nat
  RAM_MIN : Nat
  RAM_MAX : Nat
  /-- The bytes of `npk_ver_string`, terminating NUL included (`sizeof`). -/
  npk_ver_string : List Nat

/-- Results of the external collaborators during one dispatch step. -/
structure Platform where
  /-- Outcome of `platf_flash_init(&errval)`: `none` for success, `some errval` for failure. -/
  platf_flash_init : Option Nat
  /-- Result of `platf_flash_eb(blockno)`. -/
  platf_flash_eb : Nat → Nat
  /-- Result of `platf_flash_wb(dest, src, len)`; `src` is given by the bytes it points to. -/
  platf_flash_wb : Nat → List Nat → Nat → Nat
  /-- Result of `crc16(start, len)`. -/
  crc16 : Nat → Nat → Nat
  /-- Word stored by `eep_read16(addr, dest)`. -/
  eep_read16 : Nat → Nat

/-- Invocations with an effect outside the command core, in the order they happen. -/
inductive Call where
  | platf_flash_init
  | platf_flash_eb (blockno : Nat)
  | platf_flash_wb (dest : Nat) (src : List Nat) (len : Nat)
  | platf_flash_unprotect
  | eep_setptr (addr : Nat)
  | sci_init (brrdiv : Nat)
  | sci_rxidle (ms : Nat)
  | pdior_set
  | can_idle (us : Nat)
  | die
  deriving DecidableEq, Repr

/-- Command state machine, `enum t_cmdsm`. -/
inductive t_cmdsm where
  | CM_IDLE
  | CM_READY
  deriving DecidableEq, Repr

/-- Flash state machine, `enum t_flashsm`. -/
inductive t_flashsm where
  | FL_IDLE
  | FL_READY
  deriving DecidableEq, Repr

/-- Everything the serial command loop reads or writes: the file-scope variables
`cmstate`, `flashstate`, `lasterr`, `txbuf`, the `static` message of `cmd_loop`,
the address space, the packets handed to the transmitter (one entry per
`iso_sendpkt` call that transmits, as the list of bytes put on the wire), the
collaborator invocations, and whether `die()` was reached. -/
structure SerState where
  cmstate : t_cmdsm
  flashstate : t_flashsm
  lasterr : Nat
  txbuf : List Nat
  msg : iso14230_msg
  mem : Nat → Nat
  sent : List (List Nat)
  calls : List Call
  dead : Bool

/-- The define `MAX_INTERBYTE`. -/
def MAX_INTERBYTE : Nat := 10

/-- The function `set_lasterr`. -/
def set_lasterr (s : SerState) (err : Nat) : SerState :=
  { s with lasterr := err % 256 }

/-- Sign-extend a big-endian 24-bit number to 32 bits, `reconst_24(data)`. -/
def reconst_24 (data : List Nat) : Nat :=
  let tmp := (data.getD 0 0 <<< 16) ||| (data.getD 1 0 <<< 8) ||| data.getD 2 0
  if data.getD 0 0 &&& 0x80 ≠ 0 then tmp ||| (0xFF <<< 24) else tmp

/-- Bytes found at `addr`, `addr + 1`, ..., `addr + len - 1` (addresses are 32 bits wide). -/
def mem_read (mem : Nat → Nat) (addr len : Nat) : List Nat :=
  (List.range len).map (fun i => mem ((addr + i) % 2 ^ 32))

/-- Effect on the address space of `memcpy((void *) addr, src, n)`, `src` being the `n` bytes copied. -/
def mem_write (mem : Nat → Nat) (addr : Nat) : List Nat → Nat → Nat
  | [] => mem
  | b :: bs => mem_write (Function.update mem (addr % 2 ^ 32) b) (addr + 1) bs

/-- Bytes that `iso_sendpkt(buf, len)` puts on the wire, for `len > 0`: the length
header, the payload and the checksum. -/
def iso_sendpkt_bytes (buf : List Nat) (len : Nat) : List Nat :=
  let len := if len > 0xff then 0xff else len
  let hdr := if len ≤ 0x3F then [len % 256] else [0, len % 256]
  let cks := (len + cks_u8 buf len) % 256
  hdr ++ buf.take len ++ [cks]

/-- Send a headerless packet, `iso_sendpkt(buf, len)`.  Every caller passes a
non-negative `len` and a buffer of at least `len` bytes. -/
def iso_sendpkt (s : SerState) (buf : List Nat) (len : Nat) : SerState :=
  if len = 0 then s
  else { s with sent := s.sent ++ [iso_sendpkt_bytes buf len] }

/-- Transmit the negative response `0x7F <SID> <NRC>`, `tx_7F(sid, nrc)`; both arguments are `u8`. -/
def tx_7F (s : SerState) (sid nrc : Nat) : SerState :=
  iso_sendpkt s [0x7F, sid % 256, nrc % 256] 3

/-- The function `cmd_init(brrdiv)`. -/
def cmd_init (s : SerState) (brrdiv : Nat) : SerState :=
  { s with cmstate := t_cmdsm.CM_IDLE, flashstate := t_flashsm.FL_IDLE,
           calls := s.calls ++ [Call.sci_init (brrdiv % 256)] }

/-- The function `sci_rxidle(ms)`: discard received data until the line is idle. -/
def sci_rxidle (s : SerState) (ms : Nat) : SerState :=
  { s with calls := s.calls ++ [Call.sci_rxidle ms] }

/-- The array `startcomm_resp`. -/
def startcomm_resp : List Nat := [0xC1, 0x67, 0x8F]

/-- The function `cmd_startcomm`. -/
def cmd_startcomm (s : SerState) : SerState :=
  let s := iso_sendpkt s startcomm_resp 3
  { s with flashstate := t_flashsm.FL_IDLE }

/-! ## Serial command handlers -/

/-- ROM branch of `cmd_dump`: `while (len) { ... }`, one packet per turn.  The
loop counter `fuel` starts at `len`, which decreases by at least one each turn. -/
def cmd_dump_rom_loop (c : Consts) : Nat → SerState → Nat → Nat → SerState
  | 0, s, _, _ => s
  | fuel + 1, s, len, addr =>
    if len = 0 then s
    else
      let pktlen := if len > 32 then 32 else len
      let s := { s with txbuf := overwrite s.txbuf 1 (mem_read s.mem addr pktlen) }
      let s := iso_sendpkt s s.txbuf (pktlen + 1)
      cmd_dump_rom_loop c fuel s ((len - pktlen) % 2 ^ 32) ((addr + pktlen) % 2 ^ 32)

/-- Bytes of the `u16` words read by the inner `for` loop of the EEPROM branch, in
memory order (the SH CPU is big-endian): word `ecur` comes from
`eep_read16((uint8_t) addr + ecur, ...)`, whose address parameter is a `u8`. -/
def cmd_dump_eep_words (pf : Platform) (addr : Nat) (nwords : Nat) : List Nat :=
  ((List.range nwords).map (fun ecur =>
    let w := pf.eep_read16 ((addr % 256 + ecur) % 256) % 65536
    [w / 256, w % 256])).flatten

/-- EEPROM branch of `cmd_dump`: `while (len) { ... }`, one packet per turn. -/
def cmd_dump_eep_loop (c : Consts) (pf : Platform) : Nat → SerState → Nat → Nat → SerState
  | 0, s, _, _ => s
  | fuel + 1, s, len, addr =>
    if len = 0 then s
    else
      let pktlen := if len > 32 then 32 else len
      let pstart := ((c.SID_DUMP + 0x40) % 256) :: cmd_dump_eep_words pf addr (pktlen / 2)
      let s := iso_sendpkt s pstart (pktlen + 1)
      cmd_dump_eep_loop c pf fuel s ((len - pktlen) % 2 ^ 32) ((addr + pktlen / 2) % 2 ^ 32)

/-- Dump command processor, `cmd_dump(msg)`. -/
def cmd_dump (c : Consts) (pf : Platform) (s : SerState) : SerState :=
  let args := s.msg.data.drop 1
  if s.msg.datalen ≠ 6 then tx_7F s c.SID_DUMP c.ISO_NRC_SFNS_IF
  else
    let space := args.getD 0 0
    let len := (32 * ((args.getD 1 0 <<< 8) ||| args.getD 2 0)) % 2 ^ 32
    let addr := (32 * ((args.getD 3 0 <<< 8) ||| args.getD 4 0)) % 2 ^ 32
    if space = c.SID_DUMP_EEPROM then
      let addr := addr / 2
      let len := len - len % 2
      cmd_dump_eep_loop c pf len s len addr
    else if space = c.SID_DUMP_ROM then
      let s := { s with txbuf := s.txbuf.set 0 ((c.SID_DUMP + 0x40) % 256) }
      cmd_dump_rom_loop c len s len addr
    else tx_7F s c.SID_DUMP c.ISO_NRC_SFNS_IF

/-- Prepare for reflashing, `cmd_flash_init`. -/
def cmd_flash_init (c : Consts) (pf : Platform) (s : SerState) : SerState :=
  let s := { s with calls := s.calls ++ [Call.platf_flash_init] }
  match pf.platf_flash_init with
  | some errval => tx_7F s c.SID_FLREQ errval
  | none =>
    let s := { s with txbuf := s.txbuf.set 0 ((c.SID_FLREQ + 0x40) % 256) }
    let s := iso_sendpkt s s.txbuf 1
    { s with flashstate := t_flashsm.FL_READY }

/-- Loop of `cks_add8`, front to back over the bytes `data`, `sum` being a `u16`
that the last statement of the body reduces to its low byte. -/
def cks_add8_loop : List Nat → Nat → Nat
  | [], sum => sum
  | d :: ds, sum =>
    let sum := (sum + d) % 65536
    let sum := if sum &&& 0x100 ≠ 0 then (sum + 1) % 65536 else sum
    cks_add8_loop ds (sum % 256)

/-- The checksum `cks_add8(data, len)`; the result is returned as a `u8`. -/
def cks_add8 (data : List Nat) (len : Nat) : Nat :=
  cks_add8_loop (data.take len) 0 % 256

/-- Loop of `cmd_romcrc` over the chunks `idx`, ..., `ROMCRC_NUMCHUNKS - 1`; `data`
points at the expected CRC of the current chunk, `n` counts the turns left. -/
def cmd_romcrc_loop (c : Consts) (pf : Platform) : Nat → List Nat → Nat → Int
  | 0, _, _ => 0
  | n + 1, data, chunkno =>
    let test_crc := ((data.getD 0 0 <<< 8) ||| data.getD 1 0) % 65536
    let start := (chunkno * c.ROMCRC_CHUNKSIZE) % 2 ^ 32
    let crc := pf.crc16 start c.ROMCRC_CHUNKSIZE % 65536
    if crc ≠ test_crc then -1
    else cmd_romcrc_loop c pf n (data.drop 2) ((chunkno + 1) % 65536)

/-- Compare the given CRCs with the calculated values, `cmd_romcrc(data)`. -/
def cmd_romcrc (c : Consts) (pf : Platform) (data : List Nat) : Int :=
  let chunkno := ((data.getD 0 0 <<< 8) ||| data.getD 1 0) % 65536
  cmd_romcrc_loop c pf c.ROMCRC_NUMCHUNKS (data.drop 2) chunkno

/-- Handle low-level reflash commands, `cmd_flash_utils(msg)`.  The `switch` is a
chain of tests in the order of its `case` labels. -/
def cmd_flash_utils (c : Consts) (pf : Platform) (s : SerState) : SerState :=
  let msg := s.msg
  let positive (s : SerState) : SerState :=
    let s := { s with txbuf := s.txbuf.set 0 ((c.SID_FLASH + 0x40) % 256) }
    iso_sendpkt s s.txbuf 1
  if s.flashstate ≠ t_flashsm.FL_READY then tx_7F s c.SID_FLASH c.ISO_NRC_CNCORSE
  else if msg.datalen ≤ 1 then tx_7F s c.SID_FLASH c.ISO_NRC_SFNS_IF
  else
    let subcommand := msg.data.getD 1 0
    if subcommand = c.SIDFL_EB then
      if msg.datalen ≠ 3 then tx_7F s c.SID_FLASH c.ISO_NRC_SFNS_IF
      else
        let rv := pf.platf_flash_eb (msg.data.getD 2 0) % 2 ^ 32
        let s := { s with calls := s.calls ++ [Call.platf_flash_eb (msg.data.getD 2 0)] }
        if rv ≠ 0 then tx_7F s c.SID_FLASH ((rv &&& 0xFF) ||| 0x80)
        else positive s
    else if subcommand = c.SIDFL_WB then
      if msg.datalen ≠ c.SIDFL_WB_DLEN + 6 then tx_7F s c.SID_FLASH c.ISO_NRC_SFNS_IF
      else if cks_add8 (msg.data.drop 2) (c.SIDFL_WB_DLEN + 3)
          ≠ msg.data.getD (c.SIDFL_WB_DLEN + 5) 0 then
        tx_7F s c.SID_FLASH c.SID_CONF_CKS1_BADCKS
      else
        let tmp := (msg.data.getD 2 0 <<< 16) ||| (msg.data.getD 3 0 <<< 8) ||| msg.data.getD 4 0
        let src := (msg.data.drop 5).take c.SIDFL_WB_DLEN
        let rv := pf.platf_flash_wb tmp src c.SIDFL_WB_DLEN % 2 ^ 32
        let s := { s with calls := s.calls ++ [Call.platf_flash_wb tmp src c.SIDFL_WB_DLEN] }
        if rv ≠ 0 then tx_7F s c.SID_FLASH ((rv &&& 0xFF) ||| 0x80)
        else positive s
    else if subcommand = c.SIDFL_UNPROTECT then
      if msg.datalen ≠ 3 then tx_7F s c.SID_FLASH c.ISO_NRC_SFNS_IF
      else if msg.data.getD 2 0 ≠ 255 - c.SIDFL_UNPROTECT % 256 then
        tx_7F s c.SID_FLASH c.ISO_NRC_IK
      else
        let s := { s with calls := s.calls ++ [Call.platf_flash_unprotect] }
        positive s
    else tx_7F s c.SID_FLASH c.ISO_NRC_SFNS_IF

/-- ReadMemByAddress, `cmd_rmba(msg)`. -/
def cmd_rmba (c : Consts) (s : SerState) : SerState :=
  let msg := s.msg
  if msg.datalen ≠ 5 then tx_7F s c.SID_RMBA c.ISO_NRC_SFNS_IF
  else
    let siz := msg.data.getD 4 0
    if siz = 0 ∨ siz > 251 then tx_7F s c.SID_RMBA c.ISO_NRC_SFNS_IF
    else
      let addr := reconst_24 (msg.data.drop 1)
      let txbuf := s.txbuf.set 0 ((c.SID_RMBA + 0x40) % 256)
      let txbuf := overwrite txbuf 1 (mem_read s.mem addr siz)
      let siz := siz + 1
      let txbuf := txbuf.set siz (msg.data.getD 1 0)
      let txbuf := txbuf.set (siz + 1) (msg.data.getD 2 0)
      let txbuf := txbuf.set (siz + 2) (msg.data.getD 3 0)
      let s := { s with txbuf := txbuf }
      iso_sendpkt s s.txbuf (siz + 3)

/-- WriteMemByAddr, `cmd_wmba(msg)`. -/
def cmd_wmba (c : Consts) (s : SerState) : SerState :=
  let msg := s.msg
  if msg.datalen < 6 then tx_7F s c.SID_WMBA c.ISO_NRC_SFNS_IF
  else
    let siz := msg.data.getD 4 0
    if siz = 0 ∨ siz > 250 ∨ msg.datalen ≠ siz + 5 then tx_7F s c.SID_WMBA c.ISO_NRC_SFNS_IF
    else
      let addr := reconst_24 (msg.data.drop 1)
      if addr < c.RAM_MIN ∨ addr > c.RAM_MAX then tx_7F s c.SID_WMBA c.ISO_NRC_CNDTSA
      else
        let src := (msg.data.drop 5).take siz
        let s := { s with mem := mem_write s.mem addr src }
        let s := { s with msg := { msg with data := msg.data.set 0 ((c.SID_WMBA + 0x40) % 256) } }
        iso_sendpkt s s.msg.data 4

/-- Set and configure the kernel, `cmd_conf(msg)`.  The local `resp` holds
`SID_CONF + 0x40` in its first byte. -/
def cmd_conf (c : Consts) (pf : Platform) (s : SerState) : SerState :=
  let msg := s.msg
  let resp0 := (c.SID_CONF + 0x40) % 256
  if msg.datalen < 2 then tx_7F s c.SID_CONF c.ISO_NRC_SFNS_IF
  else
    let sub := msg.data.getD 1 0
    if sub = c.SID_CONF_SETSPEED then
      let s := iso_sendpkt s [resp0] 1
      let s := cmd_init s (msg.data.getD 2 0)
      sci_rxidle s 25
    else if sub = c.SID_CONF_SETEEPR then
      if msg.datalen ≠ 5 then tx_7F s c.SID_CONF c.ISO_NRC_SFNS_IF
      else
        let tmp := (msg.data.getD 2 0 <<< 16) ||| (msg.data.getD 3 0 <<< 8) ||| msg.data.getD 4 0
        let s := { s with calls := s.calls ++ [Call.eep_setptr tmp] }
        iso_sendpkt s [resp0] 1
    else if sub = c.SID_CONF_CKS1 then
      if msg.datalen ≠ 12 then tx_7F s c.SID_CONF c.ISO_NRC_SFNS_IF
      else if cmd_romcrc c pf (msg.data.drop 2) ≠ 0 then
        tx_7F s c.SID_CONF c.SID_CONF_CKS1_BADCKS
      else iso_sendpkt s [resp0] 1
    else if sub = c.SID_CONF_LASTERR then
      let resp := [resp0, s.lasterr]
      let s := { s with lasterr := 0 }
      iso_sendpkt s resp 2
    else if some sub = c.SID_CONF_R16 then
      let tmp := reconst_24 (msg.data.drop 2)
      let tmp := tmp - tmp % 2
      let val := (s.mem tmp * 256 + s.mem ((tmp + 1) % 2 ^ 32)) % 65536
      iso_sendpkt s [resp0, val / 256, val % 256] 3
    else tx_7F s c.SID_CONF c.ISO_NRC_SFNS_IF

/-! ## Serial command loop -/

/-- What one turn of the `while (1)` of `cmd_loop` finds in the receiver: error
flags (ORER, FER or PER), no byte, or a byte. -/
inductive SciEvent where
  | error_flags
  | no_byte
  | byte (rxbyte : Nat)
  deriving DecidableEq, Repr

/-- Body of `case CM_READY:` in `cmd_loop`: dispatch on the service identifier
`msg.data[0]`.  The `switch` is a chain of tests in the order of its `case` labels. -/
def cmd_ready (c : Consts) (pf : Platform) (s : SerState) : SerState :=
  let clear (s : SerState) : SerState := { s with msg := iso_clearmsg s.msg }
  let sid := s.msg.data.getD 0 0
  if sid = c.SID_STARTCOMM then clear (cmd_startcomm s)
  else if sid = c.SID_RECUID then
    clear (iso_sendpkt s c.npk_ver_string c.npk_ver_string.length)
  else if sid = c.SID_CONF then clear (cmd_conf c pf s)
  else if sid = c.SID_RESET then
    let s := { s with txbuf := s.txbuf.set 0 ((sid + 0x40) % 256) }
    let s := iso_sendpkt s s.txbuf 1
    { s with calls := s.calls ++ [Call.die], dead := true }
  else if sid = c.SID_RMBA then clear (cmd_rmba c s)
  else if sid = c.SID_WMBA then clear (cmd_wmba c s)
  else if sid = c.SID_DUMP then clear (cmd_dump c pf s)
  else if sid = c.SID_FLASH then clear (cmd_flash_utils c pf s)
  else if sid = c.SID_TP then
    let s := { s with txbuf := s.txbuf.set 0 ((sid + 0x40) % 256) }
    clear (iso_sendpkt s s.txbuf 1)
  else if sid = c.SID_FLREQ then clear (cmd_flash_init c pf s)
  else clear (tx_7F s sid c.ISO_NRC_SNS)

/-- The `switch (cmstate)` of `cmd_loop`, reached with a complete frame in `msg`. -/
def cmd_dispatch (c : Consts) (pf : Platform) (s : SerState) : SerState :=
  match s.cmstate with
  | t_cmdsm.CM_IDLE =>
    let s := if s.msg.data.getD 0 0 = c.SID_STARTCOMM then
        { cmd_startcomm s with cmstate := t_cmdsm.CM_READY }
      else s
    { s with msg := iso_clearmsg s.msg }
  | t_cmdsm.CM_READY => cmd_ready c pf s

/-- One turn of the `while (1)` of `cmd_loop`.  Nothing happens any more once
`die()` was reached. -/
def cmd_loop_step (c : Consts) (pf : Platform) (s : SerState) (ev : SciEvent) : SerState :=
  if s.dead then s
  else
    match ev with
    | SciEvent.error_flags =>
      let s := { s with cmstate := t_cmdsm.CM_IDLE, flashstate := t_flashsm.FL_IDLE,
                        msg := iso_clearmsg s.msg }
      sci_rxidle s MAX_INTERBYTE
    | SciEvent.no_byte => s
    | SciEvent.byte rxbyte =>
      let r := iso_parserx s.msg rxbyte
      let s := { s with msg := r.2 }
      match r.1 with
      | iso_prc.ISO_PRC_NEEDMORE => s
      | iso_prc.ISO_PRC_ERROR => sci_rxidle { s with msg := iso_clearmsg s.msg } MAX_INTERBYTE
      | iso_prc.ISO_PRC_DONE => cmd_dispatch c pf s

/-- State of the serial loop at its entry: the file-scope variables hold what
`cmd_init` left (`CM_IDLE`, `FL_IDLE`), and `iso_clearmsg(&msg)` has run. -/
def cmd_loop_entry (mem : Nat → Nat) : SerState :=
  { cmstate := t_cmdsm.CM_IDLE, flashstate := t_flashsm.FL_IDLE, lasterr := 0,
    txbuf := List.replicate 256 0, msg := msg0, mem := mem, sent := [], calls := [],
    dead := false }


/-! ## CAN block-flash sub-protocol -/

/-- Everything the CAN command loop reads or writes: the shared `txbuf`, the
file-scope variables `flashbuffer`, `counter8byteblock`, `counter128byteblock`,
`flashaddr`, `num128byteblocks`, the `static` frame `currentmsg` and the local
`loadingblocks` of `can_cmd_loop`, the frames handed to the transmitter, the
collaborator invocations, and whether `die()` was reached. -/
structure CanState where
  txbuf : List Nat
  flashbuffer : List Nat
  counter8byteblock : Nat
  counter128byteblock : Nat
  flashaddr : Nat
  num128byteblocks : Nat
  currentmsg : List Nat
  loadingblocks : Bool
  cantx : List (List Nat)
  calls : List Call
  dead : Bool
  deriving DecidableEq, Repr

/-- The function `can_tx8bytes(buf)`: the first eight bytes of `buf` go out as one frame. -/
def can_tx8bytes (s : CanState) (buf : List Nat) : CanState :=
  { s with cantx := s.cantx ++ [buf.take 8] }

/-- The block that every CAN handler runs when the tag in `msg[1] & 0x07` is not
the expected one: `memcpy(txbuf, msg, 8); txbuf[0] = 0x7F;
txbuf[1] = (msg[1] & 0xF8) | 0x01; txbuf[2] = code; can_tx8bytes(txbuf);`. -/
def can_reject (s : CanState) (msg : List Nat) (code : Nat) : CanState :=
  let txbuf := overwrite s.txbuf 0 (msg.take 8)
  let txbuf := txbuf.set 0 0x7F
  let txbuf := txbuf.set 1 ((msg.getD 1 0 &&& 0xF8) ||| 0x01)
  let txbuf := txbuf.set 2 (code % 256)
  can_tx8bytes { s with txbuf := txbuf } txbuf

/-- Flash initialisation, `can_cmd_flash_init(msg)`. -/
def can_cmd_flash_init (pf : Platform) (s : CanState) (msg : List Nat) : CanState :=
  if msg.getD 1 0 &&& 0x07 ≠ 1 then can_reject s msg 0x30
  else
    let s := { s with calls := s.calls ++ [Call.platf_flash_init] }
    match pf.platf_flash_init with
    | some errval => can_reject s msg errval
    | none =>
      let s := if msg.getD 2 0 = 0xA5 then
          { s with calls := s.calls ++ [Call.platf_flash_unprotect] }
        else s
      let txbuf := s.txbuf.set 0 0x7A
      let txbuf := txbuf.set 1 ((msg.getD 1 0 &&& 0xF8) ||| 0x00)
      can_tx8bytes { s with txbuf := txbuf } txbuf

/-- Erase flash block, `can_cmd_erase_block(msg)`. -/
def can_cmd_erase_block (pf : Platform) (s : CanState) (msg : List Nat) : CanState :=
  if msg.getD 1 0 &&& 0x07 ≠ 6 then can_reject s msg 0x30
  else
    let txbuf := overwrite s.txbuf 0 (msg.take 8)
    let s := { s with
      txbuf := txbuf,
      flashaddr := ((msg.getD 3 0 <<< 24) ||| (msg.getD 4 0 <<< 16) ||| (msg.getD 5 0 <<< 8)
        ||| 0x00) % 2 ^ 32,
      num128byteblocks := ((msg.getD 6 0 <<< 8) ||| msg.getD 7 0) % 2 ^ 32,
      counter8byteblock := 0,
      counter128byteblock := 0 }
    let rv := pf.platf_flash_eb (msg.getD 2 0) % 2 ^ 32
    let s := { s with calls := s.calls ++ [Call.platf_flash_eb (msg.getD 2 0)] }
    if rv ≠ 0 then
      let txbuf := s.txbuf.set 0 0x7F
      let txbuf := txbuf.set 1 ((msg.getD 1 0 &&& 0xF8) ||| 0x01)
      let txbuf := txbuf.set 2 (rv % 256)
      can_tx8bytes { s with txbuf := txbuf } txbuf
    else
      let txbuf := s.txbuf.set 0 (msg.getD 0 0)
      let txbuf := txbuf.set 1 ((msg.getD 1 0 &&& 0xF8) ||| 0x00)
      can_tx8bytes { s with txbuf := txbuf } txbuf

/-- Load 8 bytes for flashing, `can_cmd_load8bytes(msg)`:
`flashbuffer[(8 * counter8byteblock) + i] = msg[i]` for `i` from 0 to 7. -/
def can_cmd_load8bytes (s : CanState) (msg : List Nat) : CanState :=
  let flashbuffer := (List.range 8).foldl
    (fun buf i => List.set buf (8 * s.counter8byteblock + i) (msg.getD i 0)) s.flashbuffer
  { s with flashbuffer := flashbuffer }

/-- The checksum loop of `can_cmd_flash_128bytes`: for `i` from 0 to 127,
`flashCheckSum += flashbuffer[i];
flashCheckSum = ((flashCheckSum >> 8) & 0xFF) + (flashCheckSum & 0xFF);`. -/
def flashCheckSum (flashbuffer : List Nat) : Nat :=
  (List.range 128).foldl
    (fun sum i =>
      let sum := (sum + flashbuffer.getD i 0) % 2 ^ 32
      ((sum >>> 8) &&& 0xFF) + (sum &&& 0xFF)) 0

/-- Write flash block, `can_cmd_flash_128bytes(msg)`. -/
def can_cmd_flash_128bytes (pf : Platform) (s : CanState) (msg : List Nat) : CanState :=
  if msg.getD 1 0 &&& 0x07 ≠ 3 then can_reject s msg 0x30
  else
    let s := { s with txbuf := overwrite s.txbuf 0 (msg.take 8) }
    let cks := flashCheckSum s.flashbuffer
    if cks ≠ msg.getD 4 0 then
      let txbuf := s.txbuf.set 0 0x7F
      let txbuf := txbuf.set 1 ((msg.getD 1 0 &&& 0xF8) ||| 0x02)
      let txbuf := txbuf.set 2 0x31
      let txbuf := txbuf.set 3 (cks % 256)
      can_tx8bytes { s with txbuf := txbuf } txbuf
    else if s.counter128byteblock ≠ ((msg.getD 2 0 <<< 8) ||| msg.getD 3 0) % 2 ^ 32 then
      let txbuf := s.txbuf.set 0 0x7F
      let txbuf := txbuf.set 1 ((msg.getD 1 0 &&& 0xF8) ||| 0x05)
      let txbuf := txbuf.set 2 0x32
      let txbuf := txbuf.set 3 ((s.counter128byteblock >>> 8) &&& 0xFF)
      let txbuf := txbuf.set 4 (s.counter128byteblock &&& 0xFF)
      let txbuf := txbuf.set 5 ((s.num128byteblocks >>> 8) &&& 0xFF)
      let txbuf := txbuf.set 6 (s.num128byteblocks &&& 0xFF)
      can_tx8bytes { s with txbuf := txbuf } txbuf
    else
      let addr := (s.flashaddr + (128 * s.counter128byteblock) % 2 ^ 32) % 2 ^ 32
      let rv := pf.platf_flash_wb addr s.flashbuffer 128 % 2 ^ 32
      let s := { s with calls := s.calls ++ [Call.platf_flash_wb addr s.flashbuffer 128] }
      if rv ≠ 0 then can_reject s msg rv
      else
        let txbuf := s.txbuf.set 0 0x7A
        let txbuf := txbuf.set 1 ((msg.getD 1 0 &&& 0xF8) ||| 0x00)
        can_tx8bytes { s with txbuf := txbuf } txbuf

/-- The loop of `can_cmd_cks`: `while (len) { cks += (*addr & 0xFF);
cks = ((cks >> 8) & 0xFF) + (cks & 0xFF); len--; addr++; }`. -/
def can_cmd_cks_loop (mem : Nat → Nat) : Nat → Nat → Nat → Nat
  | 0, _, cks => cks
  | len + 1, addr, cks =>
    let cks := (cks + (mem (addr % 2 ^ 32) &&& 0xFF)) % 2 ^ 32
    let cks := ((cks >>> 8) &&& 0xFF) + (cks &&& 0xFF)
    can_cmd_cks_loop mem len (addr + 1) cks

/-- Checksum command processor, `can_cmd_cks(msg)`. -/
def can_cmd_cks (mem : Nat → Nat) (s : CanState) (msg : List Nat) : CanState :=
  if msg.getD 1 0 &&& 0x07 ≠ 6 then can_reject s msg 0x30
  else
    let len := ((msg.getD 2 0 <<< 24) ||| (msg.getD 3 0 <<< 16) ||| (msg.getD 4 0 <<< 8)
      ||| 0x00) % 2 ^ 32
    let addr := ((msg.getD 5 0 <<< 24) ||| (msg.getD 6 0 <<< 16) ||| (msg.getD 7 0 <<< 8)
      ||| 0x00) % 2 ^ 32
    let cks := can_cmd_cks_loop mem len addr 0
    let txbuf := s.txbuf.set 0 0x7A
    let txbuf := txbuf.set 1 ((msg.getD 1 0 &&& 0xF8) ||| 0x01)
    let txbuf := txbuf.set 2 (cks &&& 0xFF)
    can_tx8bytes { s with txbuf := txbuf } txbuf

/-- The loop of `can_cmd_dump`: `while (len) { ... }`, one frame per turn.  The
loop counter `fuel` starts at `len`, which decreases by at least one each turn. -/
def can_cmd_dump_loop (mem : Nat → Nat) (msg : List Nat) : Nat → CanState → Nat → Nat → CanState
  | 0, s, _, _ => s
  | fuel + 1, s, len, addr =>
    if len = 0 then s
    else
      let pktlen := if len > 6 then 6 else len
      let txbuf := s.txbuf.set 1 (((msg.getD 1 0 &&& 0xF8) ||| pktlen) % 256)
      let txbuf := overwrite txbuf 2 (mem_read mem addr pktlen)
      let s := can_tx8bytes { s with txbuf := txbuf } txbuf
      let s := { s with calls := s.calls ++ [Call.can_idle 750] }
      can_cmd_dump_loop mem msg fuel s ((len - pktlen) % 2 ^ 32) ((addr + pktlen) % 2 ^ 32)

/-- Dump command processor, `can_cmd_dump(msg)`. -/
def can_cmd_dump (mem : Nat → Nat) (s : CanState) (msg : List Nat) : CanState :=
  if msg.getD 1 0 &&& 0x07 ≠ 6 then can_reject s msg 0x30
  else
    let len := ((msg.getD 2 0 <<< 24) ||| (msg.getD 3 0 <<< 16) ||| (msg.getD 4 0 <<< 8)
      ||| 0x00) % 2 ^ 32
    let addr := ((msg.getD 5 0 <<< 24) ||| (msg.getD 6 0 <<< 16) ||| (msg.getD 7 0 <<< 8)
      ||| 0x00) % 2 ^ 32
    let s := { s with txbuf := s.txbuf.set 0 0x7A }
    can_cmd_dump_loop mem msg len s len addr

/-- What `can_rx8bytes` reports in one turn of the `while (1)` of `can_cmd_loop`:
nothing to receive (return value 0), a frame copied into `currentmsg` (1), or an
unread message lost (-1, `currentmsg` keeps its content). -/
inductive CanEvent where
  | no_data
  | frame (bytes : List Nat)
  | unread_lost
  deriving DecidableEq, Repr

/-- The part of one turn of `can_cmd_loop` that follows `can_rx8bytes`: stage the
frame, or interpret it as a command. -/
def can_cmd_process (pf : Platform) (mem : Nat → Nat) (s : CanState) : CanState :=
  let currentmsg := s.currentmsg
  if s.loadingblocks then
    let s := can_cmd_load8bytes s currentmsg
    let s := { s with counter8byteblock := (s.counter8byteblock + 1) % 256 }
    if s.counter8byteblock > 15 then
      { s with counter8byteblock := 0, loadingblocks := false }
    else s
  else if currentmsg.getD 0 0 = 0x7A then
    let cmd := currentmsg.getD 1 0 &&& 0xF8
    if cmd = 0xD0 then can_cmd_cks mem s currentmsg
    else if cmd = 0xD8 then can_cmd_dump mem s currentmsg
    else if cmd = 0xE0 then
      let s := { s with calls := s.calls ++ [Call.pdior_set] }
      can_cmd_flash_init pf s currentmsg
    else if cmd = 0xF0 then
      let s := can_cmd_erase_block pf s currentmsg
      { s with loadingblocks := true }
    else if cmd = 0xF8 then
      let s := can_cmd_flash_128bytes pf s currentmsg
      let s := { s with counter128byteblock := (s.counter128byteblock + 1) % 2 ^ 32 }
      if s.counter128byteblock < s.num128byteblocks then { s with loadingblocks := true }
      else s
    else
      let txbuf := s.txbuf.set 0 0x7F
      let txbuf := txbuf.set 1 ((currentmsg.getD 1 0 &&& 0xF8) ||| 0x01)
      let txbuf := txbuf.set 2 0x34
      can_tx8bytes { s with txbuf := txbuf } txbuf
  else if currentmsg.getD 0 0 = 0xFF ∧ currentmsg.getD 1 0 = 0xC8 then
    let txbuf := s.txbuf.set 0 0xFF
    let txbuf := txbuf.set 1 0xC8
    let s := can_tx8bytes { s with txbuf := txbuf } txbuf
    { s with calls := s.calls ++ [Call.die], dead := true }
  else
    let txbuf := s.txbuf.set 0 0x7F
    let txbuf := txbuf.set 1 ((currentmsg.getD 1 0 &&& 0xF8) ||| 0x01)
    let txbuf := txbuf.set 2 0x35
    can_tx8bytes { s with txbuf := txbuf } txbuf

/-- One turn of the `while (1)` of `can_cmd_loop`.  Nothing happens any more
once `die()` was reached. -/
def can_cmd_loop_step (pf : Platform) (mem : Nat → Nat) (s : CanState) (ev : CanEvent) :
    CanState :=
  if s.dead then s
  else
    match ev with
    | CanEvent.no_data => s
    | CanEvent.frame bytes => can_cmd_process pf mem { s with currentmsg := bytes.take 8 }
    | CanEvent.unread_lost => can_cmd_process pf mem s

/-- State of the CAN loop at its entry: `loadingblocks = false; counter8byteblock = 0;`
the other variables hold what the caller supplies (zero after start-up). -/
def can_cmd_loop_entry (s : CanState) : CanState :=
  { s with loadingblocks := false, counter8byteblock := 0 }

/-! ## Runs and a concrete configuration -/

/-- Consecutive turns of `cmd_loop`, one per receiver event, with the same collaborator results. -/
def cmd_loop_run (c : Consts) (pf : Platform) (s : SerState) (evs : List SciEvent) : SerState :=
  evs.foldl (cmd_loop_step c pf) s

/-- Consecutive turns of `can_cmd_loop`, one per event reported by `can_rx8bytes`,
with the same collaborator results and memory contents. -/
def can_cmd_loop_run (pf : Platform) (mem : Nat → Nat) (s : CanState) (evs : List CanEvent) :
    CanState :=
  evs.foldl (can_cmd_loop_step pf mem) s

/-- Consecutive turns of `can_cmd_loop` where every turn has its own collaborator
results and memory contents, besides the event reported by `can_rx8bytes`. -/
def can_cmd_loop_trace (s : CanState) (turns : List (Platform × (Nat → Nat) × CanEvent)) :
    CanState :=
  turns.foldl (fun s t => can_cmd_loop_step t.1 t.2.1 s t.2.2) s

/-- A concrete choice of the header constants, the one of an SH7058 build
(RAM from `0xFFFF0000` to `0xFFFFBFFF`, 128-byte flash write blocks). -/
def sampleConsts : Consts :=
  { SID_STARTCOMM := 0x81, SID_RECUID := 0x1A, SID_CONF := 0xBE, SID_RESET := 0x11,
    SID_RMBA := 0x23, SID_WMBA := 0x3D, SID_DUMP := 0xBD, SID_FLASH := 0xBC,
    SID_TP := 0x3E, SID_FLREQ := 0x34, SID_DUMP_EEPROM := 0, SID_DUMP_ROM := 1,
    SIDFL_EB := 0x01, SIDFL_WB := 0x02, SIDFL_UNPROTECT := 0x55, SIDFL_WB_DLEN := 128,
    SID_CONF_SETSPEED := 0x01, SID_CONF_SETEEPR := 0x02, SID_CONF_CKS1 := 0x03,
    SID_CONF_LASTERR := 0x04, SID_CONF_R16 := none, SID_CONF_CKS1_BADCKS := 0x77,
    ISO_NRC_GR := 0x10, ISO_NRC_SNS := 0x11, ISO_NRC_SFNS_IF := 0x12,
    ISO_NRC_CNCORSE := 0x22, ISO_NRC_IK := 0x35, ISO_NRC_CNDTSA := 0x42,
    ROMCRC_NUMCHUNKS := 4, ROMCRC_CHUNKSIZE := 256,
    RAM_MIN := 0xFFFF0000, RAM_MAX := 0xFFFFBFFF,
    npk_ver_string := [0x5A, 0x6E, 0x70, 0x6B, 0x00] }

/-- Collaborators that always succeed and read zeroes. -/
def samplePlatform : Platform :=
  { platf_flash_init := none, platf_flash_eb := fun _ => 0,
    platf_flash_wb := fun _ _ _ => 0, crc16 := fun _ _ => 0, eep_read16 := fun _ => 0 }

/-- The serial state with the given session states and message, zeroed buffers and memory, nothing sent. -/
def sampleSer (cm : t_cmdsm) (fl : t_flashsm) (msg : iso14230_msg) : SerState :=
  { cmstate := cm, flashstate := fl, lasterr := 0, txbuf := List.replicate 256 0,
    msg := msg, mem := fun _ => 0, sent := [], calls := [], dead := false }

/-- A complete message holding the payload `p`, padded with zeroes to the 256 bytes of the buffer. -/
def sampleMsg (p : List Nat) : iso14230_msg :=
  { hdrlen := 1, datalen := p.length, hi := 1, di := p.length + 1, hdr := [p.length, 0, 0, 0],
    data := p ++ List.replicate (256 - p.length) 0 }

/-- The CAN state with the given staging buffer, block counter and mode: base address
`0x20000`, four blocks expected, zeroed `txbuf`, nothing sent. -/
def sampleCan (flashbuffer : List Nat) (counter : Nat) (loading : Bool) : CanState :=
  { txbuf := List.replicate 256 0, flashbuffer := flashbuffer, counter8byteblock := 0,
    counter128byteblock := counter, flashaddr := 0x20000, num128byteblocks := 4,
    currentmsg := List.replicate 8 0, loadingblocks := loading, cantx := [], calls := [],
    dead := false }

/-! ### Lemmas on the checksum and on the decoder -/

theorem cks_u8_loop_eq (data : List Nat) :
    ∀ (len rv : Nat), rv < 256 → len ≤ data.length →
      cks_u8_loop data len rv = (rv + (data.take len).sum) % 256 := by
  intro len
  induction len with
  | zero => intro rv hrv _; simp [cks_u8_loop]; omega
  | succ n ih =>
    intro rv _ hlen
    have hn : n < data.length := hlen
    have htake : data.take (n + 1) = data.take n ++ [data.getD n 0] := by
      rw [List.take_succ]
      simp [List.getD_eq_getElem?_getD, List.getElem?_eq_getElem hn]
    simp only [cks_u8_loop]
    rw [ih ((rv + data.getD n 0) % 256) (Nat.mod_lt _ (by decide)) (Nat.le_of_lt hn),
      htake, List.sum_append]
    simp only [List.sum_cons, List.sum_nil]
    omega

theorem cks_u8_eq (data : List Nat) (len : Nat) (hlen : len ≤ data.length) :
    cks_u8 data len = (data.take len).sum % 256 := by
  unfold cks_u8
  rw [cks_u8_loop_eq data len 0 (by decide) hlen]
  simp

theorem feed_append (msg : iso14230_msg) (xs ys : List Nat) :
    feed msg (xs ++ ys) =
      ((feed msg xs).1 ++ (feed (feed msg xs).2 ys).1, (feed (feed msg xs).2 ys).2) := by
  induction xs generalizing msg with
  | nil => simp [feed]
  | cons x xs ih => simp [feed, ih]

theorem overwrite_length (ds : List Nat) : ∀ (buf : List Nat) (i : Nat),
    (overwrite buf i ds).length = buf.length := by
  induction ds with
  | nil => intro buf i; rfl
  | cons d ds ih => intro buf i; simp [overwrite, ih]

theorem overwrite_take (ds : List Nat) : ∀ (buf : List Nat) (i : Nat),
    i + ds.length ≤ buf.length →
      (overwrite buf i ds).take (i + ds.length) = buf.take i ++ ds := by
  induction ds with
  | nil => intro buf i _; simp [overwrite]
  | cons d ds ih =>
    intro buf i h
    simp only [List.length_cons] at h
    have hi : i < buf.length := by omega
    have h2 := ih (buf.set i d) (i + 1) (by simp; omega)
    simp only [overwrite, List.length_cons]
    rw [show i + (ds.length + 1) = i + 1 + ds.length by omega, h2]
    have h3 : (buf.set i d).take i = buf.take i := by
      rw [List.set_take, List.set_eq_of_length_le (by simp)]
    rw [List.take_succ, h3]
    simp [List.getElem?_set, hi]

/-- Data phase: once the header is complete, bytes that do not yet complete the
frame are stored one after the other and each call answers NEEDMORE. -/
theorem feed_data (ds : List Nat) : ∀ (msg : iso14230_msg),
    msg.hi = msg.hdrlen → msg.hi ≠ 0 → msg.di + ds.length ≤ msg.datalen →
      feed msg ds = (List.replicate ds.length iso_prc.ISO_PRC_NEEDMORE,
        { msg with di := msg.di + ds.length, data := overwrite msg.data msg.di ds }) := by
  induction ds with
  | nil => intro msg _ _ _; simp [feed, overwrite]
  | cons d ds ih =>
    intro msg h1 h2 h3
    simp only [List.length_cons] at h3
    have hstep : iso_parserx msg d = (iso_prc.ISO_PRC_NEEDMORE,
        { msg with data := msg.data.set msg.di d, di := msg.di + 1 }) := by
      rw [iso_parserx, if_neg h2]
      simp only [iso_parserx_store, h1, ne_eq, not_true_eq_false, if_false]
      rw [if_pos (by omega)]
    have hih := ih { msg with data := msg.data.set msg.di d, di := msg.di + 1 } h1 h2
      (by simp only; omega)
    simp only [feed, hstep, hih, List.length_cons, List.replicate_succ, overwrite]
    congr 2
    omega

/-- Last byte of a frame: the verdict is the comparison of the received byte with
the two partial sums. -/
theorem iso_parserx_last (msg : iso14230_msg) (c : Nat)
    (h1 : msg.hi = msg.hdrlen) (h2 : msg.hi ≠ 0) (h3 : msg.di = msg.datalen)
    (h4 : msg.datalen < msg.data.length) :
    iso_parserx msg c =
      (if (cks_u8 msg.hdr msg.hdrlen + cks_u8 (msg.data.set msg.di c) msg.datalen) % 256 = c
        then iso_prc.ISO_PRC_DONE else iso_prc.ISO_PRC_ERROR,
       { msg with data := msg.data.set msg.di c, di := msg.di + 1 }) := by
  have hget : (msg.data.set msg.datalen c).getD msg.datalen 0 = c := by
    simp [List.getD_eq_getElem?_getD, List.getElem?_set, h4]
  rw [iso_parserx, if_neg h2]
  simp only [iso_parserx_store, h1, ne_eq, not_true_eq_false, if_false, h3, hget]
  split <;> rfl

theorem and_3f_mod (f : Nat) : (f &&& 0x3f) % 256 = f &&& 0x3f :=
  Nat.mod_eq_of_lt (Nat.lt_of_le_of_lt Nat.and_le_right (by decide))

/-- Header phase: from a cleared message, the header bytes announced by the
format byte are stored in `hdr` and each call answers NEEDMORE. -/
theorem feed_header (msg : iso14230_msg) (hclr : msg.cleared) (f : Nat) (tl : List Nat)
    (hmode : f &&& 0xC0 ≠ 0x40) (hlen : (f :: tl).length = fmt_hdrlen f) :
    feed msg (f :: tl) = (List.replicate (fmt_hdrlen f) iso_prc.ISO_PRC_NEEDMORE,
      { hdrlen := fmt_hdrlen f,
        datalen := if f &&& 0x3F ≠ 0 then f &&& 0x3F else (f :: tl).getD (fmt_hdrlen f - 1) 0,
        hi := fmt_hdrlen f, di := 0,
        hdr := (f :: tl) ++ msg.hdr.drop (fmt_hdrlen f),
        data := msg.data }) := by
  obtain ⟨hdrlen, datalen, hi, di, hdr, data⟩ := msg
  obtain ⟨h1, h2, h3, h4, h5, h6⟩ := hclr
  simp only at h1 h2 h3 h4 h5 h6
  subst h1 h2 h3 h4
  match hdr, h5 with
  | [a0, a1, a2, a3], _ =>
    by_cases hb7 : f &&& 0x80 = 0 <;> by_cases hdl : f &&& 0x3F = 0
    · have hl : fmt_hdrlen f = 2 := by simp [fmt_hdrlen, hb7, hdl]
      rw [hl] at hlen ⊢
      match tl, hlen with
      | [l], _ =>
        simp [feed, iso_parserx, iso_parserx_store, hmode, hb7, hdl]
    · have hl : fmt_hdrlen f = 1 := by simp [fmt_hdrlen, hb7, hdl]
      rw [hl] at hlen ⊢
      match tl, hlen with
      | [], _ =>
        simp [feed, iso_parserx, iso_parserx_store, hmode, hb7, hdl, and_3f_mod]
    · have hl : fmt_hdrlen f = 4 := by simp [fmt_hdrlen, hb7, hdl]
      rw [hl] at hlen ⊢
      match tl, hlen with
      | [x1, x2, l], _ =>
        simp [feed, iso_parserx, iso_parserx_store, hmode, hb7, hdl]
    · have hl : fmt_hdrlen f = 3 := by simp [fmt_hdrlen, hb7, hdl]
      rw [hl] at hlen ⊢
      match tl, hlen with
      | [x1, x2], _ =>
        simp [feed, iso_parserx, iso_parserx_store, hmode, hb7, hdl, and_3f_mod]

/-- A whole frame: header bytes `f :: tl`, data bytes `ds`, trailing byte `c`. -/
theorem feed_frame (msg : iso14230_msg) (hclr : msg.cleared) (f : Nat) (tl ds : List Nat)
    (c : Nat) (hmode : f &&& 0xC0 ≠ 0x40) (hlen : (f :: tl).length = fmt_hdrlen f)
    (hds : ds.length = frame_datalen f (f :: tl)) (hmax : frame_datalen f (f :: tl) ≤ 255) :
    feed msg (f :: tl ++ (ds ++ [c])) =
      (List.replicate (fmt_hdrlen f + ds.length) iso_prc.ISO_PRC_NEEDMORE ++
        [if ((f :: tl).sum + ds.sum) % 256 = c then iso_prc.ISO_PRC_DONE
          else iso_prc.ISO_PRC_ERROR],
       { hdrlen := fmt_hdrlen f, datalen := ds.length, hi := fmt_hdrlen f,
         di := ds.length + 1,
         hdr := (f :: tl) ++ msg.hdr.drop (fmt_hdrlen f),
         data := (overwrite msg.data 0 ds).set ds.length c }) := by
  have hdata : msg.data.length = 256 := hclr.2.2.2.2.2
  have hhl : fmt_hdrlen f ≠ 0 := by unfold fmt_hdrlen; omega
  rw [feed_append, feed_header msg hclr f tl hmode hlen]
  simp only
  rw [feed_append, feed_data ds _ rfl hhl (by simp only [frame_datalen] at hds; simp [hds])]
  simp only [Nat.zero_add]
  have hdl : (if f &&& 0x3F ≠ 0 then f &&& 0x3F else (f :: tl).getD (fmt_hdrlen f - 1) 0)
      = ds.length := by simp only [frame_datalen] at hds; exact hds.symm
  rw [hdl]
  have hlt : ds.length < (overwrite msg.data 0 ds).length := by
    rw [overwrite_length, hdata, hds]; omega
  simp only [feed]
  rw [iso_parserx_last _ c rfl hhl rfl hlt]
  simp only
  have hc1 : cks_u8 (f :: tl ++ List.drop (fmt_hdrlen f) msg.hdr) (fmt_hdrlen f)
      = (f :: tl).sum % 256 := by
    rw [cks_u8_eq _ _ (by simp [← hlen])]
    rw [← hlen, List.take_left]
  have hc2 : cks_u8 ((overwrite msg.data 0 ds).set ds.length c) ds.length = ds.sum % 256 := by
    rw [cks_u8_eq _ _ (by simp; omega)]
    have h3 : ((overwrite msg.data 0 ds).set ds.length c).take ds.length
        = (overwrite msg.data 0 ds).take ds.length := by
      rw [List.set_take, List.set_eq_of_length_le (by simp)]
    have h4 := overwrite_take ds msg.data 0 (by rw [hdata, Nat.zero_add, hds]; omega)
    simp only [Nat.zero_add, List.take_zero, List.nil_append] at h4
    rw [h3, h4]
  rw [hc1, hc2]
  have hmod : ((f :: tl).sum % 256 + ds.sum % 256) % 256 = ((f :: tl).sum + ds.sum) % 256 := by
    omega
  rw [hmod, List.replicate_add, List.append_assoc]

theorem frame_datalen_le (f : Nat) (bs : List Nat) (hbytes : ∀ b ∈ bs, b < 256) :
    frame_datalen f bs ≤ 255 := by
  unfold frame_datalen
  split
  · exact Nat.le_trans Nat.and_le_right (by decide)
  · rw [List.getD_eq_getElem?_getD]
    cases h : bs[fmt_hdrlen f - 1]? with
    | none => simp
    | some v =>
      have := hbytes v (List.getElem?_mem h)
      simp only [Option.getD_some]
      omega

/-- C1: from a cleared message, when the first byte `f` does not announce the
unsupported addressing mode, the decoder answers NEEDMORE on each of the first
`hdrlen + datalen` bytes and, on the byte that follows, DONE if that byte is the
sum modulo 256 of all the preceding header and data bytes and ERROR otherwise. -/
theorem iso_parserx_frame_verdict (msg : iso14230_msg) (hclr : msg.cleared) (bs : List Nat)
    (hbytes : ∀ b ∈ bs, b < 256) (f : Nat) (hf : bs.head? = some f)
    (hmode : f &&& 0xC0 ≠ 0x40)
    (hlen : fmt_hdrlen f + frame_datalen f bs < bs.length) :
    (feed msg bs).1.take (fmt_hdrlen f + frame_datalen f bs + 1) =
      List.replicate (fmt_hdrlen f + frame_datalen f bs) iso_prc.ISO_PRC_NEEDMORE ++
        [if bs.getD (fmt_hdrlen f + frame_datalen f bs) 0
              = (bs.take (fmt_hdrlen f + frame_datalen f bs)).sum % 256
          then iso_prc.ISO_PRC_DONE else iso_prc.ISO_PRC_ERROR] := by
  obtain ⟨tl0, rfl⟩ : ∃ tl0, bs = f :: tl0 := by
    cases bs with
    | nil => simp at hf
    | cons x xs => simp at hf; exact ⟨xs, by rw [hf]⟩
  generalize hhl : fmt_hdrlen f = hl at *
  generalize hdl : frame_datalen f (f :: tl0) = dl at *
  have hl1 : 1 ≤ hl := by rw [← hhl]; unfold fmt_hdrlen; omega
  have hdlmax : dl ≤ 255 := by rw [← hdl]; exact frame_datalen_le f _ hbytes
  -- split the sequence into header, data, trailing byte and remainder
  have hsplit : f :: tl0 = (f :: tl0).take hl ++ (((f :: tl0).drop hl).take dl ++
      [(f :: tl0).getD (hl + dl) 0]) ++ (f :: tl0).drop (hl + dl + 1) := by
    have h1 : (f :: tl0).drop (hl + dl) =
        (f :: tl0).getD (hl + dl) 0 :: (f :: tl0).drop (hl + dl + 1) := by
      rw [List.getD_eq_getElem?_getD, List.getElem?_eq_getElem hlen]
      simp only [Option.getD_some]
      exact List.drop_eq_getElem_cons hlen
    have h2 : (f :: tl0).drop hl = ((f :: tl0).drop hl).take dl ++ (f :: tl0).drop (hl + dl) := by
      rw [← List.drop_drop, List.take_append_drop]
    conv_lhs => rw [← List.take_append_drop hl (f :: tl0), h2, h1]
    simp
  obtain ⟨tl, htl⟩ : ∃ tl, (f :: tl0).take hl = f :: tl := by
    obtain ⟨k, rfl⟩ : ∃ k, hl = k + 1 := ⟨hl - 1, by omega⟩
    exact ⟨tl0.take k, by simp⟩
  have htllen : (f :: tl).length = hl := by
    rw [← htl, List.length_take]; omega
  have hdslen : (((f :: tl0).drop hl).take dl).length = dl := by
    rw [List.length_take, List.length_drop]; omega
  have hfd : frame_datalen f (f :: tl) = dl := by
    rw [← hdl]
    unfold frame_datalen
    rw [hhl, ← htl]
    congr 1
    simp only [List.getD_eq_getElem?_getD]
    rw [List.getElem?_take_of_lt (by omega)]
  have hframe := feed_frame msg hclr f tl (((f :: tl0).drop hl).take dl)
    ((f :: tl0).getD (hl + dl) 0) hmode (by rw [htllen, hhl]) (by rw [hdslen, hfd])
    (by rw [hfd]; exact hdlmax)
  rw [hdslen, hhl] at hframe
  have hsum : (f :: tl).sum + (((f :: tl0).drop hl).take dl).sum
      = ((f :: tl0).take (hl + dl)).sum := by
    rw [← htl, ← List.sum_append]
    congr 1
    rw [List.take_add]
  rw [hsum] at hframe
  rw [htl] at hsplit
  conv_lhs => rw [hsplit, feed_append, hframe]
  simp only
  rw [List.take_append_of_le_length (by simp)]
  rw [List.take_of_length_le (by simp)]
  simp only [eq_comm]

theorem iso_parserx_frame_verdict_witness :
    msg0.cleared ∧ 0x01 &&& 0xC0 ≠ 0x40 ∧
    fmt_hdrlen 0x01 + frame_datalen 0x01 [0x01, 0x3E, 0x3F] = 2 ∧
    (feed msg0 [0x01, 0x3E, 0x3F]).1.take 3 =
      [iso_prc.ISO_PRC_NEEDMORE, iso_prc.ISO_PRC_NEEDMORE, iso_prc.ISO_PRC_DONE] :=
  have hclr : msg0.cleared := ⟨rfl, rfl, rfl, rfl, rfl, List.length_replicate _ _⟩
  ⟨hclr, by decide, by decide,
    iso_parserx_frame_verdict msg0 hclr [0x01, 0x3E, 0x3F] (by decide) 0x01 rfl (by decide)
      (by decide)⟩

theorem small_len_bits (n : Nat) (h : n ≤ 0x3F) :
    n &&& 0xC0 = 0 ∧ n &&& 0x80 = 0 ∧ n &&& 0x3F = n := by
  interval_cases n <;> decide

/-- The frame that `iso_sendpkt` emits for a payload is decoded back to it. -/
theorem feed_sendpkt (msg : iso14230_msg) (hclr : msg.cleared) (p : List Nat)
    (h1 : 1 ≤ p.length) (h255 : p.length ≤ 255) :
    feed msg (iso_sendpkt_bytes p p.length) =
      (List.replicate ((iso_sendpkt_bytes p p.length).length - 1) iso_prc.ISO_PRC_NEEDMORE ++
        [iso_prc.ISO_PRC_DONE],
       { hdrlen := if p.length ≤ 0x3F then 1 else 2, datalen := p.length,
         hi := if p.length ≤ 0x3F then 1 else 2, di := p.length + 1,
         hdr := (if p.length ≤ 0x3F then [p.length] else [0, p.length]) ++
           msg.hdr.drop (if p.length ≤ 0x3F then 1 else 2),
         data := (overwrite msg.data 0 p).set p.length ((p.length + p.sum) % 256) }) := by
  have hcks : cks_u8 p p.length = p.sum % 256 := by
    rw [cks_u8_eq p p.length (Nat.le_refl _), List.take_length]
  have hnot : ¬ p.length > 0xff := by omega
  by_cases hs : p.length ≤ 0x3F
  · obtain ⟨b1, b2, b3⟩ := small_len_bits p.length hs
    have hne : p.length ≠ 0 := by omega
    have hhl : fmt_hdrlen p.length = 1 := by
      unfold fmt_hdrlen; rw [b2, b3]; simp [hne]
    have hdl : frame_datalen p.length [p.length] = p.length := by
      unfold frame_datalen; rw [b3]; simp [hne]
    have hstream : iso_sendpkt_bytes p p.length
        = p.length :: [] ++ (p ++ [(p.length + p.sum) % 256]) := by
      simp only [iso_sendpkt_bytes, if_neg hnot, if_pos hs, hcks, List.take_length]
      rw [Nat.mod_eq_of_lt (by omega : p.length < 256)]
      simp
    have hf := feed_frame msg hclr p.length [] p ((p.length + p.sum) % 256)
      (by rw [b1]; decide) (by rw [hhl]; rfl) (by rw [hdl]) (by rw [hdl]; exact h255)
    rw [hstream, hf, hhl]
    simp [hs]
    omega
  · have hhl : fmt_hdrlen 0 = 2 := by decide
    have hdl : frame_datalen 0 [0, p.length] = p.length := by
      simp [frame_datalen, hhl]
    have hstream : iso_sendpkt_bytes p p.length
        = 0 :: [p.length] ++ (p ++ [(p.length + p.sum) % 256]) := by
      simp only [iso_sendpkt_bytes, if_neg hnot, if_neg hs, hcks, List.take_length]
      rw [Nat.mod_eq_of_lt (by omega : p.length < 256)]
      simp
    have hf := feed_frame msg hclr 0 [p.length] p ((p.length + p.sum) % 256)
      (by decide) (by rw [hhl]; rfl) (by rw [hdl]) (by rw [hdl]; exact h255)
    rw [hstream, hf, hhl]
    simp [hs]
    omega

/-- C2: the byte stream that `iso_sendpkt` emits for a payload of 1 to 255 bytes
(header `[n]` or `[0, n]`, payload, checksum) is decoded by `iso_parserx` from a
cleared message with NEEDMORE on every byte but the last and DONE on the last,
and the decoded message has `datalen = n` and the payload in `data[0..n)`. -/
theorem iso_sendpkt_parserx_roundtrip (s : SerState) (msg : iso14230_msg) (p : List Nat)
    (hclr : msg.cleared) (h1 : 1 ≤ p.length) (h255 : p.length ≤ 255) :
    (iso_sendpkt s p p.length).sent = s.sent ++ [iso_sendpkt_bytes p p.length] ∧
    iso_sendpkt_bytes p p.length =
      (if p.length ≤ 0x3F then [p.length] else [0x00, p.length]) ++ p ++
        [(p.length + p.sum) % 256] ∧
    (feed msg (iso_sendpkt_bytes p p.length)).1 =
      List.replicate ((iso_sendpkt_bytes p p.length).length - 1) iso_prc.ISO_PRC_NEEDMORE ++
        [iso_prc.ISO_PRC_DONE] ∧
    (feed msg (iso_sendpkt_bytes p p.length)).2.datalen = p.length ∧
    (feed msg (iso_sendpkt_bytes p p.length)).2.data.take p.length = p := by
  have hdata : msg.data.length = 256 := hclr.2.2.2.2.2
  refine ⟨?_, ?_, ?_, ?_, ?_⟩
  · simp [iso_sendpkt, Nat.ne_of_gt h1]
  · have hcks : cks_u8 p p.length = p.sum % 256 := by
      rw [cks_u8_eq p p.length (Nat.le_refl _), List.take_length]
    have hnot : ¬ p.length > 0xff := by omega
    simp only [iso_sendpkt_bytes, if_neg hnot, hcks, List.take_length]
    rw [Nat.mod_eq_of_lt (by omega : p.length < 256)]
    simp
  · rw [feed_sendpkt msg hclr p h1 h255]
  · rw [feed_sendpkt msg hclr p h1 h255]
  · rw [feed_sendpkt msg hclr p h1 h255]
    simp only
    rw [List.set_take, List.set_eq_of_length_le (by simp)]
    have h4 := overwrite_take p msg.data 0 (by rw [hdata]; omega)
    simpa using h4

theorem iso_sendpkt_parserx_roundtrip_witness :
    msg0.cleared ∧ 1 ≤ [0x7E].length ∧ [0x7E].length ≤ 255 ∧
    iso_sendpkt_bytes [0x7E] [0x7E].length = [0x01, 0x7E, 0x7F] ∧
    (feed msg0 (iso_sendpkt_bytes [0x7E] [0x7E].length)).1 =
      [iso_prc.ISO_PRC_NEEDMORE, iso_prc.ISO_PRC_NEEDMORE, iso_prc.ISO_PRC_DONE] ∧
    (feed msg0 (iso_sendpkt_bytes [0x7E] [0x7E].length)).2.data.take [0x7E].length = [0x7E] :=
  have hclr : msg0.cleared := ⟨rfl, rfl, rfl, rfl, rfl, List.length_replicate _ _⟩
  have h := iso_sendpkt_parserx_roundtrip (sampleSer t_cmdsm.CM_READY t_flashsm.FL_IDLE msg0)
    msg0 [0x7E] hclr (by decide) (by decide)
  ⟨hclr, by decide, by decide, h.2.1, h.2.2.1, h.2.2.2.2⟩

/-! ### Lemmas on the command handlers -/

theorem shl8_or (a b : Nat) (hb : b < 256) : (a <<< 8) ||| b = a * 256 + b := by
  rw [Nat.shiftLeft_eq, Nat.mul_comm, ← Nat.mul_add_lt_is_or (i := 8) hb]

theorem shl16_or3 (a b c : Nat) (hb : b < 256) (hc : c < 256) :
    (a <<< 16) ||| (b <<< 8) ||| c = a * 65536 + b * 256 + c := by
  have h1 : (a <<< 16) ||| (b <<< 8) = 2 ^ 8 * (a * 256 + b) := by
    rw [Nat.shiftLeft_eq, Nat.shiftLeft_eq, Nat.mul_comm a,
      ← Nat.mul_add_lt_is_or (i := 16) (by omega : b * 2 ^ 8 < 2 ^ 16)]
    ring
  rw [h1, ← Nat.mul_add_lt_is_or (i := 8) hc]
  ring

/-- The negative response on the wire: length byte 3, the three bytes, their sum. -/
theorem tx_7F_sent (s : SerState) (sid nrc : Nat) (hsid : sid < 256) (hnrc : nrc < 256) :
    tx_7F s sid nrc =
      { s with sent := s.sent ++ [[3, 0x7F, sid, nrc, (3 + 0x7F + sid + nrc) % 256]] } := by
  simp only [tx_7F, iso_sendpkt, iso_sendpkt_bytes, cks_u8, cks_u8_loop,
    Nat.mod_eq_of_lt hsid, Nat.mod_eq_of_lt hnrc]
  simp
  omega

/-- C4: a write-memory request of valid format whose sign-extended 24-bit address
is below `RAM_MIN` or above `RAM_MAX` is answered with exactly the negative
response `0x7F, SID_WMBA, ISO_NRC_CNDTSA`, and nothing else changes: in
particular no byte of memory is written. -/
theorem cmd_wmba_outside_window (c : Consts) (s : SerState)
    (hsid : c.SID_WMBA < 256) (hnrc : c.ISO_NRC_CNDTSA < 256)
    (hfmt : s.msg.datalen = s.msg.data.getD 4 0 + 5)
    (hsiz : 1 ≤ s.msg.data.getD 4 0 ∧ s.msg.data.getD 4 0 ≤ 250)
    (haddr : reconst_24 (s.msg.data.drop 1) < c.RAM_MIN ∨
      reconst_24 (s.msg.data.drop 1) > c.RAM_MAX) :
    cmd_wmba c s =
      { s with sent := s.sent ++ [[3, 0x7F, c.SID_WMBA, c.ISO_NRC_CNDTSA,
          (3 + 0x7F + c.SID_WMBA + c.ISO_NRC_CNDTSA) % 256]] } ∧
    (cmd_wmba c s).mem = s.mem := by
  have h1 : ¬ s.msg.datalen < 6 := by omega
  have h2 : ¬ (s.msg.data.getD 4 0 = 0 ∨ s.msg.data.getD 4 0 > 250 ∨
      s.msg.datalen ≠ s.msg.data.getD 4 0 + 5) := by omega
  have h : cmd_wmba c s = tx_7F s c.SID_WMBA c.ISO_NRC_CNDTSA := by
    simp only [cmd_wmba, if_neg h1, if_neg h2, if_pos haddr]
  rw [h, tx_7F_sent s _ _ hsid hnrc]
  exact ⟨rfl, rfl⟩

theorem cmd_wmba_outside_window_witness :
    reconst_24 ((sampleMsg [0x3D, 0x00, 0x80, 0x00, 0x01, 0xAA]).data.drop 1)
      < sampleConsts.RAM_MIN ∧
    (cmd_wmba sampleConsts (sampleSer t_cmdsm.CM_READY t_flashsm.FL_IDLE
      (sampleMsg [0x3D, 0x00, 0x80, 0x00, 0x01, 0xAA]))).sent = [[3, 0x7F, 0x3D, 0x42, 0x01]] ∧
    (cmd_wmba sampleConsts (sampleSer t_cmdsm.CM_READY t_flashsm.FL_IDLE
      (sampleMsg [0x3D, 0x00, 0x80, 0x00, 0x01, 0xAA]))).mem 0x8000 = 0 :=
  have h := cmd_wmba_outside_window sampleConsts (sampleSer t_cmdsm.CM_READY t_flashsm.FL_IDLE
      (sampleMsg [0x3D, 0x00, 0x80, 0x00, 0x01, 0xAA]))
    (by decide) (by decide) (by decide) (by decide) (Or.inl (by decide))
  ⟨by decide, by rw [h.1]; rfl, by rw [h.2]; rfl⟩

/-- The window test of `cmd_wmba` looks at the first destination address only: for
every window, a 2-byte write that starts at `RAM_MAX` is accepted and stores its
second byte at `RAM_MAX + 1`. -/
theorem cmd_wmba_overrun (c : Consts) (s : SerState) (hdl : s.msg.datalen = 7)
    (hsiz : s.msg.data.getD 4 0 = 2) (hlen : 7 ≤ s.msg.data.length)
    (haddr : reconst_24 (s.msg.data.drop 1) = c.RAM_MAX) (hmin : c.RAM_MIN ≤ c.RAM_MAX)
    (hmax : c.RAM_MAX + 1 < 2 ^ 32) :
    (cmd_wmba c s).mem (c.RAM_MAX + 1) = s.msg.data.getD 6 0 := by
  have h1 : ¬ s.msg.datalen < 6 := by omega
  have h2 : ¬ (s.msg.data.getD 4 0 = 0 ∨ s.msg.data.getD 4 0 > 250 ∨
      s.msg.datalen ≠ s.msg.data.getD 4 0 + 5) := by omega
  have h3 : ¬ (reconst_24 (s.msg.data.drop 1) < c.RAM_MIN ∨
      reconst_24 (s.msg.data.drop 1) > c.RAM_MAX) := by omega
  have hsrc : (s.msg.data.drop 5).take 2 = [s.msg.data.getD 5 0, s.msg.data.getD 6 0] := by
    obtain ⟨l1, l2, hl, hl1⟩ : ∃ l1 l2, s.msg.data = l1 ++ l2 ∧ l1.length = 7 :=
      ⟨s.msg.data.take 7, s.msg.data.drop 7, (List.take_append_drop 7 _).symm, by simp [hlen]⟩
    rw [hl]
    match l1, hl1 with
    | [t0, t1, t2, t3, t4, t5, t6], _ => simp
  simp only [cmd_wmba, if_neg h1, if_neg h2, if_neg h3]
  rw [hsiz, hsrc, haddr]
  simp only [iso_sendpkt, mem_write]
  rw [Nat.mod_eq_of_lt hmax]
  simp

/-- C3 (every destination address of an accepted write-memory request lies in the RAM
window) does not hold of the code.  With RAM ending at `0xFFFFBFFF`, a session that
opens with start-communication and then requests a 2-byte write at `0xFFFFBFFF`
gets the positive response, and the byte at `0xFFFFC000`, above `RAM_MAX`, is
overwritten: `cmd_wmba` checks the first destination address only. -/
theorem cmd_wmba_writes_above_RAM_MAX :
    (cmd_loop_run sampleConsts samplePlatform (cmd_loop_entry (fun _ => 0))
      ([0x01, 0x81, 0x82, 0x07, 0x3D, 0xFF, 0xBF, 0xFF, 0x02, 0xAA, 0xBB, 0x68].map
        SciEvent.byte)).sent
      = [[0x03, 0xC1, 0x67, 0x8F, 0xBA], [0x04, 0x7D, 0xFF, 0xBF, 0xFF, 0x3E]] ∧
    sampleConsts.RAM_MAX < 0xFFFFC000 ∧
    (cmd_loop_entry (fun _ => 0)).mem 0xFFFFC000 = 0 ∧
    (cmd_loop_run sampleConsts samplePlatform (cmd_loop_entry (fun _ => 0))
      ([0x01, 0x81, 0x82, 0x07, 0x3D, 0xFF, 0xBF, 0xFF, 0x02, 0xAA, 0xBB, 0x68].map
        SciEvent.byte)).mem 0xFFFFC000 = 0xBB :=
  ⟨by rfl, by decide, by rfl, by rfl⟩

theorem startcomm_packet (s : SerState) :
    cmd_startcomm s =
      { s with sent := s.sent ++ [[0x03, 0xC1, 0x67, 0x8F, 0xBA]],
               flashstate := t_flashsm.FL_IDLE } := by
  simp [cmd_startcomm, iso_sendpkt, iso_sendpkt_bytes, startcomm_resp, cks_u8, cks_u8_loop]

/-- C5: a completely received frame (a) in state Idle whose first data byte is not
the start-communication SID changes nothing but the cleared message: nothing is
sent, no handler runs, the state stays Idle; (b) in any state whose first data
byte is the start-communication SID puts `03 C1 67 8F BA` on the wire, leaves the
session Ready and the flash session Idle. -/
theorem cmd_loop_session_state (c : Consts) (pf : Platform) (s : SerState) (rxbyte : Nat)
    (hlive : s.dead = false)
    (hdone : (iso_parserx s.msg rxbyte).1 = iso_prc.ISO_PRC_DONE) :
    (s.cmstate = t_cmdsm.CM_IDLE →
      (iso_parserx s.msg rxbyte).2.data.getD 0 0 ≠ c.SID_STARTCOMM →
      cmd_loop_step c pf s (SciEvent.byte rxbyte) =
        { s with msg := iso_clearmsg (iso_parserx s.msg rxbyte).2 }) ∧
    ((iso_parserx s.msg rxbyte).2.data.getD 0 0 = c.SID_STARTCOMM →
      cmd_loop_step c pf s (SciEvent.byte rxbyte) =
        { s with msg := iso_clearmsg (iso_parserx s.msg rxbyte).2,
                 sent := s.sent ++ [[0x03, 0xC1, 0x67, 0x8F, 0xBA]],
                 cmstate := t_cmdsm.CM_READY,
                 flashstate := t_flashsm.FL_IDLE }) := by
  constructor
  · intro hidle hsid
    simp only [cmd_loop_step, hlive, hdone, cmd_dispatch, hidle, if_neg hsid]
    simp
  · intro hsid
    cases hcm : s.cmstate with
    | CM_IDLE =>
      simp only [cmd_loop_step, hlive, hdone, cmd_dispatch, hcm, if_pos hsid, startcomm_packet]
      simp
    | CM_READY =>
      simp only [cmd_loop_step, hlive, hdone, cmd_dispatch, hcm, cmd_ready, if_pos hsid,
        startcomm_packet]
      simp

theorem cmd_loop_session_state_witness :
    (cmd_loop_step sampleConsts samplePlatform
      (sampleSer t_cmdsm.CM_IDLE t_flashsm.FL_READY (feed msg0 [0x01, 0x3E]).2)
      (SciEvent.byte 0x3F)).sent = [] ∧
    (cmd_loop_step sampleConsts samplePlatform
      (sampleSer t_cmdsm.CM_IDLE t_flashsm.FL_READY (feed msg0 [0x01, 0x3E]).2)
      (SciEvent.byte 0x3F)).cmstate = t_cmdsm.CM_IDLE ∧
    (cmd_loop_step sampleConsts samplePlatform
      (sampleSer t_cmdsm.CM_IDLE t_flashsm.FL_READY (feed msg0 [0x01, 0x81]).2)
      (SciEvent.byte 0x82)).sent = [[0x03, 0xC1, 0x67, 0x8F, 0xBA]] ∧
    (cmd_loop_step sampleConsts samplePlatform
      (sampleSer t_cmdsm.CM_IDLE t_flashsm.FL_READY (feed msg0 [0x01, 0x81]).2)
      (SciEvent.byte 0x82)).cmstate = t_cmdsm.CM_READY ∧
    (cmd_loop_step sampleConsts samplePlatform
      (sampleSer t_cmdsm.CM_IDLE t_flashsm.FL_READY (feed msg0 [0x01, 0x81]).2)
      (SciEvent.byte 0x82)).flashstate = t_flashsm.FL_IDLE :=
  have ha := (cmd_loop_session_state sampleConsts samplePlatform
    (sampleSer t_cmdsm.CM_IDLE t_flashsm.FL_READY (feed msg0 [0x01, 0x3E]).2) 0x3F
    rfl (by rfl)).1 rfl (by decide)
  have hb := (cmd_loop_session_state sampleConsts samplePlatform
    (sampleSer t_cmdsm.CM_IDLE t_flashsm.FL_READY (feed msg0 [0x01, 0x81]).2) 0x82
    rfl (by rfl)).2 (by rfl)
  ⟨by rw [ha]; rfl, by rw [ha]; rfl, by rw [hb]; rfl, by rw [hb], by rw [hb]⟩

/-- C6 (as stated, refuted): in state Ready the byte `0x40` (unsupported addressing
mode) makes `iso_parserx` return ERROR, and the session state afterwards is still
Ready. -/
theorem cmd_loop_parser_error_keeps_ready :
    (iso_parserx (sampleSer t_cmdsm.CM_READY t_flashsm.FL_READY msg0).msg 0x40).1
      = iso_prc.ISO_PRC_ERROR ∧
    (cmd_loop_step sampleConsts samplePlatform
      (sampleSer t_cmdsm.CM_READY t_flashsm.FL_READY msg0) (SciEvent.byte 0x40)).cmstate
      = t_cmdsm.CM_READY :=
  ⟨by rfl, by rfl⟩

/-- C6 (amended): when `iso_parserx` returns ERROR for a received byte the loop sends
nothing, clears the frame-in-progress, purges the input and leaves both session
states as they were; when transport error flags are observed the loop sends
nothing, clears the frame-in-progress, purges the input and both session states
become Idle. -/
theorem cmd_loop_framing_errors (c : Consts) (pf : Platform) (s : SerState)
    (hlive : s.dead = false) :
    (∀ rxbyte, (iso_parserx s.msg rxbyte).1 = iso_prc.ISO_PRC_ERROR →
      cmd_loop_step c pf s (SciEvent.byte rxbyte) =
        { s with msg := iso_clearmsg (iso_parserx s.msg rxbyte).2,
                 calls := s.calls ++ [Call.sci_rxidle MAX_INTERBYTE] }) ∧
    cmd_loop_step c pf s SciEvent.error_flags =
      { s with cmstate := t_cmdsm.CM_IDLE, flashstate := t_flashsm.FL_IDLE,
               msg := iso_clearmsg s.msg,
               calls := s.calls ++ [Call.sci_rxidle MAX_INTERBYTE] } := by
  constructor
  · intro rxbyte herr
    simp only [cmd_loop_step, hlive, herr, sci_rxidle]
    simp
  · simp only [cmd_loop_step, hlive, sci_rxidle]
    simp

theorem cmd_loop_framing_errors_witness :
    (sampleSer t_cmdsm.CM_READY t_flashsm.FL_READY msg0).dead = false ∧
    (cmd_loop_step sampleConsts samplePlatform
      (sampleSer t_cmdsm.CM_READY t_flashsm.FL_READY msg0) (SciEvent.byte 0x40)).sent = [] ∧
    (cmd_loop_step sampleConsts samplePlatform
      (sampleSer t_cmdsm.CM_READY t_flashsm.FL_READY msg0) SciEvent.error_flags).cmstate
      = t_cmdsm.CM_IDLE :=
  have h := cmd_loop_framing_errors sampleConsts samplePlatform
    (sampleSer t_cmdsm.CM_READY t_flashsm.FL_READY msg0) rfl
  ⟨rfl, by rw [h.1 0x40 (by rfl)]; rfl, by rw [h.2]⟩

theorem iso_sendpkt_calls (s : SerState) (buf : List Nat) (len : Nat) :
    (iso_sendpkt s buf len).calls = s.calls := by
  unfold iso_sendpkt; split <;> rfl

theorem tx_7F_calls (s : SerState) (sid nrc : Nat) : (tx_7F s sid nrc).calls = s.calls :=
  iso_sendpkt_calls s _ _

/-- C7: while the flash session is not Ready, `cmd_flash_utils` answers every request
with exactly `0x7F, SID_FLASH, ISO_NRC_CNCORSE` and changes nothing else: none of
the flash collaborator's operations is invoked. -/
theorem cmd_flash_utils_gated (c : Consts) (pf : Platform) (s : SerState)
    (hsid : c.SID_FLASH < 256) (hnrc : c.ISO_NRC_CNCORSE < 256)
    (hfl : s.flashstate ≠ t_flashsm.FL_READY) :
    cmd_flash_utils c pf s =
      { s with sent := s.sent ++ [[3, 0x7F, c.SID_FLASH, c.ISO_NRC_CNCORSE,
          (3 + 0x7F + c.SID_FLASH + c.ISO_NRC_CNCORSE) % 256]] } ∧
    (cmd_flash_utils c pf s).calls = s.calls := by
  have h : cmd_flash_utils c pf s = tx_7F s c.SID_FLASH c.ISO_NRC_CNCORSE := by
    simp only [cmd_flash_utils, if_pos hfl]
  rw [h, tx_7F_sent s _ _ hsid hnrc]
  exact ⟨rfl, rfl⟩

theorem cmd_flash_utils_gated_witness :
    (sampleSer t_cmdsm.CM_READY t_flashsm.FL_IDLE (sampleMsg [0xBC, 0x01, 0x05])).flashstate
      ≠ t_flashsm.FL_READY ∧
    (cmd_flash_utils sampleConsts samplePlatform
      (sampleSer t_cmdsm.CM_READY t_flashsm.FL_IDLE (sampleMsg [0xBC, 0x01, 0x05]))).sent
      = [[0x03, 0x7F, 0xBC, 0x22, 0x60]] ∧
    (cmd_flash_utils sampleConsts samplePlatform
      (sampleSer t_cmdsm.CM_READY t_flashsm.FL_IDLE (sampleMsg [0xBC, 0x01, 0x05]))).calls
      = [] :=
  have h := cmd_flash_utils_gated sampleConsts samplePlatform
    (sampleSer t_cmdsm.CM_READY t_flashsm.FL_IDLE (sampleMsg [0xBC, 0x01, 0x05]))
    (by decide) (by decide) (by decide)
  ⟨by decide, by rw [h.1]; rfl, by rw [h.2]; rfl⟩

/-- C8: serial write-block with the flash session Ready and data length
`SIDFL_WB_DLEN + 6`.  If `cks_add8` over the address and payload bytes differs from
the trailing byte, the answer is `0x7F, SID_FLASH, SID_CONF_CKS1_BADCKS` and nothing
else changes (no collaborator call); if it is equal, exactly one collaborator call
is made, `platf_flash_wb` with address `data[2]*65536 + data[3]*256 + data[4]`, the
payload `data[5..5+SIDFL_WB_DLEN)` and length `SIDFL_WB_DLEN`. -/
theorem cmd_flash_utils_write_block (c : Consts) (pf : Platform) (s : SerState)
    (hsid : c.SID_FLASH < 256) (hbad : c.SID_CONF_CKS1_BADCKS < 256)
    (hcase : c.SIDFL_EB ≠ c.SIDFL_WB)
    (hfl : s.flashstate = t_flashsm.FL_READY)
    (hsub : s.msg.data.getD 1 0 = c.SIDFL_WB)
    (hlen : s.msg.datalen = c.SIDFL_WB_DLEN + 6)
    (hb3 : s.msg.data.getD 3 0 < 256) (hb4 : s.msg.data.getD 4 0 < 256) :
    (cks_add8 (s.msg.data.drop 2) (c.SIDFL_WB_DLEN + 3)
        ≠ s.msg.data.getD (c.SIDFL_WB_DLEN + 5) 0 →
      cmd_flash_utils c pf s =
        { s with sent := s.sent ++ [[3, 0x7F, c.SID_FLASH, c.SID_CONF_CKS1_BADCKS,
            (3 + 0x7F + c.SID_FLASH + c.SID_CONF_CKS1_BADCKS) % 256]] }) ∧
    (cks_add8 (s.msg.data.drop 2) (c.SIDFL_WB_DLEN + 3)
        = s.msg.data.getD (c.SIDFL_WB_DLEN + 5) 0 →
      (cmd_flash_utils c pf s).calls = s.calls ++
        [Call.platf_flash_wb
          (s.msg.data.getD 2 0 * 65536 + s.msg.data.getD 3 0 * 256 + s.msg.data.getD 4 0)
          ((s.msg.data.drop 5).take c.SIDFL_WB_DLEN) c.SIDFL_WB_DLEN]) := by
  have hfl' : ¬ s.flashstate ≠ t_flashsm.FL_READY := by simp [hfl]
  have hdl : ¬ s.msg.datalen ≤ 1 := by omega
  have heb : ¬ c.SIDFL_WB = c.SIDFL_EB := fun h => hcase h.symm
  have hdl' : ¬ c.SIDFL_WB_DLEN + 6 ≤ 1 := by omega
  constructor
  · intro hck
    have h : cmd_flash_utils c pf s = tx_7F s c.SID_FLASH c.SID_CONF_CKS1_BADCKS := by
      simp only [cmd_flash_utils, if_neg hfl', if_neg hdl, if_neg hdl', hsub, if_neg heb, hlen,
        ne_eq, not_true_eq_false, if_false, if_true]
      rw [if_pos hck]
    rw [h, tx_7F_sent s _ _ hsid hbad]
  · intro hck
    simp only [cmd_flash_utils, if_neg hfl', if_neg hdl, if_neg hdl', hsub, if_neg heb, hlen,
      ne_eq, not_true_eq_false, if_false, if_true, hck, shl16_or3 _ _ _ hb3 hb4]
    split
    · rw [tx_7F_calls]
    · rw [iso_sendpkt_calls]

set_option maxRecDepth 100000 in
theorem cmd_flash_utils_write_block_witness :
    (cmd_flash_utils sampleConsts samplePlatform
      (sampleSer t_cmdsm.CM_READY t_flashsm.FL_READY
        (sampleMsg ([0xBC, 0x02, 0x01, 0x02, 0x03] ++ List.replicate 128 0 ++ [7])))).sent
      = [[0x03, 0x7F, 0xBC, 0x77, 0xB5]] ∧
    (cmd_flash_utils sampleConsts samplePlatform
      (sampleSer t_cmdsm.CM_READY t_flashsm.FL_READY
        (sampleMsg ([0xBC, 0x02, 0x01, 0x02, 0x03] ++ List.replicate 128 0 ++ [6])))).calls
      = [Call.platf_flash_wb 0x010203 (List.replicate 128 0) 128] :=
  have hbad := (cmd_flash_utils_write_block sampleConsts samplePlatform
    (sampleSer t_cmdsm.CM_READY t_flashsm.FL_READY
      (sampleMsg ([0xBC, 0x02, 0x01, 0x02, 0x03] ++ List.replicate 128 0 ++ [7])))
    (by decide) (by decide) (by decide) rfl (by rfl) (by rfl) (by decide) (by decide)).1
    (by decide)
  have hok := (cmd_flash_utils_write_block sampleConsts samplePlatform
    (sampleSer t_cmdsm.CM_READY t_flashsm.FL_READY
      (sampleMsg ([0xBC, 0x02, 0x01, 0x02, 0x03] ++ List.replicate 128 0 ++ [6])))
    (by decide) (by decide) (by decide) rfl (by rfl) (by rfl) (by decide) (by decide)).2
    (by rfl)
  ⟨by rw [hbad]; rfl, by rw [hok]; rfl⟩

/-! ### Lemmas on the CAN handlers -/

theorem overwrite8 (buf : List Nat) (h : 8 ≤ buf.length) (a0 a1 a2 a3 a4 a5 a6 a7 : Nat) :
    overwrite buf 0 [a0, a1, a2, a3, a4, a5, a6, a7]
      = a0 :: a1 :: a2 :: a3 :: a4 :: a5 :: a6 :: a7 :: buf.drop 8 := by
  obtain ⟨l1, l2, rfl, hl1⟩ : ∃ l1 l2, buf = l1 ++ l2 ∧ l1.length = 8 :=
    ⟨buf.take 8, buf.drop 8, (List.take_append_drop 8 buf).symm, by simp [h]⟩
  match l1, hl1 with
  | [t0, t1, t2, t3, t4, t5, t6, t7], _ => simp [overwrite]

theorem can_tx8bytes_calls (s : CanState) (buf : List Nat) :
    (can_tx8bytes s buf).calls = s.calls := rfl

theorem can_reject_calls (s : CanState) (msg : List Nat) (code : Nat) :
    (can_reject s msg code).calls = s.calls := rfl

/-- The three tests of `can_cmd_flash_128bytes` pass: the write collaborator is called. -/
theorem can_cmd_flash_128bytes_write (pf : Platform) (s : CanState)
    (b0 b1 b2 b3 b4 b5 b6 b7 : Nat) (hb2 : b2 < 256) (hb3 : b3 < 256)
    (htag : b1 &&& 0x07 = 3) (hck : b4 = flashCheckSum s.flashbuffer)
    (hseq : b2 * 256 + b3 = s.counter128byteblock) (htx : 8 ≤ s.txbuf.length) :
    can_cmd_flash_128bytes pf s [b0, b1, b2, b3, b4, b5, b6, b7] =
      (let addr := (s.flashaddr + 128 * s.counter128byteblock) % 2 ^ 32
       let s1 := { s with txbuf := b0 :: b1 :: b2 :: b3 :: b4 :: b5 :: b6 :: b7 :: s.txbuf.drop 8,
                          calls := s.calls ++ [Call.platf_flash_wb addr s.flashbuffer 128] }
       if pf.platf_flash_wb addr s.flashbuffer 128 % 2 ^ 32 ≠ 0 then
         can_reject s1 [b0, b1, b2, b3, b4, b5, b6, b7]
           (pf.platf_flash_wb addr s.flashbuffer 128 % 2 ^ 32)
       else
         { s1 with txbuf := 0x7A :: ((b1 &&& 0xF8) ||| 0x00) :: b2 :: b3 :: b4 :: b5 :: b6 ::
                     b7 :: s.txbuf.drop 8,
                   cantx := s.cantx ++ [[0x7A, (b1 &&& 0xF8) ||| 0x00, b2, b3, b4, b5, b6, b7]] }) := by
  have hs : (b2 <<< 8 ||| b3) % 2 ^ 32 = s.counter128byteblock := by
    rw [shl8_or b2 b3 hb3, Nat.mod_eq_of_lt (by omega), hseq]
  have haddr : (s.flashaddr + 128 * s.counter128byteblock % 2 ^ 32) % 2 ^ 32
      = (s.flashaddr + 128 * s.counter128byteblock) % 2 ^ 32 := by omega
  simp only [can_cmd_flash_128bytes, List.getD_cons_succ, List.getD_cons_zero, htag, ne_eq,
    not_true_eq_false, if_false, ← hck, hs, haddr, List.take, overwrite8 _ htx]
  split
  · rfl
  · simp [can_tx8bytes]
/-- A command frame with `byte1 & 0xF8 = 0xF8` received in CommandMode is handed to
`can_cmd_flash_128bytes`; what `can_cmd_loop` does afterwards touches the block
counter and the mode only. -/
theorem can_cmd_loop_step_F8 (pf : Platform) (mem : Nat → Nat) (s : CanState)
    (b1 b2 b3 b4 b5 b6 b7 : Nat) (hlive : s.dead = false) (hmode : s.loadingblocks = false)
    (hcmd : b1 &&& 0xF8 = 0xF8) :
    ∃ ctr mode,
      can_cmd_loop_step pf mem s (CanEvent.frame [0x7A, b1, b2, b3, b4, b5, b6, b7]) =
        { can_cmd_flash_128bytes pf { s with currentmsg := [0x7A, b1, b2, b3, b4, b5, b6, b7] }
            [0x7A, b1, b2, b3, b4, b5, b6, b7] with
          counter128byteblock := ctr, loadingblocks := mode } := by
  simp only [can_cmd_loop_step, hlive, can_cmd_process, hmode, List.take, List.getD_cons_zero,
    List.getD_cons_succ, hcmd]
  simp only [Bool.false_eq_true, if_false, if_true, Nat.reduceEqDiff]
  split
  · exact ⟨_, _, rfl⟩
  · exact ⟨_, _, rfl⟩

/-- C9: CAN block-write-complete, success case.  For a frame `7A FB` whose byte 4 is
the checksum of the staged bytes and whose bytes 2 and 3 hold the current block
counter, `can_cmd_flash_128bytes` calls the write collaborator exactly once, with
address `(flashaddr + 128 * counter) mod 2^32`, the staging buffer and length 128,
and when the collaborator returns 0 the reply frame is `7A F8` followed by bytes
2 to 7 of the request.  The same holds for the turn of `can_cmd_loop` that
receives the frame in CommandMode. -/
theorem can_block_write_success (pf : Platform) (mem : Nat → Nat) (s : CanState)
    (b2 b3 b4 b5 b6 b7 : Nat) (hb2 : b2 < 256) (hb3 : b3 < 256)
    (hck : b4 = flashCheckSum s.flashbuffer)
    (hseq : b2 * 256 + b3 = s.counter128byteblock) (htx : 8 ≤ s.txbuf.length) :
    (can_cmd_flash_128bytes pf s [0x7A, 0xFB, b2, b3, b4, b5, b6, b7]).calls =
      s.calls ++ [Call.platf_flash_wb ((s.flashaddr + 128 * s.counter128byteblock) % 2 ^ 32)
        s.flashbuffer 128] ∧
    (pf.platf_flash_wb ((s.flashaddr + 128 * s.counter128byteblock) % 2 ^ 32)
        s.flashbuffer 128 % 2 ^ 32 = 0 →
      (can_cmd_flash_128bytes pf s [0x7A, 0xFB, b2, b3, b4, b5, b6, b7]).cantx =
        s.cantx ++ [[0x7A, 0xF8, b2, b3, b4, b5, b6, b7]]) ∧
    (s.dead = false → s.loadingblocks = false →
      (can_cmd_loop_step pf mem s (CanEvent.frame [0x7A, 0xFB, b2, b3, b4, b5, b6, b7])).calls =
        s.calls ++ [Call.platf_flash_wb ((s.flashaddr + 128 * s.counter128byteblock) % 2 ^ 32)
          s.flashbuffer 128] ∧
      (pf.platf_flash_wb ((s.flashaddr + 128 * s.counter128byteblock) % 2 ^ 32)
          s.flashbuffer 128 % 2 ^ 32 = 0 →
        (can_cmd_loop_step pf mem s
            (CanEvent.frame [0x7A, 0xFB, b2, b3, b4, b5, b6, b7])).cantx =
          s.cantx ++ [[0x7A, 0xF8, b2, b3, b4, b5, b6, b7]])) := by
  have key : ∀ t : CanState, t.flashbuffer = s.flashbuffer →
      t.counter128byteblock = s.counter128byteblock → t.flashaddr = s.flashaddr →
      t.txbuf = s.txbuf → t.calls = s.calls → t.cantx = s.cantx →
      (can_cmd_flash_128bytes pf t [0x7A, 0xFB, b2, b3, b4, b5, b6, b7]).calls =
        s.calls ++ [Call.platf_flash_wb ((s.flashaddr + 128 * s.counter128byteblock) % 2 ^ 32)
          s.flashbuffer 128] ∧
      (pf.platf_flash_wb ((s.flashaddr + 128 * s.counter128byteblock) % 2 ^ 32)
          s.flashbuffer 128 % 2 ^ 32 = 0 →
        (can_cmd_flash_128bytes pf t [0x7A, 0xFB, b2, b3, b4, b5, b6, b7]).cantx =
          s.cantx ++ [[0x7A, 0xF8, b2, b3, b4, b5, b6, b7]]) := by
    intro t h1 h2 h3 h4 h5 h6
    rw [can_cmd_flash_128bytes_write pf t 0x7A 0xFB b2 b3 b4 b5 b6 b7 hb2 hb3 (by decide)
      (by rw [h1]; exact hck) (by rw [h2]; exact hseq) (by rw [h4]; exact htx)]
    simp only [h1, h2, h3, h4, h5, h6]
    constructor
    · split
      · rfl
      · rfl
    · intro hok
      rw [if_neg (not_not.mpr hok)]
      rfl
  refine ⟨(key s rfl rfl rfl rfl rfl rfl).1, (key s rfl rfl rfl rfl rfl rfl).2, ?_⟩
  intro hlive hmode
  obtain ⟨ctr, mode, hstep⟩ :=
    can_cmd_loop_step_F8 pf mem s 0xFB b2 b3 b4 b5 b6 b7 hlive hmode (by decide)
  rw [hstep]
  exact key { s with currentmsg := [0x7A, 0xFB, b2, b3, b4, b5, b6, b7] } rfl rfl rfl rfl rfl rfl

set_option maxRecDepth 100000 in
theorem can_block_write_success_witness :
    (0x80 : Nat) = flashCheckSum (sampleCan (List.replicate 128 1) 2 false).flashbuffer ∧
    (can_cmd_loop_step samplePlatform (fun _ => 0) (sampleCan (List.replicate 128 1) 2 false)
      (CanEvent.frame [0x7A, 0xFB, 0x00, 0x02, 0x80, 0x11, 0x22, 0x33])).calls =
        [Call.platf_flash_wb 0x20100 (List.replicate 128 1) 128] ∧
    (can_cmd_loop_step samplePlatform (fun _ => 0) (sampleCan (List.replicate 128 1) 2 false)
      (CanEvent.frame [0x7A, 0xFB, 0x00, 0x02, 0x80, 0x11, 0x22, 0x33])).cantx =
        [[0x7A, 0xF8, 0x00, 0x02, 0x80, 0x11, 0x22, 0x33]] :=
  have h := (can_block_write_success samplePlatform (fun _ => 0)
    (sampleCan (List.replicate 128 1) 2 false) 0x00 0x02 0x80 0x11 0x22 0x33
    (by decide) (by decide) (by rfl) (by rfl) (by simp [sampleCan])).2.2 rfl rfl
  ⟨by rfl, h.1, h.2 (by rfl)⟩

/-- The sequence test of `can_cmd_flash_128bytes` fails: a negative frame, nothing else. -/
theorem can_cmd_flash_128bytes_badseq (pf : Platform) (s : CanState)
    (b0 b1 b2 b3 b4 b5 b6 b7 : Nat) (hb2 : b2 < 256) (hb3 : b3 < 256)
    (htag : b1 &&& 0x07 = 3) (hck : b4 = flashCheckSum s.flashbuffer)
    (hseq : b2 * 256 + b3 ≠ s.counter128byteblock) (htx : 8 ≤ s.txbuf.length) :
    can_cmd_flash_128bytes pf s [b0, b1, b2, b3, b4, b5, b6, b7] =
      { s with
        txbuf := 0x7F :: ((b1 &&& 0xF8) ||| 0x05) :: 0x32 ::
          ((s.counter128byteblock >>> 8) &&& 0xFF) :: (s.counter128byteblock &&& 0xFF) ::
          ((s.num128byteblocks >>> 8) &&& 0xFF) :: (s.num128byteblocks &&& 0xFF) :: b7 ::
          s.txbuf.drop 8,
        cantx := s.cantx ++ [[0x7F, (b1 &&& 0xF8) ||| 0x05, 0x32,
          (s.counter128byteblock >>> 8) &&& 0xFF, s.counter128byteblock &&& 0xFF,
          (s.num128byteblocks >>> 8) &&& 0xFF, s.num128byteblocks &&& 0xFF, b7]] } := by
  have hs : (b2 <<< 8 ||| b3) % 2 ^ 32 = b2 * 256 + b3 := by
    rw [shl8_or b2 b3 hb3, Nat.mod_eq_of_lt (by omega)]
  have hne : ¬ s.counter128byteblock = b2 * 256 + b3 := fun h => hseq h.symm
  simp only [can_cmd_flash_128bytes, List.getD_cons_succ, List.getD_cons_zero, htag, ne_eq,
    not_true_eq_false, if_false, ← hck, hs, hne, if_true, List.take, overwrite8 _ htx]
  simp [can_tx8bytes]

/-- C10: CAN block-write-complete, wrong sequence number.  For a frame with tag 3
and the right checksum in byte 4 whose bytes 2 and 3 differ from the block counter
`c`, no collaborator is called, the staging buffer is unchanged and the reply frame
is exactly `7F, (byte1 & 0xF8) | 5, 32, c >> 8, c, total >> 8, total, byte7` (each
reduced to a byte).  The same holds for the turn of `can_cmd_loop` that receives
such a frame `7A F8|3` in CommandMode. -/
theorem can_block_write_wrong_sequence (pf : Platform) (mem : Nat → Nat) (s : CanState)
    (b0 b1 b2 b3 b4 b5 b6 b7 : Nat) (hb2 : b2 < 256) (hb3 : b3 < 256)
    (htag : b1 &&& 0x07 = 3) (hck : b4 = flashCheckSum s.flashbuffer)
    (hseq : b2 * 256 + b3 ≠ s.counter128byteblock) (htx : 8 ≤ s.txbuf.length) :
    ((can_cmd_flash_128bytes pf s [b0, b1, b2, b3, b4, b5, b6, b7]).calls = s.calls ∧
     (can_cmd_flash_128bytes pf s [b0, b1, b2, b3, b4, b5, b6, b7]).flashbuffer
        = s.flashbuffer ∧
     (can_cmd_flash_128bytes pf s [b0, b1, b2, b3, b4, b5, b6, b7]).cantx =
        s.cantx ++ [[0x7F, (b1 &&& 0xF8) ||| 0x05, 0x32,
          (s.counter128byteblock >>> 8) &&& 0xFF, s.counter128byteblock &&& 0xFF,
          (s.num128byteblocks >>> 8) &&& 0xFF, s.num128byteblocks &&& 0xFF, b7]]) ∧
    (s.dead = false → s.loadingblocks = false → b0 = 0x7A → b1 &&& 0xF8 = 0xF8 →
      (can_cmd_loop_step pf mem s (CanEvent.frame [b0, b1, b2, b3, b4, b5, b6, b7])).calls
        = s.calls ∧
      (can_cmd_loop_step pf mem s (CanEvent.frame [b0, b1, b2, b3, b4, b5, b6, b7])).flashbuffer
        = s.flashbuffer ∧
      (can_cmd_loop_step pf mem s (CanEvent.frame [b0, b1, b2, b3, b4, b5, b6, b7])).cantx =
        s.cantx ++ [[0x7F, (b1 &&& 0xF8) ||| 0x05, 0x32,
          (s.counter128byteblock >>> 8) &&& 0xFF, s.counter128byteblock &&& 0xFF,
          (s.num128byteblocks >>> 8) &&& 0xFF, s.num128byteblocks &&& 0xFF, b7]]) := by
  constructor
  · rw [can_cmd_flash_128bytes_badseq pf s b0 b1 b2 b3 b4 b5 b6 b7 hb2 hb3 htag hck hseq htx]
    exact ⟨rfl, rfl, rfl⟩
  · intro hlive hmode h0 hcmd
    subst h0
    obtain ⟨ctr, mode, hstep⟩ :=
      can_cmd_loop_step_F8 pf mem s b1 b2 b3 b4 b5 b6 b7 hlive hmode hcmd
    have hb := can_cmd_flash_128bytes_badseq pf
      { s with currentmsg := [0x7A, b1, b2, b3, b4, b5, b6, b7] }
      0x7A b1 b2 b3 b4 b5 b6 b7 hb2 hb3 htag hck hseq htx
    rw [hstep, hb]
    exact ⟨rfl, rfl, rfl⟩

set_option maxRecDepth 100000 in
theorem can_block_write_wrong_sequence_witness :
    (0x80 : Nat) = flashCheckSum (sampleCan (List.replicate 128 1) 2 false).flashbuffer ∧
    0x00 * 256 + 0x05 ≠ (sampleCan (List.replicate 128 1) 2 false).counter128byteblock ∧
    (can_cmd_loop_step samplePlatform (fun _ => 0) (sampleCan (List.replicate 128 1) 2 false)
      (CanEvent.frame [0x7A, 0xFB, 0x00, 0x05, 0x80, 0x11, 0x22, 0x33])).calls = [] ∧
    (can_cmd_loop_step samplePlatform (fun _ => 0) (sampleCan (List.replicate 128 1) 2 false)
      (CanEvent.frame [0x7A, 0xFB, 0x00, 0x05, 0x80, 0x11, 0x22, 0x33])).flashbuffer
        = List.replicate 128 1 ∧
    (can_cmd_loop_step samplePlatform (fun _ => 0) (sampleCan (List.replicate 128 1) 2 false)
      (CanEvent.frame [0x7A, 0xFB, 0x00, 0x05, 0x80, 0x11, 0x22, 0x33])).cantx =
        [[0x7F, 0xFD, 0x32, 0x00, 0x02, 0x00, 0x04, 0x33]] :=
  have h := (can_block_write_wrong_sequence samplePlatform (fun _ => 0)
    (sampleCan (List.replicate 128 1) 2 false) 0x7A 0xFB 0x00 0x05 0x80 0x11 0x22 0x33
    (by decide) (by decide) (by decide) (by rfl) (by decide) (by simp [sampleCan])).2
    rfl rfl rfl (by decide)
  ⟨by rfl, by decide, h.1, h.2.1, h.2.2⟩

/-! ### The end-around-carry checksum -/

theorem and_100_ne_zero_iff (x : Nat) (h : x < 512) : (x &&& 0x100 ≠ 0 ↔ 256 ≤ x) := by
  have h1 : x &&& 0x100 = (if x.testBit 8 then 256 else 0) := by
    apply Nat.eq_of_testBit_eq
    intro i
    rw [Nat.testBit_and]
    by_cases h8 : i = 8
    · subst h8; cases hx : x.testBit 8 <;> simp [hx]
    · have : Nat.testBit 256 i = false := Nat.testBit_two_pow_of_ne (n := 8) (Ne.symm h8)
      rw [this]; split <;> simp [this]
  rw [h1, Nat.testBit_to_div_mod]
  have : x / 2 ^ 8 < 2 := by omega
  split <;> rename_i hd <;> simp at hd <;> omega

/-- One turn of the loop of `cks_add8` on byte values: add, and subtract 255 when
the sum leaves the byte range. -/
theorem cks_add8_loop_cons (d : Nat) (ds : List Nat) (sum : Nat) (hs : sum ≤ 255)
    (hd : d < 256) :
    cks_add8_loop (d :: ds) sum =
      cks_add8_loop ds (if 256 ≤ sum + d then sum + d - 255 else sum + d) := by
  have h1 : (sum + d) % 65536 = sum + d := Nat.mod_eq_of_lt (by omega)
  have h2 := and_100_ne_zero_iff (sum + d) (by omega)
  simp only [cks_add8_loop, h1]
  by_cases hc : 256 ≤ sum + d
  · rw [if_pos (h2.mpr hc), if_pos hc]
    have h3 : (sum + d + 1) % 65536 % 256 = sum + d - 255 := by omega
    rw [h3]
  · rw [if_neg (fun h => hc (h2.mp h)), if_neg hc]
    have h3 : (sum + d) % 256 = sum + d := by omega
    rw [h3]

theorem cks_add8_loop_spec (ds : List Nat) : ∀ (sum : Nat), sum ≤ 255 →
    (∀ b ∈ ds, b < 256) →
      cks_add8_loop ds sum ≤ 255 ∧
      cks_add8_loop ds sum % 255 = (sum + ds.sum) % 255 ∧
      (cks_add8_loop ds sum = 0 ↔ sum = 0 ∧ ∀ b ∈ ds, b = 0) := by
  induction ds with
  | nil => intro sum hs _; simp [cks_add8_loop, hs]
  | cons d ds ih =>
    intro sum hs hb
    have hd : d < 256 := hb d (List.mem_cons_self _ _)
    have hb' : ∀ b ∈ ds, b < 256 := fun b h => hb b (List.mem_cons_of_mem _ h)
    rw [cks_add8_loop_cons d ds sum hs hd]
    by_cases hc : 256 ≤ sum + d
    · rw [if_pos hc]
      obtain ⟨i1, i2, i3⟩ := ih (sum + d - 255) (by omega) hb'
      refine ⟨i1, ?_, ?_⟩
      · rw [i2, List.sum_cons]; omega
      · rw [i3]
        constructor
        · intro ⟨h, _⟩; omega
        · intro ⟨h, h'⟩
          have := h' d (List.mem_cons_self _ _)
          omega
    · rw [if_neg hc]
      obtain ⟨i1, i2, i3⟩ := ih (sum + d) (by omega) hb'
      refine ⟨i1, ?_, ?_⟩
      · rw [i2, List.sum_cons]; omega
      · rw [i3]
        constructor
        · intro ⟨h, h'⟩
          refine ⟨by omega, ?_⟩
          intro b hbm
          rcases List.mem_cons.mp hbm with rfl | hm
          · omega
          · exact h' b hm
        · intro ⟨h, h'⟩
          have h0 := h' d (List.mem_cons_self _ _)
          exact ⟨by omega, fun b hm => h' b (List.mem_cons_of_mem _ hm)⟩

/-- C20: `cks_add8` over a list of bytes with arithmetic sum `S` returns a value `r`
with `r ≤ 255` and `r ≡ S (mod 255)`; `r = 0` exactly when every byte is zero, so
`r = 255` whenever `S` is a positive multiple of 255. -/
theorem cks_add8_end_around_carry (d : List Nat) (hbytes : ∀ b ∈ d, b < 256) :
    cks_add8 d d.length ≤ 255 ∧
    cks_add8 d d.length % 255 = d.sum % 255 ∧
    (cks_add8 d d.length = 0 ↔ ∀ b ∈ d, b = 0) ∧
    (0 < d.sum → d.sum % 255 = 0 → cks_add8 d d.length = 255) := by
  obtain ⟨h1, h2, h3⟩ := cks_add8_loop_spec d 0 (by decide) hbytes
  have he : cks_add8 d d.length = cks_add8_loop d 0 := by
    unfold cks_add8
    rw [List.take_length, Nat.mod_eq_of_lt (by omega)]
  rw [he]
  simp only [Nat.zero_add, true_and] at h2 h3
  refine ⟨h1, h2, h3, ?_⟩
  intro hpos hmul
  have hne : cks_add8_loop d 0 ≠ 0 := by
    intro h0
    have hz := h3.mp h0
    have : d.sum = 0 := List.sum_eq_zero hz
    omega
  omega

theorem cks_add8_end_around_carry_witness :
    (∀ b ∈ [0xFF, 0xFF, 0x00], b < 256) ∧
    cks_add8 [0xFF, 0xFF, 0x00] [0xFF, 0xFF, 0x00].length = 255 ∧
    [0xFF, 0xFF, 0x00].sum = 510 :=
  have h := cks_add8_end_around_carry [0xFF, 0xFF, 0x00] (by decide)
  ⟨by decide, h.2.2.2 (by decide) (by decide), by decide⟩

/-! ### The CAN dispatcher around erase-block and block-write-complete -/

/-- A command frame with `byte1 & 0xF8 = 0xF0` received in CommandMode is handed to
`can_cmd_erase_block`, after which `can_cmd_loop` sets `loadingblocks`. -/
theorem can_cmd_loop_step_F0 (pf : Platform) (mem : Nat → Nat) (s : CanState)
    (b1 b2 b3 b4 b5 b6 b7 : Nat) (hlive : s.dead = false) (hmode : s.loadingblocks = false)
    (hcmd : b1 &&& 0xF8 = 0xF0) :
    can_cmd_loop_step pf mem s (CanEvent.frame [0x7A, b1, b2, b3, b4, b5, b6, b7]) =
      { can_cmd_erase_block pf { s with currentmsg := [0x7A, b1, b2, b3, b4, b5, b6, b7] }
          [0x7A, b1, b2, b3, b4, b5, b6, b7] with loadingblocks := true } := by
  simp only [can_cmd_loop_step, hlive, can_cmd_process, hmode, List.take, List.getD_cons_zero,
    List.getD_cons_succ, hcmd]
  simp only [Bool.false_eq_true, if_false, if_true, Nat.reduceEqDiff]

/-- The tag test of `can_cmd_erase_block` fails: a negative frame, nothing else. -/
theorem can_cmd_erase_block_badtag (pf : Platform) (s : CanState)
    (b0 b1 b2 b3 b4 b5 b6 b7 : Nat) (htag : b1 &&& 0x07 ≠ 6) (htx : 8 ≤ s.txbuf.length) :
    can_cmd_erase_block pf s [b0, b1, b2, b3, b4, b5, b6, b7] =
      { s with
        txbuf := 0x7F :: ((b1 &&& 0xF8) ||| 0x01) :: 0x30 :: b3 :: b4 :: b5 :: b6 :: b7 ::
          s.txbuf.drop 8,
        cantx := s.cantx ++ [[0x7F, (b1 &&& 0xF8) ||| 0x01, 0x30, b3, b4, b5, b6, b7]] } := by
  simp only [can_cmd_erase_block, List.getD_cons_succ, List.getD_cons_zero, ne_eq, htag,
    not_false_eq_true, if_true, can_reject, List.take, overwrite8 _ htx]
  simp [can_tx8bytes]

/-- C12: CAN erase-block with tag mismatch.  For a frame whose `byte1 & 0x07` is not 6,
`can_cmd_erase_block` sends exactly `7F, (byte1 & 0xF8) | 1, 30, byte3, ..., byte7`,
calls no collaborator and leaves `flashaddr`, `num128byteblocks`,
`counter128byteblock` and `counter8byteblock` as they were.  The same holds for the
turn of `can_cmd_loop` that receives such a frame `7A F0|tag` in CommandMode. -/
theorem can_erase_block_tag_mismatch (pf : Platform) (mem : Nat → Nat) (s : CanState)
    (b0 b1 b2 b3 b4 b5 b6 b7 : Nat) (htag : b1 &&& 0x07 ≠ 6) (htx : 8 ≤ s.txbuf.length) :
    ((can_cmd_erase_block pf s [b0, b1, b2, b3, b4, b5, b6, b7]).cantx =
        s.cantx ++ [[0x7F, (b1 &&& 0xF8) ||| 0x01, 0x30, b3, b4, b5, b6, b7]] ∧
     (can_cmd_erase_block pf s [b0, b1, b2, b3, b4, b5, b6, b7]).calls = s.calls ∧
     (can_cmd_erase_block pf s [b0, b1, b2, b3, b4, b5, b6, b7]).flashaddr = s.flashaddr ∧
     (can_cmd_erase_block pf s [b0, b1, b2, b3, b4, b5, b6, b7]).num128byteblocks
        = s.num128byteblocks ∧
     (can_cmd_erase_block pf s [b0, b1, b2, b3, b4, b5, b6, b7]).counter128byteblock
        = s.counter128byteblock ∧
     (can_cmd_erase_block pf s [b0, b1, b2, b3, b4, b5, b6, b7]).counter8byteblock
        = s.counter8byteblock) ∧
    (s.dead = false → s.loadingblocks = false → b0 = 0x7A → b1 &&& 0xF8 = 0xF0 →
      (can_cmd_loop_step pf mem s (CanEvent.frame [b0, b1, b2, b3, b4, b5, b6, b7])).cantx =
        s.cantx ++ [[0x7F, (b1 &&& 0xF8) ||| 0x01, 0x30, b3, b4, b5, b6, b7]] ∧
      (can_cmd_loop_step pf mem s (CanEvent.frame [b0, b1, b2, b3, b4, b5, b6, b7])).calls
        = s.calls ∧
      (can_cmd_loop_step pf mem s (CanEvent.frame [b0, b1, b2, b3, b4, b5, b6, b7])).flashaddr
        = s.flashaddr ∧
      (can_cmd_loop_step pf mem s
        (CanEvent.frame [b0, b1, b2, b3, b4, b5, b6, b7])).num128byteblocks
        = s.num128byteblocks ∧
      (can_cmd_loop_step pf mem s
        (CanEvent.frame [b0, b1, b2, b3, b4, b5, b6, b7])).counter128byteblock
        = s.counter128byteblock ∧
      (can_cmd_loop_step pf mem s
        (CanEvent.frame [b0, b1, b2, b3, b4, b5, b6, b7])).counter8byteblock
        = s.counter8byteblock) := by
  constructor
  · rw [can_cmd_erase_block_badtag pf s b0 b1 b2 b3 b4 b5 b6 b7 htag htx]
    exact ⟨rfl, rfl, rfl, rfl, rfl, rfl⟩
  · intro hlive hmode h0 hcmd
    subst h0
    have hb := can_cmd_erase_block_badtag pf
      { s with currentmsg := [0x7A, b1, b2, b3, b4, b5, b6, b7] }
      0x7A b1 b2 b3 b4 b5 b6 b7 htag htx
    rw [can_cmd_loop_step_F0 pf mem s b1 b2 b3 b4 b5 b6 b7 hlive hmode hcmd, hb]
    exact ⟨rfl, rfl, rfl, rfl, rfl, rfl⟩

set_option maxRecDepth 100000 in
theorem can_erase_block_tag_mismatch_witness :
    0xF1 &&& 0x07 ≠ 6 ∧
    (can_cmd_loop_step samplePlatform (fun _ => 0) (sampleCan (List.replicate 128 1) 2 false)
      (CanEvent.frame [0x7A, 0xF1, 0x05, 0x02, 0x00, 0x00, 0x00, 0x04])).cantx =
        [[0x7F, 0xF1, 0x30, 0x02, 0x00, 0x00, 0x00, 0x04]] ∧
    (can_cmd_loop_step samplePlatform (fun _ => 0) (sampleCan (List.replicate 128 1) 2 false)
      (CanEvent.frame [0x7A, 0xF1, 0x05, 0x02, 0x00, 0x00, 0x00, 0x04])).calls = [] ∧
    (can_cmd_loop_step samplePlatform (fun _ => 0) (sampleCan (List.replicate 128 1) 2 false)
      (CanEvent.frame [0x7A, 0xF1, 0x05, 0x02, 0x00, 0x00, 0x00, 0x04])).counter128byteblock
        = 2 :=
  have h := (can_erase_block_tag_mismatch samplePlatform (fun _ => 0)
    (sampleCan (List.replicate 128 1) 2 false) 0x7A 0xF1 0x05 0x02 0x00 0x00 0x00 0x04
    (by decide) (by simp [sampleCan])).2 rfl rfl rfl (by decide)
  ⟨by decide, h.1, h.2.1, h.2.2.2.2.1⟩

/-- The handler `can_cmd_flash_128bytes` never writes `counter128byteblock`. -/
theorem can_cmd_flash_128bytes_counter (pf : Platform) (s : CanState) (msg : List Nat) :
    (can_cmd_flash_128bytes pf s msg).counter128byteblock = s.counter128byteblock := by
  unfold can_cmd_flash_128bytes
  split
  · rfl
  · simp only
    split
    · rfl
    · split
      · rfl
      · split <;> rfl

/-- The turn of `can_cmd_loop` that receives a block-write-complete frame in
CommandMode increments `counter128byteblock`, whatever the handler did. -/
theorem can_cmd_loop_step_F8_counter (pf : Platform) (mem : Nat → Nat) (s : CanState)
    (b1 b2 b3 b4 b5 b6 b7 : Nat) (hlive : s.dead = false) (hmode : s.loadingblocks = false)
    (hcmd : b1 &&& 0xF8 = 0xF8) :
    (can_cmd_loop_step pf mem s
      (CanEvent.frame [0x7A, b1, b2, b3, b4, b5, b6, b7])).counter128byteblock =
        (s.counter128byteblock + 1) % 2 ^ 32 := by
  simp only [can_cmd_loop_step, hlive, can_cmd_process, hmode, List.take, List.getD_cons_zero,
    List.getD_cons_succ, hcmd]
  simp only [Bool.false_eq_true, if_false, if_true, Nat.reduceEqDiff]
  split <;> simp only [can_cmd_flash_128bytes_counter]

set_option maxRecDepth 100000 in
/-- C11 (the block counter advances only on a successful block write) does not hold
of the code.  With block counter 2 and 128 staged bytes whose checksum is `0x80`:
a block-write-complete frame carrying the checksum `0x00` is answered with the
checksum-error frame, no write is made, and the counter is 3 afterwards; a correct
frame whose write the collaborator refuses (result 5) is answered with the negative
frame carrying 5, and the counter is 3 afterwards as well. -/
theorem can_block_counter_advances_on_failure :
    (can_cmd_loop_step samplePlatform (fun _ => 0) (sampleCan (List.replicate 128 1) 2 false)
      (CanEvent.frame [0x7A, 0xFB, 0x00, 0x02, 0x00, 0x11, 0x22, 0x33])).cantx =
        [[0x7F, 0xFA, 0x31, 0x80, 0x00, 0x11, 0x22, 0x33]] ∧
    (can_cmd_loop_step samplePlatform (fun _ => 0) (sampleCan (List.replicate 128 1) 2 false)
      (CanEvent.frame [0x7A, 0xFB, 0x00, 0x02, 0x00, 0x11, 0x22, 0x33])).calls = [] ∧
    (can_cmd_loop_step samplePlatform (fun _ => 0) (sampleCan (List.replicate 128 1) 2 false)
      (CanEvent.frame [0x7A, 0xFB, 0x00, 0x02, 0x00, 0x11, 0x22, 0x33])).counter128byteblock
        = 3 ∧
    (can_cmd_loop_step { samplePlatform with platf_flash_wb := fun _ _ _ => 5 } (fun _ => 0)
      (sampleCan (List.replicate 128 1) 2 false)
      (CanEvent.frame [0x7A, 0xFB, 0x00, 0x02, 0x80, 0x11, 0x22, 0x33])).cantx =
        [[0x7F, 0xF9, 0x05, 0x02, 0x80, 0x11, 0x22, 0x33]] ∧
    (can_cmd_loop_step { samplePlatform with platf_flash_wb := fun _ _ _ => 5 } (fun _ => 0)
      (sampleCan (List.replicate 128 1) 2 false)
      (CanEvent.frame [0x7A, 0xFB, 0x00, 0x02, 0x80, 0x11, 0x22, 0x33])).counter128byteblock
        = 3 :=
  ⟨by rfl, by rfl, by rfl, by rfl, by rfl⟩

set_option maxRecDepth 100000 in
/-- C13 (BlockLoadingMode is entered after an erase-block frame only on success) does
not hold of the code.  In CommandMode an erase-block frame with tag 1 is answered
with the format-error frame and no erase is made, yet the mode afterwards is
BlockLoadingMode: a well-formed erase-block frame sent next is staged as data, with
no reply and no erase.  The same happens when the erase collaborator fails
(result 3): the negative frame carries 3 and the mode is BlockLoadingMode. -/
theorem can_loading_mode_entered_on_failure :
    (can_cmd_loop_step samplePlatform (fun _ => 0) (sampleCan (List.replicate 128 0) 0 false)
      (CanEvent.frame [0x7A, 0xF1, 0x05, 0x02, 0x00, 0x00, 0x00, 0x04])).cantx =
        [[0x7F, 0xF1, 0x30, 0x02, 0x00, 0x00, 0x00, 0x04]] ∧
    (can_cmd_loop_step samplePlatform (fun _ => 0) (sampleCan (List.replicate 128 0) 0 false)
      (CanEvent.frame [0x7A, 0xF1, 0x05, 0x02, 0x00, 0x00, 0x00, 0x04])).loadingblocks
        = true ∧
    (can_cmd_loop_run samplePlatform (fun _ => 0) (sampleCan (List.replicate 128 0) 0 false)
      [CanEvent.frame [0x7A, 0xF1, 0x05, 0x02, 0x00, 0x00, 0x00, 0x04],
       CanEvent.frame [0x7A, 0xF6, 0x05, 0x02, 0x00, 0x00, 0x00, 0x04]]).cantx =
        [[0x7F, 0xF1, 0x30, 0x02, 0x00, 0x00, 0x00, 0x04]] ∧
    (can_cmd_loop_run samplePlatform (fun _ => 0) (sampleCan (List.replicate 128 0) 0 false)
      [CanEvent.frame [0x7A, 0xF1, 0x05, 0x02, 0x00, 0x00, 0x00, 0x04],
       CanEvent.frame [0x7A, 0xF6, 0x05, 0x02, 0x00, 0x00, 0x00, 0x04]]).calls = [] ∧
    (can_cmd_loop_run samplePlatform (fun _ => 0) (sampleCan (List.replicate 128 0) 0 false)
      [CanEvent.frame [0x7A, 0xF1, 0x05, 0x02, 0x00, 0x00, 0x00, 0x04],
       CanEvent.frame [0x7A, 0xF6, 0x05, 0x02, 0x00, 0x00, 0x00, 0x04]]).flashbuffer.take 8
        = [0x7A, 0xF6, 0x05, 0x02, 0x00, 0x00, 0x00, 0x04] ∧
    (can_cmd_loop_step { samplePlatform with platf_flash_eb := fun _ => 3 } (fun _ => 0)
      (sampleCan (List.replicate 128 0) 0 false)
      (CanEvent.frame [0x7A, 0xF6, 0x05, 0x02, 0x00, 0x00, 0x00, 0x04])).cantx =
        [[0x7F, 0xF1, 0x03, 0x02, 0x00, 0x00, 0x00, 0x04]] ∧
    (can_cmd_loop_step { samplePlatform with platf_flash_eb := fun _ => 3 } (fun _ => 0)
      (sampleCan (List.replicate 128 0) 0 false)
      (CanEvent.frame [0x7A, 0xF6, 0x05, 0x02, 0x00, 0x00, 0x00, 0x04])).loadingblocks
        = true :=
  ⟨by rfl, by rfl, by rfl, by rfl, by rfl, by rfl, by rfl⟩

/-! ### Block loading -/

theorem overwrite_append (xs ys : List Nat) : ∀ (buf : List Nat) (i : Nat),
    overwrite buf i (xs ++ ys) = overwrite (overwrite buf i xs) (i + xs.length) ys := by
  induction xs with
  | nil => intro buf i; simp [overwrite]
  | cons x xs ih =>
    intro buf i
    show overwrite (buf.set i x) (i + 1) (xs ++ ys)
      = overwrite (overwrite (buf.set i x) (i + 1) xs) (i + (xs.length + 1)) ys
    rw [ih, show i + (xs.length + 1) = i + 1 + xs.length by omega]

/-- The function `can_cmd_load8bytes` stores an 8-byte frame at `8 * counter8byteblock`. -/
theorem can_cmd_load8bytes_eq (s : CanState) (f : List Nat) (hf : f.length = 8) :
    can_cmd_load8bytes s f =
      { s with flashbuffer := overwrite s.flashbuffer (8 * s.counter8byteblock) f } := by
  match f, hf with
  | [m0, m1, m2, m3, m4, m5, m6, m7], _ =>
    simp [can_cmd_load8bytes, List.range, List.range.loop, overwrite, Nat.add_assoc]

/-- One frame received in BlockLoadingMode before the sixteenth. -/
theorem can_cmd_loop_step_loading (pf : Platform) (mem : Nat → Nat) (s : CanState)
    (f : List Nat) (hf : f.length = 8) (hlive : s.dead = false)
    (hmode : s.loadingblocks = true) (hctr : s.counter8byteblock < 15) :
    can_cmd_loop_step pf mem s (CanEvent.frame f) =
      { s with currentmsg := f,
               flashbuffer := overwrite s.flashbuffer (8 * s.counter8byteblock) f,
               counter8byteblock := s.counter8byteblock + 1 } := by
  have h1 : f.take 8 = f := List.take_of_length_le (by omega)
  have h2 : (s.counter8byteblock + 1) % 256 = s.counter8byteblock + 1 := by omega
  have h3 : ¬ s.counter8byteblock + 1 > 15 := by omega
  simp only [can_cmd_loop_step, hlive, can_cmd_process, hmode, h1,
    can_cmd_load8bytes_eq _ f hf, h2, h3]
  simp

/-- The sixteenth frame received in BlockLoadingMode. -/
theorem can_cmd_loop_step_loading_last (pf : Platform) (mem : Nat → Nat) (s : CanState)
    (f : List Nat) (hf : f.length = 8) (hlive : s.dead = false)
    (hmode : s.loadingblocks = true) (hctr : s.counter8byteblock = 15) :
    can_cmd_loop_step pf mem s (CanEvent.frame f) =
      { s with currentmsg := f,
               flashbuffer := overwrite s.flashbuffer (8 * 15) f,
               counter8byteblock := 0, loadingblocks := false } := by
  have h1 : f.take 8 = f := List.take_of_length_le (by omega)
  simp only [can_cmd_loop_step, hlive, can_cmd_process, hmode, h1,
    can_cmd_load8bytes_eq _ f hf, hctr]
  simp

/-- Frames received in BlockLoadingMode while fewer than sixteen are staged. -/
theorem can_cmd_loop_run_loading (pf : Platform) (mem : Nat → Nat) (frames : List (List Nat)) :
    ∀ (s : CanState), s.dead = false → s.loadingblocks = true →
      (∀ f ∈ frames, f.length = 8) → s.counter8byteblock + frames.length ≤ 15 →
      (can_cmd_loop_run pf mem s (frames.map CanEvent.frame)).dead = false ∧
      (can_cmd_loop_run pf mem s (frames.map CanEvent.frame)).loadingblocks = true ∧
      (can_cmd_loop_run pf mem s (frames.map CanEvent.frame)).counter8byteblock
        = s.counter8byteblock + frames.length ∧
      (can_cmd_loop_run pf mem s (frames.map CanEvent.frame)).flashbuffer
        = overwrite s.flashbuffer (8 * s.counter8byteblock) frames.flatten ∧
      (can_cmd_loop_run pf mem s (frames.map CanEvent.frame)).cantx = s.cantx ∧
      (can_cmd_loop_run pf mem s (frames.map CanEvent.frame)).calls = s.calls := by
  induction frames with
  | nil => intro s h1 h2 _ _; simp [can_cmd_loop_run, overwrite, h1, h2]
  | cons f fs ih =>
    intro s h1 h2 h3 h4
    simp only [List.length_cons] at h4
    have hf : f.length = 8 := h3 f (List.mem_cons_self _ _)
    have hstep := can_cmd_loop_step_loading pf mem s f hf h1 h2 (by omega)
    have hrun : can_cmd_loop_run pf mem s ((f :: fs).map CanEvent.frame)
        = can_cmd_loop_run pf mem (can_cmd_loop_step pf mem s (CanEvent.frame f))
            (fs.map CanEvent.frame) := rfl
    rw [hrun, hstep]
    obtain ⟨i1, i2, i3, i4, i5, i6⟩ := ih
      { s with currentmsg := f,
               flashbuffer := overwrite s.flashbuffer (8 * s.counter8byteblock) f,
               counter8byteblock := s.counter8byteblock + 1 }
      h1 h2 (fun g hg => h3 g (List.mem_cons_of_mem _ hg)) (by simp only; omega)
    refine ⟨i1, i2, ?_, ?_, i5, i6⟩
    · rw [i3]; simp only [List.length_cons]; omega
    · rw [i4]
      simp only [List.flatten_cons, overwrite_append, hf]
      rw [show 8 * (s.counter8byteblock + 1) = 8 * s.counter8byteblock + 8 by omega]

theorem flatten_getD8 (frames : List (List Nat)) : ∀ (k i : Nat),
    (∀ f ∈ frames, f.length = 8) → k < frames.length → i < 8 →
      frames.flatten.getD (8 * k + i) 0 = (frames.getD k []).getD i 0 := by
  induction frames with
  | nil => intro k i _ hk _; simp at hk
  | cons f fs ih =>
    intro k i hlen hk hi
    have hf : f.length = 8 := hlen f (List.mem_cons_self _ _)
    cases k with
    | zero =>
      simp only [List.flatten_cons, Nat.mul_zero, Nat.zero_add, List.getD_cons_zero]
      exact List.getD_append _ _ _ _ (by omega)
    | succ k =>
      simp only [List.flatten_cons, List.getD_cons_succ]
      rw [List.getD_append_right _ _ _ _ (by omega), hf,
        show 8 * (k + 1) + i - 8 = 8 * k + i by omega]
      exact ih k i (fun g hg => hlen g (List.mem_cons_of_mem _ hg))
        (by simpa using hk) hi

/-- C14: block loading.  Starting in BlockLoadingMode with frame counter 0, sixteen
received 8-byte frames (whatever their content) are answered by no frame and cause
no collaborator call; afterwards the staging buffer holds the frames one after the
other (byte `8*k + i` is byte `i` of frame `k`), the frame counter is 0 and the mode
is CommandMode.  After fewer than sixteen frames the mode is still BlockLoadingMode. -/
theorem can_block_loading (pf : Platform) (mem : Nat → Nat) (s : CanState)
    (frames : List (List Nat)) (hlive : s.dead = false) (hmode : s.loadingblocks = true)
    (hctr : s.counter8byteblock = 0) (hfb : s.flashbuffer.length = 128)
    (hlen : ∀ f ∈ frames, f.length = 8) :
    (frames.length = 16 →
      (can_cmd_loop_run pf mem s (frames.map CanEvent.frame)).cantx = s.cantx ∧
      (can_cmd_loop_run pf mem s (frames.map CanEvent.frame)).calls = s.calls ∧
      (can_cmd_loop_run pf mem s (frames.map CanEvent.frame)).flashbuffer = frames.flatten ∧
      (∀ k < 16, ∀ i < 8,
        (can_cmd_loop_run pf mem s (frames.map CanEvent.frame)).flashbuffer.getD (8 * k + i) 0
          = (frames.getD k []).getD i 0) ∧
      (can_cmd_loop_run pf mem s (frames.map CanEvent.frame)).counter8byteblock = 0 ∧
      (can_cmd_loop_run pf mem s (frames.map CanEvent.frame)).loadingblocks = false) ∧
    (frames.length < 16 →
      (can_cmd_loop_run pf mem s (frames.map CanEvent.frame)).cantx = s.cantx ∧
      (can_cmd_loop_run pf mem s (frames.map CanEvent.frame)).calls = s.calls ∧
      (can_cmd_loop_run pf mem s (frames.map CanEvent.frame)).loadingblocks = true) := by
  constructor
  · intro h16
    -- the first fifteen frames, then the sixteenth
    obtain ⟨fs, f, rfl⟩ : ∃ fs f, frames = fs ++ [f] := by
      have hne : frames ≠ [] := by intro h; rw [h] at h16; simp at h16
      exact ⟨frames.dropLast, frames.getLast hne, (List.dropLast_append_getLast hne).symm⟩
    have hfs : fs.length = 15 := by simpa using h16
    have hf : f.length = 8 := hlen f (by simp)
    obtain ⟨i1, i2, i3, i4, i5, i6⟩ := can_cmd_loop_run_loading pf mem fs s hlive hmode
      (fun g hg => hlen g (by simp [hg])) (by omega)
    have hrun : can_cmd_loop_run pf mem s ((fs ++ [f]).map CanEvent.frame)
        = can_cmd_loop_step pf mem (can_cmd_loop_run pf mem s (fs.map CanEvent.frame))
            (CanEvent.frame f) := by
      simp [can_cmd_loop_run]
    have hlast := can_cmd_loop_step_loading_last pf mem
      (can_cmd_loop_run pf mem s (fs.map CanEvent.frame)) f hf i1 i2 (by rw [i3, hctr, hfs])
    have hflat : (fs ++ [f]).flatten.length = 128 := by
      have : ∀ (l : List (List Nat)), (∀ g ∈ l, g.length = 8) → l.flatten.length = 8 * l.length := by
        intro l
        induction l with
        | nil => intro _; rfl
        | cons a l ih =>
          intro h
          simp only [List.flatten_cons, List.length_append, List.length_cons]
          rw [ih (fun g hg => h g (List.mem_cons_of_mem _ hg)), h a (List.mem_cons_self _ _)]
          omega
      rw [this _ hlen, h16]
    have hbuf : (can_cmd_loop_step pf mem (can_cmd_loop_run pf mem s (fs.map CanEvent.frame))
        (CanEvent.frame f)).flashbuffer = (fs ++ [f]).flatten := by
      rw [hlast]
      simp only
      rw [i4, hctr]
      have h8 : 8 * 15 = 8 * 0 + fs.flatten.length := by
        have : fs.flatten.length + f.length = 128 := by simpa using hflat
        omega
      rw [h8, ← overwrite_append]
      have hall : fs.flatten ++ f = (fs ++ [f]).flatten := by simp
      rw [hall]
      have ht := overwrite_take (fs ++ [f]).flatten s.flashbuffer 0 (by rw [hflat, hfb])
      simp only [Nat.zero_add, List.take_zero, List.nil_append] at ht
      rw [hflat] at ht
      have hfull : (overwrite s.flashbuffer 0 (fs ++ [f]).flatten).take 128
          = overwrite s.flashbuffer 0 (fs ++ [f]).flatten :=
        List.take_of_length_le (by rw [overwrite_length, hfb])
      rw [Nat.mul_zero, ← hfull]
      exact ht
    rw [hrun]
    refine ⟨?_, ?_, hbuf, ?_, ?_, ?_⟩
    · rw [hlast]; exact i5
    · rw [hlast]; exact i6
    · intro k hk i hi
      rw [hbuf]
      exact flatten_getD8 _ k i hlen (by rw [h16]; exact hk) hi
    · rw [hlast]
    · rw [hlast]
  · intro hlt
    obtain ⟨_, i2, _, _, i5, i6⟩ := can_cmd_loop_run_loading pf mem frames s hlive hmode
      hlen (by omega)
    exact ⟨i5, i6, i2⟩

set_option maxRecDepth 100000 in
theorem can_block_loading_witness :
    (sampleCan (List.replicate 128 0) 0 true).loadingblocks = true ∧
    (can_cmd_loop_run samplePlatform (fun _ => 0) (sampleCan (List.replicate 128 0) 0 true)
      ((List.replicate 16 [0x7A, 0xF6, 0x05, 0x02, 0x00, 0x00, 0x00, 0x04]).map
        CanEvent.frame)).cantx = [] ∧
    (can_cmd_loop_run samplePlatform (fun _ => 0) (sampleCan (List.replicate 128 0) 0 true)
      ((List.replicate 16 [0x7A, 0xF6, 0x05, 0x02, 0x00, 0x00, 0x00, 0x04]).map
        CanEvent.frame)).flashbuffer.getD (8 * 3 + 1) 0 = 0xF6 ∧
    (can_cmd_loop_run samplePlatform (fun _ => 0) (sampleCan (List.replicate 128 0) 0 true)
      ((List.replicate 16 [0x7A, 0xF6, 0x05, 0x02, 0x00, 0x00, 0x00, 0x04]).map
        CanEvent.frame)).loadingblocks = false ∧
    (can_cmd_loop_run samplePlatform (fun _ => 0) (sampleCan (List.replicate 128 0) 0 true)
      ((List.replicate 3 [0xFF, 0xC8, 0x00, 0x00, 0x00, 0x00, 0x00, 0x00]).map
        CanEvent.frame)).loadingblocks = true :=
  have h16 := (can_block_loading samplePlatform (fun _ => 0)
    (sampleCan (List.replicate 128 0) 0 true)
    (List.replicate 16 [0x7A, 0xF6, 0x05, 0x02, 0x00, 0x00, 0x00, 0x04])
    rfl rfl rfl (by simp [sampleCan]) (by decide)).1 (by decide)
  have h3 := (can_block_loading samplePlatform (fun _ => 0)
    (sampleCan (List.replicate 128 0) 0 true)
    (List.replicate 3 [0xFF, 0xC8, 0x00, 0x00, 0x00, 0x00, 0x00, 0x00])
    rfl rfl rfl (by simp [sampleCan]) (by decide)).2 (by decide)
  ⟨rfl, h16.1, h16.2.2.2.1 3 (by decide) 1 (by decide), h16.2.2.2.2.2, h3.2.2⟩

/-! ### Memory read-by-address -/

theorem mem_read_length (mem : Nat → Nat) (addr len : Nat) :
    (mem_read mem addr len).length = len := by
  simp [mem_read]

/-- What `iso_sendpkt` puts on the wire when the first `len` bytes of the buffer are `p`. -/
theorem iso_sendpkt_bytes_of_take (buf p : List Nat) (h1 : 1 ≤ p.length)
    (h255 : p.length ≤ 255) (hlen : p.length ≤ buf.length) (htake : buf.take p.length = p) :
    iso_sendpkt_bytes buf p.length =
      (if p.length ≤ 0x3F then [p.length] else [0x00, p.length]) ++ p ++
        [(p.length + p.sum) % 256] := by
  have hcks : cks_u8 buf p.length = p.sum % 256 := by
    rw [cks_u8_eq buf p.length hlen, htake]
  have hnot : ¬ p.length > 0xff := by omega
  simp only [iso_sendpkt_bytes, if_neg hnot, hcks, htake]
  rw [Nat.mod_eq_of_lt (by omega : p.length < 256)]
  simp

/-- The packet of `cmd_rmba` in terms of `mem_read` and `reconst_24`: with
`datalen = 5` and a size byte from 1 to 251, the payload is `SID_RMBA + 0x40`, the
bytes read and the three address bytes of the request; in every other case the
negative response `0x7F, SID_RMBA, ISO_NRC_SFNS_IF`, whatever the memory holds. -/
theorem cmd_rmba_sent_mem_read (c : Consts) (s : SerState)
    (hsid : c.SID_RMBA + 0x40 < 256) (hnrc : c.ISO_NRC_SFNS_IF < 256)
    (htx : s.txbuf.length = 256) :
    (s.msg.datalen = 5 → 1 ≤ s.msg.data.getD 4 0 → s.msg.data.getD 4 0 ≤ 251 →
      ((c.SID_RMBA + 0x40) ::
        (mem_read s.mem (reconst_24 (s.msg.data.drop 1)) (s.msg.data.getD 4 0) ++
          [s.msg.data.getD 1 0, s.msg.data.getD 2 0, s.msg.data.getD 3 0])).length
        = s.msg.data.getD 4 0 + 4 ∧
      (cmd_rmba c s).sent = s.sent ++
        [(if s.msg.data.getD 4 0 + 4 ≤ 0x3F then [s.msg.data.getD 4 0 + 4]
            else [0x00, s.msg.data.getD 4 0 + 4]) ++
          ((c.SID_RMBA + 0x40) ::
            (mem_read s.mem (reconst_24 (s.msg.data.drop 1)) (s.msg.data.getD 4 0) ++
              [s.msg.data.getD 1 0, s.msg.data.getD 2 0, s.msg.data.getD 3 0])) ++
          [(s.msg.data.getD 4 0 + 4 +
            ((c.SID_RMBA + 0x40) ::
              (mem_read s.mem (reconst_24 (s.msg.data.drop 1)) (s.msg.data.getD 4 0) ++
                [s.msg.data.getD 1 0, s.msg.data.getD 2 0, s.msg.data.getD 3 0])).sum)
            % 256]]) ∧
    ((s.msg.datalen ≠ 5 ∨ s.msg.data.getD 4 0 = 0 ∨ s.msg.data.getD 4 0 > 251) →
      cmd_rmba c s =
        { s with sent := s.sent ++ [[3, 0x7F, c.SID_RMBA, c.ISO_NRC_SFNS_IF,
            (3 + 0x7F + c.SID_RMBA + c.ISO_NRC_SFNS_IF) % 256]] } ∧
      ∀ mem' : Nat → Nat, (cmd_rmba c { s with mem := mem' }).sent = (cmd_rmba c s).sent) := by
  constructor
  · intro hdl h1 h251
    generalize hsiz : s.msg.data.getD 4 0 = siz at *
    generalize hM : mem_read s.mem (reconst_24 (s.msg.data.drop 1)) siz = M
    have hMlen : M.length = siz := by rw [← hM, mem_read_length]
    generalize hP : (c.SID_RMBA + 0x40) :: (M ++
      [s.msg.data.getD 1 0, s.msg.data.getD 2 0, s.msg.data.getD 3 0]) = P
    have hPlen : P.length = siz + 4 := by rw [← hP]; simp [hMlen]
    refine ⟨hPlen, ?_⟩
    have hc1 : ¬ s.msg.datalen ≠ 5 := by simp [hdl]
    have hc2 : ¬ (siz = 0 ∨ siz > 251) := by omega
    have hbuf : (((overwrite (s.txbuf.set 0 ((c.SID_RMBA + 0x40) % 256)) 1 M).set (siz + 1)
        (s.msg.data.getD 1 0)).set (siz + 1 + 1) (s.msg.data.getD 2 0)).set (siz + 1 + 2)
        (s.msg.data.getD 3 0) = overwrite s.txbuf 0 P := by
      rw [← hP, Nat.mod_eq_of_lt hsid]
      simp only [overwrite, overwrite_append, Nat.zero_add, hMlen]
      rw [show 1 + siz = siz + 1 by omega]
    simp only [cmd_rmba, hc1, hsiz, hc2, if_false, hM, hbuf, iso_sendpkt]
    rw [if_neg (by omega)]
    simp only
    rw [show siz + 1 + 3 = P.length by omega]
    rw [iso_sendpkt_bytes_of_take _ P (by omega) (by omega)
      (by rw [overwrite_length, htx]; omega)
      (by simpa using overwrite_take P s.txbuf 0 (by rw [htx]; omega))]
  · intro hbad
    have key : ∀ t : SerState, t.msg = s.msg →
        cmd_rmba c t = tx_7F t c.SID_RMBA c.ISO_NRC_SFNS_IF := by
      intro t ht
      unfold cmd_rmba
      rw [ht]
      by_cases hdl : s.msg.datalen ≠ 5
      · simp only [if_pos hdl]
      · have h2 : s.msg.data.getD 4 0 = 0 ∨ s.msg.data.getD 4 0 > 251 := by
          rcases hbad with h | h
          · exact absurd h hdl
          · exact h
        simp only [if_neg hdl, if_pos h2]
    have hs := key s rfl
    constructor
    · rw [hs, tx_7F_sent s _ _ (by omega) hnrc]
    · intro mem'
      rw [hs, key { s with mem := mem' } rfl]
      rfl

/-- Bit 7 of a byte is set exactly when the byte is 128 or more. -/
theorem and_80_ne_zero_iff (x : Nat) (h : x < 256) : (x &&& 0x80 ≠ 0 ↔ 128 ≤ x) := by
  have h1 : x &&& 0x80 = (if x.testBit 7 then 128 else 0) := by
    apply Nat.eq_of_testBit_eq
    intro i
    rw [Nat.testBit_and]
    by_cases h7 : i = 7
    · subst h7; cases hx : x.testBit 7 <;> simp [hx]
    · have : Nat.testBit 128 i = false := Nat.testBit_two_pow_of_ne (n := 7) (Ne.symm h7)
      rw [this]; split <;> simp [this]
  rw [h1, Nat.testBit_to_div_mod]
  have : x / 2 ^ 7 < 2 := by omega
  split <;> rename_i hd <;> simp at hd <;> omega

/-- The address that `reconst_24` rebuilds from three bytes: the big-endian 24-bit
number, with `0xFF` as top byte when bit 7 of the first byte is set. -/
theorem reconst_24_eq (data : List Nat) (h0 : data.getD 0 0 < 256) (h1 : data.getD 1 0 < 256)
    (h2 : data.getD 2 0 < 256) :
    reconst_24 data =
      data.getD 0 0 * 65536 + data.getD 1 0 * 256 + data.getD 2 0 +
        (if 128 ≤ data.getD 0 0 then 0xFF000000 else 0) := by
  have hbit := and_80_ne_zero_iff (data.getD 0 0) h0
  unfold reconst_24
  simp only [shl16_or3 _ _ _ h1 h2]
  by_cases hs : 128 ≤ data.getD 0 0
  · rw [if_pos (hbit.mpr hs), if_pos hs, Nat.lor_comm]
    have hlt : data.getD 0 0 * 65536 + data.getD 1 0 * 256 + data.getD 2 0 < 2 ^ 24 := by omega
    have h := Nat.mul_add_lt_is_or hlt 0xFF
    rw [show (0xFF : Nat) <<< 24 = 2 ^ 24 * 0xFF by decide, ← h]
    omega
  · rw [if_neg (fun h => hs (hbit.mp h)), if_neg hs, Nat.add_zero]

/-- C15: memory read-by-address.  With `datalen = 5` and a size byte `siz` from 1 to
251, `cmd_rmba` sends one packet whose payload, of length `siz + 4`, is
`SID_RMBA + 0x40`, then the `siz` memory bytes at `A`, `A + 1`, ... where `A` is the
big-endian number of the three address bytes, plus `0xFF000000` when bit 7 of the
first one is set, then the three address bytes of the request.  In every other
case it sends exactly `0x7F, SID_RMBA, ISO_NRC_SFNS_IF`, changes nothing else, and
what it sends does not depend on the memory contents. -/
theorem cmd_rmba_response (c : Consts) (s : SerState)
    (hsid : c.SID_RMBA + 0x40 < 256) (hnrc : c.ISO_NRC_SFNS_IF < 256)
    (htx : s.txbuf.length = 256)
    (hah : s.msg.data.getD 1 0 < 256) (ham : s.msg.data.getD 2 0 < 256)
    (hal : s.msg.data.getD 3 0 < 256) :
    (s.msg.datalen = 5 → 1 ≤ s.msg.data.getD 4 0 → s.msg.data.getD 4 0 ≤ 251 →
      ((c.SID_RMBA + 0x40) ::
        ((List.range (s.msg.data.getD 4 0)).map (fun i => s.mem
            ((s.msg.data.getD 1 0 * 65536 + s.msg.data.getD 2 0 * 256 + s.msg.data.getD 3 0 +
              (if 128 ≤ s.msg.data.getD 1 0 then 0xFF000000 else 0) + i) % 2 ^ 32)) ++
          [s.msg.data.getD 1 0, s.msg.data.getD 2 0, s.msg.data.getD 3 0])).length
        = s.msg.data.getD 4 0 + 4 ∧
      (cmd_rmba c s).sent = s.sent ++
        [(if s.msg.data.getD 4 0 + 4 ≤ 0x3F then [s.msg.data.getD 4 0 + 4]
            else [0x00, s.msg.data.getD 4 0 + 4]) ++
          ((c.SID_RMBA + 0x40) ::
            ((List.range (s.msg.data.getD 4 0)).map (fun i => s.mem
                ((s.msg.data.getD 1 0 * 65536 + s.msg.data.getD 2 0 * 256 +
                  s.msg.data.getD 3 0 +
                  (if 128 ≤ s.msg.data.getD 1 0 then 0xFF000000 else 0) + i) % 2 ^ 32)) ++
              [s.msg.data.getD 1 0, s.msg.data.getD 2 0, s.msg.data.getD 3 0])) ++
          [(s.msg.data.getD 4 0 + 4 +
            ((c.SID_RMBA + 0x40) ::
              ((List.range (s.msg.data.getD 4 0)).map (fun i => s.mem
                  ((s.msg.data.getD 1 0 * 65536 + s.msg.data.getD 2 0 * 256 +
                    s.msg.data.getD 3 0 +
                    (if 128 ≤ s.msg.data.getD 1 0 then 0xFF000000 else 0) + i) % 2 ^ 32)) ++
                [s.msg.data.getD 1 0, s.msg.data.getD 2 0, s.msg.data.getD 3 0])).sum)
            % 256]]) ∧
    ((s.msg.datalen ≠ 5 ∨ s.msg.data.getD 4 0 = 0 ∨ s.msg.data.getD 4 0 > 251) →
      cmd_rmba c s =
        { s with sent := s.sent ++ [[3, 0x7F, c.SID_RMBA, c.ISO_NRC_SFNS_IF,
            (3 + 0x7F + c.SID_RMBA + c.ISO_NRC_SFNS_IF) % 256]] } ∧
      ∀ mem' : Nat → Nat, (cmd_rmba c { s with mem := mem' }).sent = (cmd_rmba c s).sent) := by
  have h := cmd_rmba_sent_mem_read c s hsid hnrc htx
  have hidx : ∀ k, (s.msg.data.drop 1).getD k 0 = s.msg.data.getD (1 + k) 0 := by
    intro k
    simp only [List.getD_eq_getElem?_getD, List.getElem?_drop]
  have haddr := reconst_24_eq (s.msg.data.drop 1)
    (by rw [hidx]; exact hah) (by rw [hidx]; exact ham) (by rw [hidx]; exact hal)
  simp only [hidx, Nat.add_zero] at haddr
  rw [haddr] at h
  exact h

set_option maxRecDepth 100000 in
theorem cmd_rmba_response_witness :
    (cmd_rmba sampleConsts
      { sampleSer t_cmdsm.CM_READY t_flashsm.FL_IDLE
          (sampleMsg [0x23, 0xFF, 0x80, 0x00, 0x02]) with
        mem := fun a => if a = 0xFFFF8000 then 0xAA else if a = 0xFFFF8001 then 0xBB else 0 }).sent
      = [[0x06, 0x63, 0xAA, 0xBB, 0xFF, 0x80, 0x00, 0x4D]] ∧
    (cmd_rmba sampleConsts (sampleSer t_cmdsm.CM_READY t_flashsm.FL_IDLE
      (sampleMsg [0x23, 0x00, 0x10, 0x00, 0x00]))).sent
      = [[0x03, 0x7F, 0x23, 0x12, 0xB7]] :=
  have h := cmd_rmba_response sampleConsts
      { sampleSer t_cmdsm.CM_READY t_flashsm.FL_IDLE
          (sampleMsg [0x23, 0xFF, 0x80, 0x00, 0x02]) with
        mem := fun a => if a = 0xFFFF8000 then 0xAA else if a = 0xFFFF8001 then 0xBB else 0 }
      (by decide) (by decide) (by simp [sampleSer]) (by decide) (by decide) (by decide)
  have h' := cmd_rmba_response sampleConsts (sampleSer t_cmdsm.CM_READY t_flashsm.FL_IDLE
      (sampleMsg [0x23, 0x00, 0x10, 0x00, 0x00])) (by decide) (by decide)
      (by simp [sampleSer]) (by decide) (by decide) (by decide)
  ⟨by rw [(h.1 (by rfl) (by decide) (by decide)).2]; rfl,
   by rw [(h'.2 (Or.inr (Or.inl (by rfl)))).1]; rfl⟩

/-! ### Configuration sub-operations -/

/-- The set-link-speed branch of `cmd_conf` has no test of its own on the data
length: it acts on every request of two bytes or more. -/
theorem cmd_conf_setspeed_any_length (c : Consts) (pf : Platform) (s : SerState)
    (hdl : 2 ≤ s.msg.datalen) (hsub : s.msg.data.getD 1 0 = c.SID_CONF_SETSPEED) :
    cmd_conf c pf s =
      sci_rxidle (cmd_init (iso_sendpkt s [(c.SID_CONF + 0x40) % 256] 1)
        (s.msg.data.getD 2 0)) 25 := by
  have h1 : ¬ s.msg.datalen < 2 := by omega
  simp only [cmd_conf, if_neg h1, hsub, if_true]

/-- C16 (every configuration sub-operation rejects a request of the wrong length
without side effect) does not hold of the code.  After start-communication, the
two-byte request `BE 01` (set link speed without its divisor byte, frame
`02 BE 01 C1`) is answered with the positive response `01 FE FF`, the link is
re-initialised with the frame's checksum byte `C1` as divisor and the session falls
back to Idle.  Likewise the three-byte request `BE 04 00` (fetch last error with
an extra byte) is answered with the stored code and clears it. -/
theorem cmd_conf_acts_on_wrong_length :
    (cmd_loop_run sampleConsts samplePlatform (cmd_loop_entry (fun _ => 0))
      ([0x01, 0x81, 0x82, 0x02, 0xBE, 0x01, 0xC1].map SciEvent.byte)).sent
      = [[0x03, 0xC1, 0x67, 0x8F, 0xBA], [0x01, 0xFE, 0xFF]] ∧
    (cmd_loop_run sampleConsts samplePlatform (cmd_loop_entry (fun _ => 0))
      ([0x01, 0x81, 0x82, 0x02, 0xBE, 0x01, 0xC1].map SciEvent.byte)).calls
      = [Call.sci_init 0xC1, Call.sci_rxidle 25] ∧
    (cmd_loop_run sampleConsts samplePlatform (cmd_loop_entry (fun _ => 0))
      ([0x01, 0x81, 0x82, 0x02, 0xBE, 0x01, 0xC1].map SciEvent.byte)).cmstate
      = t_cmdsm.CM_IDLE ∧
    (cmd_conf sampleConsts samplePlatform
      (set_lasterr (sampleSer t_cmdsm.CM_READY t_flashsm.FL_IDLE
        (sampleMsg [0xBE, 0x04, 0x00])) 5)).sent = [[0x02, 0xFE, 0x05, 0x05]] ∧
    (cmd_conf sampleConsts samplePlatform
      (set_lasterr (sampleSer t_cmdsm.CM_READY t_flashsm.FL_IDLE
        (sampleMsg [0xBE, 0x04, 0x00])) 5)).lasterr = 0 :=
  ⟨by rfl, by rfl, by rfl, by rfl, by rfl⟩

/-! ### Number of packets sent per request -/

theorem iso_sendpkt_sent_length (s : SerState) (buf : List Nat) (len : Nat) (h : len ≠ 0) :
    (iso_sendpkt s buf len).sent.length = s.sent.length + 1 := by
  simp [iso_sendpkt, h]

theorem tx_7F_sent_length (s : SerState) (sid nrc : Nat) :
    (tx_7F s sid nrc).sent.length = s.sent.length + 1 :=
  iso_sendpkt_sent_length s _ 3 (by decide)

theorem cmd_conf_sent_length (c : Consts) (pf : Platform) (s : SerState) :
    (cmd_conf c pf s).sent.length = s.sent.length + 1 := by
  unfold cmd_conf
  simp only
  split_ifs <;>
    simp [tx_7F_sent_length, iso_sendpkt_sent_length, cmd_init, sci_rxidle]

theorem cmd_flash_utils_sent_length (c : Consts) (pf : Platform) (s : SerState) :
    (cmd_flash_utils c pf s).sent.length = s.sent.length + 1 := by
  unfold cmd_flash_utils
  simp only
  split_ifs <;> simp [tx_7F_sent_length, iso_sendpkt_sent_length]

theorem cmd_flash_init_sent_length (c : Consts) (pf : Platform) (s : SerState) :
    (cmd_flash_init c pf s).sent.length = s.sent.length + 1 := by
  unfold cmd_flash_init
  simp only
  split <;> simp [tx_7F_sent_length, iso_sendpkt_sent_length]

theorem cmd_rmba_sent_length (c : Consts) (s : SerState) :
    (cmd_rmba c s).sent.length = s.sent.length + 1 := by
  unfold cmd_rmba
  simp only
  split_ifs <;> simp [tx_7F_sent_length, iso_sendpkt_sent_length]

theorem cmd_wmba_sent_length (c : Consts) (s : SerState) :
    (cmd_wmba c s).sent.length = s.sent.length + 1 := by
  unfold cmd_wmba
  simp only
  split_ifs <;> simp [tx_7F_sent_length, iso_sendpkt_sent_length]

/-- The ROM loop of `cmd_dump` sends one packet per 32-byte block. -/
theorem cmd_dump_rom_loop_sent_length (c : Consts) (n : Nat) :
    ∀ (fuel : Nat) (s : SerState) (addr : Nat), n ≤ fuel → n ≤ 65535 →
      (cmd_dump_rom_loop c fuel s (32 * n) addr).sent.length = s.sent.length + n := by
  induction n with
  | zero =>
    intro fuel s addr _ _
    cases fuel <;> simp [cmd_dump_rom_loop]
  | succ n ih =>
    intro fuel s addr hf hn
    obtain ⟨fuel', rfl⟩ : ∃ k, fuel = k + 1 := ⟨fuel - 1, by omega⟩
    have h0 : ¬ 32 * (n + 1) = 0 := by omega
    have hp : (if 32 * (n + 1) > 32 then 32 else 32 * (n + 1)) = 32 := by
      split <;> omega
    have hl : (32 * (n + 1) - 32) % 2 ^ 32 = 32 * n := by omega
    simp only [cmd_dump_rom_loop, if_neg h0, hp, hl]
    rw [ih fuel' _ _ (by omega) (by omega), iso_sendpkt_sent_length _ _ _ (by decide)]
    simp only
    omega

/-- The EEPROM loop of `cmd_dump` sends one packet per 32-byte block. -/
theorem cmd_dump_eep_loop_sent_length (c : Consts) (pf : Platform) (n : Nat) :
    ∀ (fuel : Nat) (s : SerState) (addr : Nat), n ≤ fuel → n ≤ 65535 →
      (cmd_dump_eep_loop c pf fuel s (32 * n) addr).sent.length = s.sent.length + n := by
  induction n with
  | zero =>
    intro fuel s addr _ _
    cases fuel <;> simp [cmd_dump_eep_loop]
  | succ n ih =>
    intro fuel s addr hf hn
    obtain ⟨fuel', rfl⟩ : ∃ k, fuel = k + 1 := ⟨fuel - 1, by omega⟩
    have h0 : ¬ 32 * (n + 1) = 0 := by omega
    have hp : (if 32 * (n + 1) > 32 then 32 else 32 * (n + 1)) = 32 := by
      split <;> omega
    have hl : (32 * (n + 1) - 32) % 2 ^ 32 = 32 * n := by omega
    simp only [cmd_dump_eep_loop, if_neg h0, hp, hl]
    rw [ih fuel' _ _ (by omega) (by omega), iso_sendpkt_sent_length _ _ _ (by decide)]
    omega

/-- Packets sent by `cmd_dump`: one negative response for a malformed request, else
one packet per requested block. -/
theorem cmd_dump_sent_length (c : Consts) (pf : Platform) (s : SerState) :
    ((s.msg.datalen ≠ 6 ∨ (s.msg.data.getD 1 0 ≠ c.SID_DUMP_EEPROM ∧
        s.msg.data.getD 1 0 ≠ c.SID_DUMP_ROM)) →
      (cmd_dump c pf s).sent.length = s.sent.length + 1) ∧
    (s.msg.datalen = 6 → (s.msg.data.getD 1 0 = c.SID_DUMP_EEPROM ∨
        s.msg.data.getD 1 0 = c.SID_DUMP_ROM) →
      s.msg.data.getD 2 0 < 256 → s.msg.data.getD 3 0 < 256 →
      (cmd_dump c pf s).sent.length
        = s.sent.length + (s.msg.data.getD 2 0 * 256 + s.msg.data.getD 3 0)) := by
  have hidx : ∀ k, (s.msg.data.drop 1).getD k 0 = s.msg.data.getD (k + 1) 0 := by
    intro k
    simp only [List.getD_eq_getElem?_getD, List.getElem?_drop]
    rw [Nat.add_comm]
  constructor
  · intro hbad
    unfold cmd_dump
    simp only [hidx]
    by_cases hdl : s.msg.datalen ≠ 6
    · simp only [if_pos hdl, tx_7F_sent_length]
    · rcases hbad with h | ⟨h1, h2⟩
      · exact absurd h hdl
      · simp only [if_neg hdl, Nat.zero_add, if_neg h1, if_neg h2, tx_7F_sent_length]
  · intro hdl hsel hb2 hb3
    have hlen : (32 * ((s.msg.data.getD 2 0 <<< 8) ||| s.msg.data.getD 3 0)) % 2 ^ 32
        = 32 * (s.msg.data.getD 2 0 * 256 + s.msg.data.getD 3 0) := by
      rw [shl8_or _ _ hb3]; omega
    have hc : ¬ s.msg.datalen ≠ 6 := by simp [hdl]
    unfold cmd_dump
    simp only [hidx, if_neg hc, Nat.zero_add, hlen]
    by_cases he : s.msg.data.getD 1 0 = c.SID_DUMP_EEPROM
    · rw [if_pos he]
      have heven : 32 * (s.msg.data.getD 2 0 * 256 + s.msg.data.getD 3 0)
          - 32 * (s.msg.data.getD 2 0 * 256 + s.msg.data.getD 3 0) % 2
          = 32 * (s.msg.data.getD 2 0 * 256 + s.msg.data.getD 3 0) := by omega
      rw [heven]
      exact cmd_dump_eep_loop_sent_length c pf _ _ s _ (by omega) (by omega)
    · have hr : s.msg.data.getD 1 0 = c.SID_DUMP_ROM := by
        rcases hsel with h | h
        · exact absurd h he
        · exact h
      rw [if_neg he, if_pos hr]
      rw [cmd_dump_rom_loop_sent_length c _ _ _ _ (by omega) (by omega)]

/-- Packets sent by the `switch` on the service identifier, branch by branch. -/
theorem cmd_ready_sent (c : Consts) (pf : Platform) (t : SerState) :
    (cmd_ready c pf t).sent =
      if t.msg.data.getD 0 0 = c.SID_STARTCOMM then (cmd_startcomm t).sent
      else if t.msg.data.getD 0 0 = c.SID_RECUID then
        (iso_sendpkt t c.npk_ver_string c.npk_ver_string.length).sent
      else if t.msg.data.getD 0 0 = c.SID_CONF then (cmd_conf c pf t).sent
      else if t.msg.data.getD 0 0 = c.SID_RESET then
        (iso_sendpkt { t with txbuf := t.txbuf.set 0 ((t.msg.data.getD 0 0 + 0x40) % 256) }
          (t.txbuf.set 0 ((t.msg.data.getD 0 0 + 0x40) % 256)) 1).sent
      else if t.msg.data.getD 0 0 = c.SID_RMBA then (cmd_rmba c t).sent
      else if t.msg.data.getD 0 0 = c.SID_WMBA then (cmd_wmba c t).sent
      else if t.msg.data.getD 0 0 = c.SID_DUMP then (cmd_dump c pf t).sent
      else if t.msg.data.getD 0 0 = c.SID_FLASH then (cmd_flash_utils c pf t).sent
      else if t.msg.data.getD 0 0 = c.SID_TP then
        (iso_sendpkt { t with txbuf := t.txbuf.set 0 ((t.msg.data.getD 0 0 + 0x40) % 256) }
          (t.txbuf.set 0 ((t.msg.data.getD 0 0 + 0x40) % 256)) 1).sent
      else if t.msg.data.getD 0 0 = c.SID_FLREQ then (cmd_flash_init c pf t).sent
      else (tx_7F t (t.msg.data.getD 0 0) c.ISO_NRC_SNS).sent := by
  unfold cmd_ready
  simp only [apply_ite SerState.sent]

/-- Number of packets sent by the `switch` on the service identifier. -/
theorem cmd_ready_reply_count (c : Consts) (pf : Platform) (t : SerState)
    (hver : c.npk_ver_string ≠ []) :
    (t.msg.data.getD 0 0 ≠ c.SID_DUMP →
      (cmd_ready c pf t).sent.length = t.sent.length + 1) ∧
    (t.msg.data.getD 0 0 = c.SID_DUMP →
      c.SID_DUMP ≠ c.SID_STARTCOMM → c.SID_DUMP ≠ c.SID_RECUID → c.SID_DUMP ≠ c.SID_CONF →
      c.SID_DUMP ≠ c.SID_RESET → c.SID_DUMP ≠ c.SID_RMBA → c.SID_DUMP ≠ c.SID_WMBA →
      (cmd_ready c pf t).sent.length = (cmd_dump c pf t).sent.length) := by
  have hvlen : c.npk_ver_string.length ≠ 0 := by
    intro h; exact hver (List.length_eq_zero.mp h)
  rw [cmd_ready_sent]
  constructor
  · intro hsid
    split_ifs
    · rw [startcomm_packet]; simp
    · exact iso_sendpkt_sent_length _ _ _ hvlen
    · exact cmd_conf_sent_length _ _ _
    · exact iso_sendpkt_sent_length _ _ _ (by decide)
    · exact cmd_rmba_sent_length _ _
    · exact cmd_wmba_sent_length _ _
    · exact cmd_flash_utils_sent_length _ _ _
    · exact iso_sendpkt_sent_length _ _ _ (by decide)
    · exact cmd_flash_init_sent_length _ _ _
    · exact tx_7F_sent_length _ _ _
  · intro hsid n1 n2 n3 n4 n5 n6
    rw [hsid, if_neg n1, if_neg n2, if_neg n3, if_neg n4, if_neg n5, if_neg n6, if_pos rfl]

/-- C17 (as stated, refuted): in state Ready the region-dump request
`BD 00 00 02 00 01` (EEPROM, two blocks, frame `06 BD 00 00 02 00 01 C6`) is decoded
with DONE and answered with two packets, not one. -/
theorem cmd_dump_two_blocks_two_packets :
    (iso_parserx (sampleSer t_cmdsm.CM_READY t_flashsm.FL_IDLE
      (feed msg0 [0x06, 0xBD, 0x00, 0x00, 0x02, 0x00, 0x01]).2).msg 0xC6).1
      = iso_prc.ISO_PRC_DONE ∧
    (cmd_loop_step sampleConsts samplePlatform
      (sampleSer t_cmdsm.CM_READY t_flashsm.FL_IDLE
        (feed msg0 [0x06, 0xBD, 0x00, 0x00, 0x02, 0x00, 0x01]).2)
      (SciEvent.byte 0xC6)).sent.length = 2 :=
  ⟨by rfl, by rfl⟩

/-- C17 (amended): in state Ready, a frame on which the decoder returns DONE is
answered with exactly one packet when its service identifier is not region-dump,
and also when it is a region-dump request of the wrong length or with an unknown
address-space selector; a well-formed region-dump request for one block or more
is answered with exactly as many packets as the block count it carries. -/
theorem cmd_loop_reply_count (c : Consts) (pf : Platform) (s : SerState) (rxbyte : Nat)
    (hlive : s.dead = false) (hready : s.cmstate = t_cmdsm.CM_READY)
    (hdone : (iso_parserx s.msg rxbyte).1 = iso_prc.ISO_PRC_DONE)
    (hver : c.npk_ver_string ≠ []) :
    ((iso_parserx s.msg rxbyte).2.data.getD 0 0 ≠ c.SID_DUMP →
      (cmd_loop_step c pf s (SciEvent.byte rxbyte)).sent.length = s.sent.length + 1) ∧
    ((iso_parserx s.msg rxbyte).2.data.getD 0 0 = c.SID_DUMP →
      c.SID_DUMP ≠ c.SID_STARTCOMM → c.SID_DUMP ≠ c.SID_RECUID → c.SID_DUMP ≠ c.SID_CONF →
      c.SID_DUMP ≠ c.SID_RESET → c.SID_DUMP ≠ c.SID_RMBA → c.SID_DUMP ≠ c.SID_WMBA →
      (((iso_parserx s.msg rxbyte).2.datalen ≠ 6 ∨
          ((iso_parserx s.msg rxbyte).2.data.getD 1 0 ≠ c.SID_DUMP_EEPROM ∧
           (iso_parserx s.msg rxbyte).2.data.getD 1 0 ≠ c.SID_DUMP_ROM)) →
        (cmd_loop_step c pf s (SciEvent.byte rxbyte)).sent.length = s.sent.length + 1) ∧
      ((iso_parserx s.msg rxbyte).2.datalen = 6 →
        ((iso_parserx s.msg rxbyte).2.data.getD 1 0 = c.SID_DUMP_EEPROM ∨
         (iso_parserx s.msg rxbyte).2.data.getD 1 0 = c.SID_DUMP_ROM) →
        (iso_parserx s.msg rxbyte).2.data.getD 2 0 < 256 →
        (iso_parserx s.msg rxbyte).2.data.getD 3 0 < 256 →
        1 ≤ (iso_parserx s.msg rxbyte).2.data.getD 2 0 * 256 +
          (iso_parserx s.msg rxbyte).2.data.getD 3 0 →
        (cmd_loop_step c pf s (SciEvent.byte rxbyte)).sent.length
          = s.sent.length + ((iso_parserx s.msg rxbyte).2.data.getD 2 0 * 256 +
              (iso_parserx s.msg rxbyte).2.data.getD 3 0))) := by
  have hstep : cmd_loop_step c pf s (SciEvent.byte rxbyte)
      = cmd_ready c pf { s with msg := (iso_parserx s.msg rxbyte).2 } := by
    simp only [cmd_loop_step, hlive, hdone, cmd_dispatch, hready]
    simp
  rw [hstep]
  generalize (iso_parserx s.msg rxbyte).2 = m
  obtain ⟨k1, k2⟩ := cmd_ready_reply_count c pf { s with msg := m } hver
  obtain ⟨d1, d2⟩ := cmd_dump_sent_length c pf { s with msg := m }
  constructor
  · intro hsid
    exact k1 hsid
  · intro hsid n1 n2 n3 n4 n5 n6
    rw [k2 hsid n1 n2 n3 n4 n5 n6]
    exact ⟨d1, fun hdl hsel hb2 hb3 _ => d2 hdl hsel hb2 hb3⟩

set_option maxRecDepth 100000 in
theorem cmd_loop_reply_count_witness :
    (cmd_loop_step sampleConsts samplePlatform
      (sampleSer t_cmdsm.CM_READY t_flashsm.FL_IDLE (feed msg0 [0x01, 0x3E]).2)
      (SciEvent.byte 0x3F)).sent.length = 1 ∧
    (cmd_loop_step sampleConsts samplePlatform
      (sampleSer t_cmdsm.CM_READY t_flashsm.FL_IDLE
        (feed msg0 [0x06, 0xBD, 0x00, 0x00, 0x02, 0x00, 0x01]).2)
      (SciEvent.byte 0xC6)).sent.length = 2 :=
  have h1 := (cmd_loop_reply_count sampleConsts samplePlatform
    (sampleSer t_cmdsm.CM_READY t_flashsm.FL_IDLE (feed msg0 [0x01, 0x3E]).2) 0x3F
    rfl rfl (by rfl) (by decide)).1 (by decide)
  have h2 := ((cmd_loop_reply_count sampleConsts samplePlatform
    (sampleSer t_cmdsm.CM_READY t_flashsm.FL_IDLE
      (feed msg0 [0x06, 0xBD, 0x00, 0x00, 0x02, 0x00, 0x01]).2) 0xC6
    rfl rfl (by rfl) (by decide)).2 (by rfl) (by decide) (by decide) (by decide) (by decide)
    (by decide) (by decide)).2 (by rfl) (Or.inl (by rfl)) (by decide) (by decide) (by decide)
  ⟨h1, h2⟩

set_option maxRecDepth 100000 in
/-- A region-dump request for no block at all gets no answer: in state Ready the
request `BD 01 00 00 00 00` (ROM, block count 0, frame `06 BD 01 00 00 00 00 C4`)
is decoded with DONE, `while (len)` is not entered, and nothing is sent. -/
theorem cmd_dump_zero_blocks_no_packet :
    (iso_parserx (sampleSer t_cmdsm.CM_READY t_flashsm.FL_IDLE
      (feed msg0 [0x06, 0xBD, 0x01, 0x00, 0x00, 0x00, 0x00]).2).msg 0xC4).1
      = iso_prc.ISO_PRC_DONE ∧
    (cmd_loop_step sampleConsts samplePlatform
      (sampleSer t_cmdsm.CM_READY t_flashsm.FL_IDLE
        (feed msg0 [0x06, 0xBD, 0x01, 0x00, 0x00, 0x00, 0x00]).2)
      (SciEvent.byte 0xC4)).sent = [] :=
  ⟨by rfl, by rfl⟩

/-! ### Tester-present -/

theorem cmd_loop_step_needmore (c : Consts) (pf : Platform) (s : SerState) (rxbyte : Nat)
    (hlive : s.dead = false)
    (hmore : (iso_parserx s.msg rxbyte).1 = iso_prc.ISO_PRC_NEEDMORE) :
    cmd_loop_step c pf s (SciEvent.byte rxbyte) =
      { s with msg := (iso_parserx s.msg rxbyte).2 } := by
  simp only [cmd_loop_step, hlive, hmore]
  simp

/-- The tester-present branch of `cmd_loop`: one packet with the single byte
`SID_TP + 0x40`, and the message is cleared. -/
theorem cmd_loop_step_tp (c : Consts) (pf : Platform) (s : SerState) (rxbyte : Nat)
    (hlabels : c.SID_TP ∉ [c.SID_STARTCOMM, c.SID_RECUID, c.SID_CONF, c.SID_RESET,
      c.SID_RMBA, c.SID_WMBA, c.SID_DUMP, c.SID_FLASH])
    (hsid : c.SID_TP + 0x40 < 256)
    (hlive : s.dead = false) (hready : s.cmstate = t_cmdsm.CM_READY)
    (htx : 1 ≤ s.txbuf.length)
    (hdone : (iso_parserx s.msg rxbyte).1 = iso_prc.ISO_PRC_DONE)
    (htp : (iso_parserx s.msg rxbyte).2.data.getD 0 0 = c.SID_TP) :
    cmd_loop_step c pf s (SciEvent.byte rxbyte) =
      { s with msg := iso_clearmsg (iso_parserx s.msg rxbyte).2,
               txbuf := s.txbuf.set 0 (c.SID_TP + 0x40),
               sent := s.sent ++ [[0x01, c.SID_TP + 0x40, (0x01 + c.SID_TP + 0x40) % 256]] } := by
  simp only [List.mem_cons, List.mem_singleton, not_or, List.not_mem_nil, not_false_eq_true,
    and_true] at hlabels
  obtain ⟨n1, n2, n3, n4, n5, n6, n7, n8⟩ := hlabels
  obtain ⟨t0, rest, htxeq⟩ : ∃ t0 rest, s.txbuf = t0 :: rest := by
    cases h : s.txbuf with
    | nil => rw [h] at htx; simp at htx
    | cons a l => exact ⟨a, l, rfl⟩
  simp only [cmd_loop_step, hlive, hdone, cmd_dispatch, hready, cmd_ready, htp,
    if_neg n1, if_neg n2, if_neg n3, if_neg n4, if_neg n5, if_neg n6, if_neg n7, if_neg n8,
    if_true, Bool.false_eq_true, if_false, Nat.mod_eq_of_lt hsid, htxeq]
  simp only [iso_sendpkt, iso_sendpkt_bytes, cks_u8, cks_u8_loop, List.set_cons_zero]
  simp
  omega

/-- C18: tester-present.  With the tester-present SID `0x3E`, in state Ready the bytes
`01 3E 3F` received from a cleared message are decoded NEEDMORE, NEEDMORE, DONE with
`datalen = 1` and `data = [0x3E]`, the device sends exactly `01 7E 7F` and the
session stays Ready.  In general, for every SID value below `0xC0`, a complete frame
whose first data byte is the tester-present SID is answered on the wire with
`[0x01, SID + 0x40, (0x01 + SID + 0x40) mod 256]`, and the session stays Ready. -/
theorem cmd_loop_tester_present (c : Consts) (pf : Platform) (s : SerState)
    (hlabels : c.SID_TP ∉ [c.SID_STARTCOMM, c.SID_RECUID, c.SID_CONF, c.SID_RESET,
      c.SID_RMBA, c.SID_WMBA, c.SID_DUMP, c.SID_FLASH])
    (hlive : s.dead = false) (hready : s.cmstate = t_cmdsm.CM_READY)
    (htx : 1 ≤ s.txbuf.length) :
    (c.SID_TP = 0x3E → s.msg.cleared →
      (feed s.msg [0x01, 0x3E, 0x3F]).1 =
        [iso_prc.ISO_PRC_NEEDMORE, iso_prc.ISO_PRC_NEEDMORE, iso_prc.ISO_PRC_DONE] ∧
      (feed s.msg [0x01, 0x3E, 0x3F]).2.datalen = 1 ∧
      (feed s.msg [0x01, 0x3E, 0x3F]).2.data.take 1 = [0x3E] ∧
      (cmd_loop_run c pf s
        [SciEvent.byte 0x01, SciEvent.byte 0x3E, SciEvent.byte 0x3F]).sent =
          s.sent ++ [[0x01, 0x7E, 0x7F]] ∧
      (cmd_loop_run c pf s
        [SciEvent.byte 0x01, SciEvent.byte 0x3E, SciEvent.byte 0x3F]).cmstate
          = t_cmdsm.CM_READY) ∧
    (∀ rxbyte, c.SID_TP + 0x40 < 256 →
      (iso_parserx s.msg rxbyte).1 = iso_prc.ISO_PRC_DONE →
      (iso_parserx s.msg rxbyte).2.data.getD 0 0 = c.SID_TP →
      (cmd_loop_step c pf s (SciEvent.byte rxbyte)).sent =
        s.sent ++ [[0x01, c.SID_TP + 0x40, (0x01 + c.SID_TP + 0x40) % 256]] ∧
      (cmd_loop_step c pf s (SciEvent.byte rxbyte)).cmstate = t_cmdsm.CM_READY) := by
  constructor
  · intro htp hclr
    have hdata : s.msg.data.length = 256 := hclr.2.2.2.2.2
    have hframe := feed_frame s.msg hclr 0x01 [] [0x3E] 0x3F (by decide) (by decide)
      (by decide) (by decide)
    have hfeed : feed s.msg [0x01, 0x3E, 0x3F] =
        ([iso_prc.ISO_PRC_NEEDMORE, iso_prc.ISO_PRC_NEEDMORE, iso_prc.ISO_PRC_DONE],
         { hdrlen := 1, datalen := 1, hi := 1, di := 2,
           hdr := [0x01] ++ s.msg.hdr.drop 1,
           data := (overwrite s.msg.data 0 [0x3E]).set 1 0x3F }) := by
      rw [show ([0x01, 0x3E, 0x3F] : List Nat) = 0x01 :: [] ++ ([0x3E] ++ [0x3F]) from rfl,
        hframe]
      simp [fmt_hdrlen]
    have hunf : feed s.msg [0x01, 0x3E, 0x3F] =
        ([(iso_parserx s.msg 0x01).1, (iso_parserx (iso_parserx s.msg 0x01).2 0x3E).1,
          (iso_parserx (iso_parserx (iso_parserx s.msg 0x01).2 0x3E).2 0x3F).1],
         (iso_parserx (iso_parserx (iso_parserx s.msg 0x01).2 0x3E).2 0x3F).2) := rfl
    have hboth := hunf.symm.trans hfeed
    simp only [Prod.mk.injEq, List.cons.injEq, and_true] at hboth
    obtain ⟨⟨r1, r2, r3⟩, hm3⟩ := hboth
    obtain ⟨d0, drest, hdeq⟩ : ∃ d0 drest, s.msg.data = d0 :: drest := by
      cases h : s.msg.data with
      | nil => rw [h] at hdata; simp at hdata
      | cons a l => exact ⟨a, l, rfl⟩
    have hd0 : (iso_parserx (iso_parserx (iso_parserx s.msg 0x01).2 0x3E).2 0x3F).2.data.getD 0 0
        = c.SID_TP := by
      rw [hm3, htp, hdeq]
      cases drest <;> simp [overwrite]
    have hs1 := cmd_loop_step_needmore c pf s 0x01 hlive r1
    have hs2 := cmd_loop_step_needmore c pf
      { s with msg := (iso_parserx s.msg 0x01).2 } 0x3E hlive r2
    have hs3 := cmd_loop_step_tp c pf
      { s with msg := (iso_parserx (iso_parserx s.msg 0x01).2 0x3E).2 } 0x3F hlabels
      (by rw [htp]; decide) hlive hready htx r3 hd0
    have hrun : cmd_loop_run c pf s
        [SciEvent.byte 0x01, SciEvent.byte 0x3E, SciEvent.byte 0x3F] =
        cmd_loop_step c pf (cmd_loop_step c pf (cmd_loop_step c pf s (SciEvent.byte 0x01))
          (SciEvent.byte 0x3E)) (SciEvent.byte 0x3F) := rfl
    rw [hfeed, hrun, hs1, hs2, hs3, htp]
    refine ⟨rfl, rfl, ?_, rfl, hready⟩
    rw [hdeq]
    cases drest <;> simp [overwrite]
  · intro rxbyte hsid hdone htp
    rw [cmd_loop_step_tp c pf s rxbyte hlabels hsid hlive hready htx hdone htp]
    exact ⟨rfl, hready⟩

set_option maxRecDepth 100000 in
theorem cmd_loop_tester_present_witness :
    sampleConsts.SID_TP = 0x3E ∧ msg0.cleared ∧
    (cmd_loop_run sampleConsts samplePlatform (sampleSer t_cmdsm.CM_READY t_flashsm.FL_IDLE msg0)
      [SciEvent.byte 0x01, SciEvent.byte 0x3E, SciEvent.byte 0x3F]).sent
        = [[0x01, 0x7E, 0x7F]] ∧
    (cmd_loop_run sampleConsts samplePlatform (sampleSer t_cmdsm.CM_READY t_flashsm.FL_IDLE msg0)
      [SciEvent.byte 0x01, SciEvent.byte 0x3E, SciEvent.byte 0x3F]).cmstate
        = t_cmdsm.CM_READY :=
  have hclr : msg0.cleared := ⟨rfl, rfl, rfl, rfl, rfl, List.length_replicate _ _⟩
  have h := (cmd_loop_tester_present sampleConsts samplePlatform
    (sampleSer t_cmdsm.CM_READY t_flashsm.FL_IDLE msg0) (by decide) rfl rfl
    (by simp [sampleSer])).1 rfl hclr
  ⟨rfl, hclr, h.2.2.2.1, h.2.2.2.2⟩

/-! ### ROM integrity verify -/

theorem getD_drop (l : List Nat) (n k : Nat) : (l.drop n).getD k 0 = l.getD (n + k) 0 := by
  simp only [List.getD_eq_getElem?_getD, List.getElem?_drop]

set_option maxRecDepth 100000 in
/-- The four turns of the loop of `cmd_romcrc`, with the chunk number and the
expected CRCs read as big-endian 16-bit numbers. -/
theorem cmd_romcrc_unfold (c : Consts) (pf : Platform) (data : List Nat)
    (hnum : c.ROMCRC_NUMCHUNKS = 4) (hsize : 65536 * c.ROMCRC_CHUNKSIZE ≤ 2 ^ 32)
    (hcrc : ∀ a n, pf.crc16 a n < 65536) (hbytes : ∀ k < 10, data.getD k 0 < 256) :
    cmd_romcrc c pf data =
      if pf.crc16 (((data.getD 0 0 * 256 + data.getD 1 0 + 0) % 65536) * c.ROMCRC_CHUNKSIZE)
          c.ROMCRC_CHUNKSIZE ≠ data.getD 2 0 * 256 + data.getD 3 0 then -1
      else if pf.crc16 (((data.getD 0 0 * 256 + data.getD 1 0 + 1) % 65536)
          * c.ROMCRC_CHUNKSIZE) c.ROMCRC_CHUNKSIZE ≠ data.getD 4 0 * 256 + data.getD 5 0 then -1
      else if pf.crc16 (((data.getD 0 0 * 256 + data.getD 1 0 + 2) % 65536)
          * c.ROMCRC_CHUNKSIZE) c.ROMCRC_CHUNKSIZE ≠ data.getD 6 0 * 256 + data.getD 7 0 then -1
      else if pf.crc16 (((data.getD 0 0 * 256 + data.getD 1 0 + 3) % 65536)
          * c.ROMCRC_CHUNKSIZE) c.ROMCRC_CHUNKSIZE ≠ data.getD 8 0 * 256 + data.getD 9 0 then -1
      else 0 := by
  have hstart : ∀ n : Nat, (n % 65536 * c.ROMCRC_CHUNKSIZE) % 2 ^ 32
      = n % 65536 * c.ROMCRC_CHUNKSIZE := by
    intro n
    apply Nat.mod_eq_of_lt
    have h1 : n % 65536 * c.ROMCRC_CHUNKSIZE ≤ 65535 * c.ROMCRC_CHUNKSIZE :=
      Nat.mul_le_mul_right _ (by omega)
    by_cases h0 : c.ROMCRC_CHUNKSIZE = 0
    · rw [h0] at h1 ⊢; omega
    · omega
  have hcm : ∀ a n, pf.crc16 a n % 65536 = pf.crc16 a n :=
    fun a n => Nat.mod_eq_of_lt (hcrc a n)
  have hw : ∀ k, k < 9 → ((data.getD k 0 <<< 8) ||| data.getD (k + 1) 0) % 65536
      = data.getD k 0 * 256 + data.getD (k + 1) 0 := by
    intro k hk
    have := hbytes k (by omega)
    have := hbytes (k + 1) (by omega)
    rw [shl8_or _ _ (by assumption)]
    omega
  have e1 : ∀ n : Nat, (n % 65536 + 1) % 65536 = (n + 1) % 65536 := by intro n; omega
  simp only [cmd_romcrc, hnum, cmd_romcrc_loop, getD_drop, List.drop_drop, hcm,
    Nat.add_zero, Nat.reduceAdd]
  rw [hw 0 (by decide), hw 2 (by decide), hw 4 (by decide), hw 6 (by decide),
    hw 8 (by decide)]
  have hcn : (data.getD 0 0 * 256 + data.getD 1 0) % 65536
      = data.getD 0 0 * 256 + data.getD 1 0 := by
    have := hbytes 0 (by decide)
    have := hbytes 1 (by decide)
    omega
  simp only [Nat.reduceAdd, hcn]
  generalize data.getD 0 0 * 256 + data.getD 1 0 = cn at hcn ⊢
  have s0 : cn * c.ROMCRC_CHUNKSIZE % 2 ^ 32 = cn * c.ROMCRC_CHUNKSIZE := by
    have := hstart cn
    rw [hcn] at this
    exact this
  have s2 : ((cn + 1) % 65536 + 1) % 65536 = (cn + 2) % 65536 := by omega
  have s3 : ((cn + 2) % 65536 + 1) % 65536 = (cn + 3) % 65536 := by omega
  rw [s2, s3, s0, hstart, hstart, hstart]

set_option maxRecDepth 100000 in
/-- C19: ROM integrity verify, with four chunks per request.  For an argument
`CNH CNL CRC0H CRC0L ... CRC3H CRC3L`, `cmd_romcrc` returns 0 exactly when, for every
`i` from 0 to 3, the CRC16 of the `ROMCRC_CHUNKSIZE` bytes starting at
`((chunk number + i) mod 65536) * ROMCRC_CHUNKSIZE` equals the `i`-th big-endian
expected CRC.  In `cmd_conf`, a verify request of 12 bytes is answered with
`0x7F, SID_CONF, SID_CONF_CKS1_BADCKS` when `cmd_romcrc` does not return 0, and with
the single byte `SID_CONF + 0x40` when it does. -/
theorem cmd_romcrc_verify (c : Consts) (pf : Platform) (data : List Nat) (s : SerState)
    (hnum : c.ROMCRC_NUMCHUNKS = 4) (hsize : 65536 * c.ROMCRC_CHUNKSIZE ≤ 2 ^ 32)
    (hcrc : ∀ a n, pf.crc16 a n < 65536) (hbytes : ∀ k < 10, data.getD k 0 < 256)
    (hsid : c.SID_CONF + 0x40 < 256) (hbad : c.SID_CONF_CKS1_BADCKS < 256)
    (hl1 : c.SID_CONF_CKS1 ≠ c.SID_CONF_SETSPEED) (hl2 : c.SID_CONF_CKS1 ≠ c.SID_CONF_SETEEPR)
    (hdl : s.msg.datalen = 12) (hsub : s.msg.data.getD 1 0 = c.SID_CONF_CKS1) :
    (cmd_romcrc c pf data = 0 ↔
      ∀ i < 4,
        pf.crc16 (((data.getD 0 0 * 256 + data.getD 1 0 + i) % 65536) * c.ROMCRC_CHUNKSIZE)
            c.ROMCRC_CHUNKSIZE
          = data.getD (2 + 2 * i) 0 * 256 + data.getD (3 + 2 * i) 0) ∧
    (cmd_romcrc c pf (s.msg.data.drop 2) ≠ 0 →
      cmd_conf c pf s =
        { s with sent := s.sent ++ [[3, 0x7F, c.SID_CONF, c.SID_CONF_CKS1_BADCKS,
            (3 + 0x7F + c.SID_CONF + c.SID_CONF_CKS1_BADCKS) % 256]] }) ∧
    (cmd_romcrc c pf (s.msg.data.drop 2) = 0 →
      cmd_conf c pf s =
        { s with sent := s.sent ++ [[0x01, c.SID_CONF + 0x40,
            (0x01 + c.SID_CONF + 0x40) % 256]] }) := by
  refine ⟨?_, ?_, ?_⟩
  · rw [cmd_romcrc_unfold c pf data hnum hsize hcrc hbytes]
    constructor
    · intro h i hi
      split_ifs at h with h0 h1 h2 h3
      · interval_cases i
        · exact not_not.mp h0
        · exact not_not.mp h1
        · exact not_not.mp h2
        · exact not_not.mp h3
    · intro h
      have q0 := h 0 (by decide)
      have q1 := h 1 (by decide)
      have q2 := h 2 (by decide)
      have q3 := h 3 (by decide)
      simp only [Nat.mul_zero, Nat.mul_one, Nat.add_zero, Nat.reduceMul, Nat.reduceAdd]
        at q0 q1 q2 q3
      simp only [Nat.add_zero, ne_eq, q0, q1, q2, q3, not_true_eq_false, if_false]
  · intro hne
    have h1 : ¬ s.msg.datalen < 2 := by omega
    have h12 : ¬ s.msg.datalen ≠ 12 := by simp [hdl]
    have h : cmd_conf c pf s = tx_7F s c.SID_CONF c.SID_CONF_CKS1_BADCKS := by
      simp only [cmd_conf, if_neg h1, hsub, if_neg hl1, if_neg hl2, if_true, if_neg h12,
        if_pos hne]
    rw [h, tx_7F_sent s _ _ (by omega) hbad]
  · intro heq
    have h1 : ¬ s.msg.datalen < 2 := by omega
    have h12 : ¬ s.msg.datalen ≠ 12 := by simp [hdl]
    have hne : ¬ cmd_romcrc c pf (s.msg.data.drop 2) ≠ 0 := by simp [heq]
    simp only [cmd_conf, if_neg h1, hsub, if_neg hl1, if_neg hl2, if_true, if_neg h12,
      if_neg hne, Nat.mod_eq_of_lt hsid]
    simp only [iso_sendpkt, iso_sendpkt_bytes, cks_u8, cks_u8_loop]
    simp
    omega

set_option maxRecDepth 100000 in
theorem cmd_romcrc_verify_witness :
    cmd_romcrc sampleConsts samplePlatform
      [0x00, 0x10, 0x00, 0x00, 0x00, 0x00, 0x00, 0x00, 0x00, 0x00] = 0 ∧
    (cmd_conf sampleConsts samplePlatform (sampleSer t_cmdsm.CM_READY t_flashsm.FL_IDLE
      (sampleMsg [0xBE, 0x03, 0x00, 0x10, 0x00, 0x00, 0x00, 0x00, 0x00, 0x00, 0x00,
        0x00]))).sent = [[0x01, 0xFE, 0xFF]] ∧
    (cmd_conf sampleConsts samplePlatform (sampleSer t_cmdsm.CM_READY t_flashsm.FL_IDLE
      (sampleMsg [0xBE, 0x03, 0x00, 0x10, 0x00, 0x00, 0x00, 0x00, 0x00, 0x00, 0x00,
        0x01]))).sent = [[0x03, 0x7F, 0xBE, 0x77, 0xB7]] :=
  have hok := cmd_romcrc_verify sampleConsts samplePlatform
    [0x00, 0x10, 0x00, 0x00, 0x00, 0x00, 0x00, 0x00, 0x00, 0x00]
    (sampleSer t_cmdsm.CM_READY t_flashsm.FL_IDLE
      (sampleMsg [0xBE, 0x03, 0x00, 0x10, 0x00, 0x00, 0x00, 0x00, 0x00, 0x00, 0x00, 0x00]))
    rfl (by decide) (fun _ _ => (by decide : (0 : Nat) < 65536)) (by decide) (by decide) (by decide) (by decide)
    (by decide) rfl (by rfl)
  have hbad := cmd_romcrc_verify sampleConsts samplePlatform
    [0x00, 0x10, 0x00, 0x00, 0x00, 0x00, 0x00, 0x00, 0x00, 0x00]
    (sampleSer t_cmdsm.CM_READY t_flashsm.FL_IDLE
      (sampleMsg [0xBE, 0x03, 0x00, 0x10, 0x00, 0x00, 0x00, 0x00, 0x00, 0x00, 0x00, 0x01]))
    rfl (by decide) (fun _ _ => (by decide : (0 : Nat) < 65536)) (by decide) (by decide) (by decide) (by decide)
    (by decide) rfl (by rfl)
  ⟨hok.1.mpr (by intro i hi; interval_cases i <;> rfl), by rw [hok.2.2 (by rfl)]; rfl,
    by rw [hbad.2.1 (by decide)]; rfl⟩

/-! ### The block checksum of the two transports -/

/-- The turn `sum = ((sum >> 8) & 0xFF) + (sum & 0xFF)` of the CAN checksum
loops, on a sum below 512: subtract 255 when the sum has left the byte range. -/
theorem fold_hi_lo (x : Nat) (h : x < 512) :
    ((x % 2 ^ 32) >>> 8 &&& 0xFF) + ((x % 2 ^ 32) &&& 0xFF) =
      if 256 ≤ x then x - 255 else x := by
  have h1 : x % 2 ^ 32 = x := Nat.mod_eq_of_lt (by omega)
  have h2 : ∀ y : Nat, y &&& 0xFF = y % 256 := fun y =>
    Nat.and_pow_two_sub_one_eq_mod y 8
  rw [h1, h2, h2, Nat.shiftRight_eq_div_pow]
  split <;> omega

/-- A fold that reads `l` by index is the fold over `l`. -/
theorem foldl_range_getD (f : Nat → Nat → Nat) (l : List Nat) (init : Nat) :
    (List.range l.length).foldl (fun acc i => f acc (l.getD i 0)) init = l.foldl f init := by
  have h : (List.range l.length).map (fun i => l.getD i 0) = l := by
    apply List.ext_getElem
    · simp
    · intro i h1 h2
      simp at h1
      simp [List.getD_eq_getElem?_getD, List.getElem?_eq_getElem h1]
  conv_rhs => rw [← h]
  rw [List.foldl_map]

/-- On byte values the fold of the CAN loops is the loop of `cks_add8`. -/
theorem foldl_hi_lo_eq (ds : List Nat) : ∀ (sum : Nat), sum ≤ 255 →
    (∀ b ∈ ds, b < 256) →
      ds.foldl (fun sum d =>
        (((sum + d) % 2 ^ 32) >>> 8 &&& 0xFF) + (((sum + d) % 2 ^ 32) &&& 0xFF)) sum
        = cks_add8_loop ds sum := by
  induction ds with
  | nil => intro sum _ _; simp [cks_add8_loop]
  | cons d ds ih =>
    intro sum hs hb
    have hd : d < 256 := hb d (List.mem_cons_self _ _)
    have hb' : ∀ b ∈ ds, b < 256 := fun b h => hb b (List.mem_cons_of_mem _ h)
    rw [cks_add8_loop_cons d ds sum hs hd, List.foldl_cons, fold_hi_lo (sum + d) (by omega)]
    exact ih _ (by split <;> omega) hb'

theorem flashCheckSum_eq (b : List Nat) (hlen : b.length = 128) (hb : ∀ x ∈ b, x < 256) :
    flashCheckSum b = cks_add8_loop b 0 := by
  have h := foldl_range_getD (fun sum d =>
        (((sum + d) % 2 ^ 32) >>> 8 &&& 0xFF) + (((sum + d) % 2 ^ 32) &&& 0xFF)) b 0
  rw [hlen] at h
  rw [← foldl_hi_lo_eq b 0 (by omega) hb, ← h]
  rfl

theorem mem_read_succ (mem : Nat → Nat) (addr len : Nat) :
    mem_read mem addr (len + 1) = mem (addr % 2 ^ 32) :: mem_read mem (addr + 1) len := by
  simp only [mem_read, List.range_succ_eq_map, List.map_cons, List.map_map, Nat.add_zero]
  congr 1
  apply List.map_congr_left
  intro i _
  simp only [Function.comp, Nat.succ_eq_add_one]
  rw [show addr + (i + 1) = addr + 1 + i by omega]

theorem can_cmd_cks_loop_eq (mem : Nat → Nat) (hmem : ∀ a, mem a < 256) :
    ∀ (len addr cks : Nat), cks ≤ 255 →
      can_cmd_cks_loop mem len addr cks = cks_add8_loop (mem_read mem addr len) cks := by
  intro len
  induction len with
  | zero => intro addr cks _; simp [can_cmd_cks_loop, mem_read, cks_add8_loop]
  | succ n ih =>
    intro addr cks hc
    have hm := hmem (addr % 2 ^ 32)
    have h1 : mem (addr % 2 ^ 32) &&& 0xFF = mem (addr % 2 ^ 32) := by
      rw [Nat.and_pow_two_sub_one_eq_mod _ 8]; omega
    rw [mem_read_succ, cks_add8_loop_cons _ _ cks hc hm]
    simp only [can_cmd_cks_loop, h1]
    rw [fold_hi_lo (cks + mem (addr % 2 ^ 32)) (by omega)]
    exact ih _ _ (by split <;> omega)

/-- C24: the two transports use the same block checksum.  For every 128-byte
staging buffer `b`, the fold loop of `can_cmd_flash_128bytes` (add the byte, then
replace the sum by its high byte plus its low byte) gives a value of at most 255
that equals `cks_add8 b 128`; and the loop of `can_cmd_cks` over `len` bytes of
memory from `addr` equals `cks_add8` over those bytes. -/
theorem can_checksums_eq_cks_add8 (b : List Nat) (mem : Nat → Nat) (addr len : Nat)
    (hlen : b.length = 128) (hb : ∀ x ∈ b, x < 256) (hmem : ∀ a, mem a < 256) :
    flashCheckSum b ≤ 255 ∧ flashCheckSum b = cks_add8 b 128 ∧
      can_cmd_cks_loop mem len addr 0 = cks_add8 (mem_read mem addr len) len := by
  have hf := flashCheckSum_eq b hlen hb
  have hs := (cks_add8_loop_spec b 0 (by omega) hb).1
  have ht : b.take 128 = b := List.take_of_length_le (by omega)
  have hmr : ∀ x ∈ mem_read mem addr len, x < 256 := by
    intro x hx
    simp only [mem_read, List.mem_map] at hx
    obtain ⟨i, _, rfl⟩ := hx
    exact hmem _
  have hs2 := (cks_add8_loop_spec (mem_read mem addr len) 0 (by omega) hmr).1
  have ht2 : (mem_read mem addr len).take len = mem_read mem addr len :=
    List.take_of_length_le (by rw [mem_read_length])
  refine ⟨by rw [hf]; exact hs, ?_, ?_⟩
  · rw [hf, cks_add8, ht, Nat.mod_eq_of_lt (by omega)]
  · rw [can_cmd_cks_loop_eq mem hmem len addr 0 (by omega), cks_add8, ht2,
      Nat.mod_eq_of_lt (by omega)]

set_option maxRecDepth 100000 in
theorem can_checksums_eq_cks_add8_witness :
    flashCheckSum ((List.range 128).map (fun i => 2 * i)) ≤ 255 ∧
      flashCheckSum ((List.range 128).map (fun i => 2 * i)) =
        cks_add8 ((List.range 128).map (fun i => 2 * i)) 128 ∧
      can_cmd_cks_loop (fun a => (a + 200) % 256) 300 0xFFFFFF00 0 =
        cks_add8 (mem_read (fun a => (a + 200) % 256) 0xFFFFFF00 300) 300 :=
  can_checksums_eq_cks_add8 ((List.range 128).map (fun i => 2 * i))
    (fun a => (a + 200) % 256) 0xFFFFFF00 300 (by simp)
    (by intro x hx; simp only [List.mem_map, List.mem_range] at hx
        obtain ⟨i, hi, rfl⟩ := hx; omega)
    (fun a => Nat.mod_lt _ (by decide))

/-! ### Frames without a payload -/

set_option maxRecDepth 100000 in
/-- C23: the decoder reports DONE on a frame without a service identifier.  The
five bytes `80 91 00 00 11` (format byte with address bytes, explicit length byte
0, then the sum `0x11` of the four header bytes) fed to `iso_parserx` from a
cleared message end in DONE with `datalen = 0`; `data[0]` is then the checksum
byte `0x11`, and `cmd_loop` in the ready state dispatches on it as the reset
service: it answers `0x51` and leaves through `die()`. -/
theorem iso_parserx_done_with_empty_payload :
    (feed msg0 [0x80, 0x91, 0x00, 0x00, 0x11]).1 =
        [iso_prc.ISO_PRC_NEEDMORE, iso_prc.ISO_PRC_NEEDMORE, iso_prc.ISO_PRC_NEEDMORE,
         iso_prc.ISO_PRC_NEEDMORE, iso_prc.ISO_PRC_DONE] ∧
      (feed msg0 [0x80, 0x91, 0x00, 0x00, 0x11]).2.datalen = 0 ∧
      (feed msg0 [0x80, 0x91, 0x00, 0x00, 0x11]).2.data.getD 0 0 = 0x11 ∧
      cks_u8 (feed msg0 [0x80, 0x91, 0x00, 0x00, 0x11]).2.hdr 4 = 0x11 ∧
      (cmd_loop_run sampleConsts samplePlatform
          (sampleSer t_cmdsm.CM_READY t_flashsm.FL_IDLE msg0)
          ([0x80, 0x91, 0x00, 0x00, 0x11].map SciEvent.byte)).sent = [[0x01, 0x51, 0x52]] ∧
      (cmd_loop_run sampleConsts samplePlatform
          (sampleSer t_cmdsm.CM_READY t_flashsm.FL_IDLE msg0)
          ([0x80, 0x91, 0x00, 0x00, 0x11].map SciEvent.byte)).dead = true := by
  refine ⟨by decide, by decide, by decide, by decide, by decide, by decide⟩

/-! ### The frame counter of the CAN sequencer -/

theorem can_reject_seq (s : CanState) (msg : List Nat) (code : Nat) :
    (can_reject s msg code).counter8byteblock = s.counter8byteblock ∧
      (can_reject s msg code).loadingblocks = s.loadingblocks := by
  simp [can_reject, can_tx8bytes]

theorem can_cmd_cks_seq (mem : Nat → Nat) (s : CanState) (msg : List Nat) :
    (can_cmd_cks mem s msg).counter8byteblock = s.counter8byteblock ∧
      (can_cmd_cks mem s msg).loadingblocks = s.loadingblocks := by
  unfold can_cmd_cks
  split
  · exact can_reject_seq s msg _
  · simp [can_tx8bytes]

theorem can_cmd_dump_loop_seq (mem : Nat → Nat) (msg : List Nat) :
    ∀ (fuel : Nat) (s : CanState) (len addr : Nat),
      (can_cmd_dump_loop mem msg fuel s len addr).counter8byteblock = s.counter8byteblock ∧
        (can_cmd_dump_loop mem msg fuel s len addr).loadingblocks = s.loadingblocks := by
  intro fuel
  induction fuel with
  | zero => intro s len addr; simp [can_cmd_dump_loop]
  | succ n ih =>
    intro s len addr
    rw [can_cmd_dump_loop]
    split
    · exact ⟨rfl, rfl⟩
    · refine ⟨(ih _ _ _).1.trans ?_, (ih _ _ _).2.trans ?_⟩ <;> rfl

theorem can_cmd_dump_seq (mem : Nat → Nat) (s : CanState) (msg : List Nat) :
    (can_cmd_dump mem s msg).counter8byteblock = s.counter8byteblock ∧
      (can_cmd_dump mem s msg).loadingblocks = s.loadingblocks := by
  unfold can_cmd_dump
  split
  · exact can_reject_seq s msg _
  · exact can_cmd_dump_loop_seq mem msg _ _ _ _

theorem can_cmd_flash_init_seq (pf : Platform) (s : CanState) (msg : List Nat) :
    (can_cmd_flash_init pf s msg).counter8byteblock = s.counter8byteblock ∧
      (can_cmd_flash_init pf s msg).loadingblocks = s.loadingblocks := by
  unfold can_cmd_flash_init
  split
  · exact can_reject_seq s msg _
  · split
    · exact can_reject_seq _ msg _
    · split <;> simp [can_tx8bytes]

theorem can_cmd_flash_128bytes_seq (pf : Platform) (s : CanState) (msg : List Nat) :
    (can_cmd_flash_128bytes pf s msg).counter8byteblock = s.counter8byteblock ∧
      (can_cmd_flash_128bytes pf s msg).loadingblocks = s.loadingblocks := by
  unfold can_cmd_flash_128bytes
  split
  · exact can_reject_seq s msg _
  · simp only []
    split
    · simp [can_tx8bytes]
    · split
      · simp [can_tx8bytes]
      · split
        · exact can_reject_seq _ msg _
        · simp [can_tx8bytes]

theorem can_cmd_erase_block_seq (pf : Platform) (s : CanState) (msg : List Nat) :
    ((can_cmd_erase_block pf s msg).counter8byteblock = s.counter8byteblock ∨
        (can_cmd_erase_block pf s msg).counter8byteblock = 0) ∧
      (can_cmd_erase_block pf s msg).loadingblocks = s.loadingblocks := by
  unfold can_cmd_erase_block
  split
  · exact ⟨Or.inl (can_reject_seq s msg _).1, (can_reject_seq s msg _).2⟩
  · simp only []
    split <;> simp [can_tx8bytes]

/-- A turn in command mode leaves the frame counter at 0. -/
theorem can_cmd_process_command_mode (pf : Platform) (mem : Nat → Nat) (s : CanState)
    (hl : s.loadingblocks = false) (h : s.counter8byteblock = 0) :
    (can_cmd_process pf mem s).counter8byteblock = 0 := by
  rw [can_cmd_process]
  dsimp only
  rw [if_neg (by rw [hl]; decide)]
  simp only [apply_ite CanState.counter8byteblock]
  split_ifs
  all_goals first
    | exact (can_cmd_cks_seq _ _ _).1.trans h
    | exact (can_cmd_dump_seq _ _ _).1.trans h
    | exact (can_cmd_flash_init_seq _ _ _).1.trans h
    | exact (can_cmd_flash_128bytes_seq _ _ _).1.trans h
    | exact (can_cmd_erase_block_seq pf s s.currentmsg).1.elim (fun k => k.trans h) id
    | exact h

/-- The frame counter stays in step with the mode through one turn. -/
theorem can_cmd_process_seq (pf : Platform) (mem : Nat → Nat) (s : CanState)
    (h : if s.loadingblocks then s.counter8byteblock ≤ 15 else s.counter8byteblock = 0) :
    if (can_cmd_process pf mem s).loadingblocks then
      (can_cmd_process pf mem s).counter8byteblock ≤ 15
    else (can_cmd_process pf mem s).counter8byteblock = 0 := by
  by_cases hl : s.loadingblocks = true
  · unfold can_cmd_process
    rw [if_pos hl] at h
    simp only [hl, if_true, can_cmd_load8bytes]
    split <;> rename_i h15 <;> (simp at h15 ⊢; try omega)
  · simp only [Bool.not_eq_true] at hl
    simp only [hl, Bool.false_eq_true, if_false] at h
    rw [can_cmd_process_command_mode pf mem s hl h]
    split <;> simp

theorem can_cmd_loop_step_seq (pf : Platform) (mem : Nat → Nat) (s : CanState) (ev : CanEvent)
    (h : if s.loadingblocks then s.counter8byteblock ≤ 15 else s.counter8byteblock = 0) :
    if (can_cmd_loop_step pf mem s ev).loadingblocks then
      (can_cmd_loop_step pf mem s ev).counter8byteblock ≤ 15
    else (can_cmd_loop_step pf mem s ev).counter8byteblock = 0 := by
  unfold can_cmd_loop_step
  split
  · exact h
  · cases ev with
    | no_data => exact h
    | frame bytes => exact can_cmd_process_seq pf mem { s with currentmsg := bytes.take 8 } h
    | unread_lost => exact can_cmd_process_seq pf mem s h

theorem can_cmd_loop_trace_seq (turns : List (Platform × (Nat → Nat) × CanEvent)) :
    ∀ (s : CanState),
      (if s.loadingblocks then s.counter8byteblock ≤ 15 else s.counter8byteblock = 0) →
      if (can_cmd_loop_trace s turns).loadingblocks then
        (can_cmd_loop_trace s turns).counter8byteblock ≤ 15
      else (can_cmd_loop_trace s turns).counter8byteblock = 0 := by
  induction turns with
  | nil => intro s h; exact h
  | cons t ts ih =>
    intro s h
    exact ih _ (can_cmd_loop_step_seq t.1 t.2.1 s t.2.2 h)

/-- C22: the CAN sequencer invariant.  In every state that `can_cmd_loop` reaches
from its entry, whatever frames `can_rx8bytes` reports and whatever the
collaborators return in each turn, the 8-byte-frame counter is at most 15, so the
last staging index `8 * counter + 7` is below 128, and in command mode
(`loadingblocks` false) the counter is 0. -/
theorem can_cmd_loop_counter_invariant (s0 : CanState)
    (turns : List (Platform × (Nat → Nat) × CanEvent)) :
    (can_cmd_loop_trace (can_cmd_loop_entry s0) turns).counter8byteblock ≤ 15 ∧
      8 * (can_cmd_loop_trace (can_cmd_loop_entry s0) turns).counter8byteblock + 7 < 128 ∧
      ((can_cmd_loop_trace (can_cmd_loop_entry s0) turns).loadingblocks = true ∨
        (can_cmd_loop_trace (can_cmd_loop_entry s0) turns).counter8byteblock = 0) := by
  have h := can_cmd_loop_trace_seq turns (can_cmd_loop_entry s0) (by simp [can_cmd_loop_entry])
  cases hl : (can_cmd_loop_trace (can_cmd_loop_entry s0) turns).loadingblocks
  · simp only [hl, Bool.false_eq_true, if_false] at h
    simp [h]
  · simp only [hl, if_true] at h
    refine ⟨h, by omega, Or.inl rfl⟩

/-! ### The counters of the decoder stay inside the buffers -/

/-- The decoder is its step 1 followed by the stores. -/
theorem iso_parserx_eq_fmt_store (msg : iso14230_msg) (newbyte : Nat) :
    iso_parserx msg newbyte =
      match iso_parserx_fmt msg newbyte with
      | none => (iso_prc.ISO_PRC_ERROR, { msg with hdrlen := 1 })
      | some m1 => iso_parserx_store m1 newbyte := by
  unfold iso_parserx iso_parserx_fmt
  split_ifs <;> rfl

/-- What step 1 leaves for the stores, from a message as it is between two
calls: the header is not complete at the first byte, and the counters are inside
their frame. -/
theorem iso_parserx_fmt_bounds (m : iso14230_msg) (b : Nat) (hJ : m.between_calls)
    (m1 : iso14230_msg) (h1 : iso_parserx_fmt m b = some m1) :
    m1.hi = m.hi ∧ m1.di = m.di ∧ m1.hdr = m.hdr ∧ m1.data = m.data ∧
      m1.hi ≤ m1.hdrlen ∧ m1.hdrlen ≤ 4 ∧ m1.di ≤ m1.datalen ∧ m1.datalen ≤ 255 ∧
      (m1.hi < m1.hdrlen → m1.di = 0) ∧ (m.hi = 0 → m1.hi < m1.hdrlen) := by
  obtain ⟨j1, j2, j3, j4, j5, j6, j7⟩ := hJ
  have hdl : (b &&& 0x3f) % 256 ≤ 63 := by
    have := @Nat.and_le_right b 0x3f
    omega
  unfold iso_parserx_fmt at h1
  generalize (b &&& 0x3f) % 256 = dl at h1 hdl
  by_cases h0 : m.hi = 0
  · have hd0 : m.di = 0 := j5 (Or.inl h0)
    rw [if_pos h0] at h1
    dsimp only at h1
    split_ifs at h1 <;> simp only [Option.some.injEq] at h1 <;> subst h1 <;>
      refine ⟨rfl, rfl, rfl, rfl, ?_⟩ <;> (try dsimp only) <;> omega
  · rw [if_neg h0] at h1
    simp only [Option.some.injEq] at h1
    subst h1
    refine ⟨rfl, rfl, rfl, rfl, j1, j2, j3, j4, fun h => j5 (Or.inr h), fun h => absurd h h0⟩

/-- The stores of steps 2 and 3 keep the counters inside their frame; while the
decoder asks for more, the message is again as between two calls. -/
theorem iso_parserx_store_bounds (m1 : iso14230_msg) (b : Nat) (hb : b < 256)
    (k1 : m1.hi ≤ m1.hdrlen) (k2 : m1.hdrlen ≤ 4) (k3 : m1.di ≤ m1.datalen)
    (k4 : m1.datalen ≤ 255) (k5 : m1.hi < m1.hdrlen → m1.di = 0)
    (k6 : m1.hi = 0 → m1.hi < m1.hdrlen)
    (k7 : m1.hdr.length = 4) (k8 : m1.data.length = 256) :
    ((iso_parserx_store m1 b).2.hi ≤ (iso_parserx_store m1 b).2.hdrlen ∧
        (iso_parserx_store m1 b).2.hdrlen ≤ 4 ∧
        (iso_parserx_store m1 b).2.di ≤ (iso_parserx_store m1 b).2.datalen + 1 ∧
        (iso_parserx_store m1 b).2.datalen + 1 ≤ 256 ∧
        (iso_parserx_store m1 b).2.hdr.length = 4 ∧
        (iso_parserx_store m1 b).2.data.length = 256) ∧
      ((iso_parserx_store m1 b).1 = iso_prc.ISO_PRC_NEEDMORE →
        (iso_parserx_store m1 b).2.between_calls) := by
  unfold iso_parserx_store iso14230_msg.between_calls
  by_cases hh : m1.hi = m1.hdrlen
  · rw [if_neg (not_not.mpr hh)]
    dsimp only
    split_ifs <;> simp only [List.length_set, reduceCtorEq, false_implies, and_true,
      true_implies] <;> refine ⟨?_, ?_⟩ <;> (try refine ⟨?_, ?_, ?_, ?_, ?_, ?_⟩) <;>
      (try refine ⟨?_, ?_, ?_, ?_, ?_⟩) <;> (try intro _) <;> omega
  · rw [if_pos hh]
    dsimp only
    split_ifs <;> simp only [List.length_set, true_implies] <;>
      refine ⟨⟨?_, ?_, ?_, ?_, ?_, ?_⟩, ?_, ?_, ?_, ?_, ?_, ?_, ?_⟩ <;> (try intro _) <;> omega

/-- One call of `iso_parserx` on a message as it is between two calls: the
counters of the result are inside their frame, and under the caller contract
the message is again as between two calls. -/
theorem iso_parserx_step_bounds (m : iso14230_msg) (b : Nat) (hJ : m.between_calls)
    (hb : b < 256) :
    ((iso_parserx m b).2.hi ≤ (iso_parserx m b).2.hdrlen ∧
        (iso_parserx m b).2.hdrlen ≤ 4 ∧
        (iso_parserx m b).2.di ≤ (iso_parserx m b).2.datalen + 1 ∧
        (iso_parserx m b).2.datalen + 1 ≤ 256 ∧
        (iso_parserx m b).2.hdr.length = 4 ∧
        (iso_parserx m b).2.data.length = 256) ∧
      (iso_rx m b).between_calls := by
  have hbounds : ((iso_parserx m b).2.hi ≤ (iso_parserx m b).2.hdrlen ∧
        (iso_parserx m b).2.hdrlen ≤ 4 ∧
        (iso_parserx m b).2.di ≤ (iso_parserx m b).2.datalen + 1 ∧
        (iso_parserx m b).2.datalen + 1 ≤ 256 ∧
        (iso_parserx m b).2.hdr.length = 4 ∧
        (iso_parserx m b).2.data.length = 256) ∧
      ((iso_parserx m b).1 = iso_prc.ISO_PRC_NEEDMORE → (iso_parserx m b).2.between_calls) := by
    rw [iso_parserx_eq_fmt_store]
    cases hf : iso_parserx_fmt m b with
    | none =>
      obtain ⟨j1, j2, j3, j4, j5, j6, j7⟩ := hJ
      have hh : m.hi = 0 := by
        by_contra hne
        simp [iso_parserx_fmt, hne] at hf
      have hd := j5 (Or.inl hh)
      dsimp only
      refine ⟨⟨by omega, by omega, by omega, by omega, j6, j7⟩, fun h => ?_⟩
      exact absurd h (by decide)
    | some m1 =>
      obtain ⟨e1, e2, e3, e4, k1, k2, k3, k4, k5, k6⟩ := iso_parserx_fmt_bounds m b hJ m1 hf
      obtain ⟨j1, j2, j3, j4, j5, j6, j7⟩ := hJ
      exact iso_parserx_store_bounds m1 b hb k1 k2 k3 k4 k5
        (fun h => k6 (by rw [← e1]; exact h)) (by rw [e3]; exact j6) (by rw [e4]; exact j7)
  refine ⟨hbounds.1, ?_⟩
  unfold iso_rx
  split
  · rename_i hres
    exact hbounds.2 hres
  · obtain ⟨_, _, _, _, l1, l2⟩ := hbounds.1
    exact ⟨Nat.le_refl _, Nat.zero_le _, Nat.le_refl _, Nat.zero_le _, fun _ => rfl, l1, l2⟩

theorem iso_rx_run_between_calls (bytes : List Nat) :
    ∀ (m : iso14230_msg), m.between_calls → (∀ x ∈ bytes, x < 256) →
      (iso_rx_run m bytes).between_calls := by
  induction bytes with
  | nil => intro m h _; exact h
  | cons b bs ih =>
    intro m h hb
    exact ih _ (iso_parserx_step_bounds m b h (hb b (List.mem_cons_self _ _))).2
      (fun x hx => hb x (List.mem_cons_of_mem _ hx))

/-- C21: the frame-in-progress invariant of the decoder.  Feed any bytes `pre`
to `iso_parserx` from a cleared message, clearing the message again after each
DONE or ERROR, and then one more byte `b`.  Before and after the call on `b`,
`hi <= hdrlen <= 4` and `di <= datalen + 1 <= 256`; and the store of that call
hits `hdr[hi]` with `hi < 4` when the header is not complete, else `data[di]`
with `di < 256`, inside the buffers. -/
theorem iso_parserx_counters_in_bounds (msg : iso14230_msg) (pre : List Nat) (b : Nat)
    (hclr : msg.cleared) (hpre : ∀ x ∈ pre, x < 256) (hb : b < 256) :
    ((iso_rx_run msg pre).hi ≤ (iso_rx_run msg pre).hdrlen ∧
        (iso_rx_run msg pre).hdrlen ≤ 4 ∧
        (iso_rx_run msg pre).di ≤ (iso_rx_run msg pre).datalen + 1 ∧
        (iso_rx_run msg pre).datalen + 1 ≤ 256) ∧
      ((iso_parserx (iso_rx_run msg pre) b).2.hi ≤ (iso_parserx (iso_rx_run msg pre) b).2.hdrlen ∧
        (iso_parserx (iso_rx_run msg pre) b).2.hdrlen ≤ 4 ∧
        (iso_parserx (iso_rx_run msg pre) b).2.di ≤
          (iso_parserx (iso_rx_run msg pre) b).2.datalen + 1 ∧
        (iso_parserx (iso_rx_run msg pre) b).2.datalen + 1 ≤ 256) ∧
      ∀ m1, iso_parserx_fmt (iso_rx_run msg pre) b = some m1 →
        iso_parserx (iso_rx_run msg pre) b = iso_parserx_store m1 b ∧
        (m1.hi ≠ m1.hdrlen → m1.hi < 4 ∧ m1.hi < m1.hdr.length) ∧
        (m1.hi = m1.hdrlen → m1.di < 256 ∧ m1.di < m1.data.length) := by
  have h0 : msg.between_calls := by
    obtain ⟨c1, c2, c3, c4, c5, c6⟩ := hclr
    exact ⟨by omega, by omega, by omega, by omega, fun _ => c4, c5, c6⟩
  have hJ := iso_rx_run_between_calls pre msg h0 hpre
  have hs := (iso_parserx_step_bounds (iso_rx_run msg pre) b hJ hb).1
  refine ⟨?_, ?_, ?_⟩
  · obtain ⟨j1, j2, j3, j4, j5, j6, j7⟩ := hJ
    exact ⟨j1, j2, by omega, by omega⟩
  · exact ⟨hs.1, hs.2.1, hs.2.2.1, hs.2.2.2.1⟩
  · intro m1 hf
    obtain ⟨e1, e2, e3, e4, k1, k2, k3, k4, k5, k6⟩ :=
      iso_parserx_fmt_bounds (iso_rx_run msg pre) b hJ m1 hf
    obtain ⟨j1, j2, j3, j4, j5, j6, j7⟩ := hJ
    refine ⟨?_, fun h => ⟨by omega, by rw [e3, j6]; omega⟩,
      fun h => ⟨by omega, by rw [e4, j7]; omega⟩⟩
    rw [iso_parserx_eq_fmt_store, hf]

set_option maxRecDepth 100000 in
theorem iso_parserx_counters_in_bounds_witness :
    msg0.cleared ∧
    (((iso_rx_run msg0 [0x02, 0x3E, 0x01, 0x41, 0x80, 0x10, 0xF0, 0xFF]).hi ≤
          (iso_rx_run msg0 [0x02, 0x3E, 0x01, 0x41, 0x80, 0x10, 0xF0, 0xFF]).hdrlen ∧
        (iso_rx_run msg0 [0x02, 0x3E, 0x01, 0x41, 0x80, 0x10, 0xF0, 0xFF]).hdrlen ≤ 4 ∧
        (iso_rx_run msg0 [0x02, 0x3E, 0x01, 0x41, 0x80, 0x10, 0xF0, 0xFF]).di ≤
          (iso_rx_run msg0 [0x02, 0x3E, 0x01, 0x41, 0x80, 0x10, 0xF0, 0xFF]).datalen + 1 ∧
        (iso_rx_run msg0 [0x02, 0x3E, 0x01, 0x41, 0x80, 0x10, 0xF0, 0xFF]).datalen + 1 ≤ 256) ∧
      ((iso_parserx (iso_rx_run msg0 [0x02, 0x3E, 0x01, 0x41, 0x80, 0x10, 0xF0, 0xFF]) 0x21).2.hi ≤
          (iso_parserx (iso_rx_run msg0 [0x02, 0x3E, 0x01, 0x41, 0x80, 0x10, 0xF0, 0xFF])
            0x21).2.hdrlen ∧
        (iso_parserx (iso_rx_run msg0 [0x02, 0x3E, 0x01, 0x41, 0x80, 0x10, 0xF0, 0xFF])
          0x21).2.hdrlen ≤ 4 ∧
        (iso_parserx (iso_rx_run msg0 [0x02, 0x3E, 0x01, 0x41, 0x80, 0x10, 0xF0, 0xFF]) 0x21).2.di ≤
          (iso_parserx (iso_rx_run msg0 [0x02, 0x3E, 0x01, 0x41, 0x80, 0x10, 0xF0, 0xFF])
            0x21).2.datalen + 1 ∧
        (iso_parserx (iso_rx_run msg0 [0x02, 0x3E, 0x01, 0x41, 0x80, 0x10, 0xF0, 0xFF])
          0x21).2.datalen + 1 ≤ 256) ∧
      ∀ m1, iso_parserx_fmt (iso_rx_run msg0 [0x02, 0x3E, 0x01, 0x41, 0x80, 0x10, 0xF0, 0xFF])
          0x21 = some m1 →
        iso_parserx (iso_rx_run msg0 [0x02, 0x3E, 0x01, 0x41, 0x80, 0x10, 0xF0, 0xFF]) 0x21 =
          iso_parserx_store m1 0x21 ∧
        (m1.hi ≠ m1.hdrlen → m1.hi < 4 ∧ m1.hi < m1.hdr.length) ∧
        (m1.hi = m1.hdrlen → m1.di < 256 ∧ m1.di < m1.data.length)) :=
  ⟨by decide, iso_parserx_counters_in_bounds msg0
    [0x02, 0x3E, 0x01, 0x41, 0x80, 0x10, 0xF0, 0xFF] 0x21 (by decide) (by decide) (by decide)⟩

/-- Every frame whose explicit length byte is 0 is reported DONE at the byte
that follows the header, when that byte is the sum of the header bytes; the
message then has `datalen = 0` and holds that byte in `data[0]`. -/
theorem feed_frame_len_zero (msg : iso14230_msg) (hclr : msg.cleared) (f : Nat)
    (tl : List Nat) (hmode : f &&& 0xC0 ≠ 0x40) (hlen : (f :: tl).length = fmt_hdrlen f)
    (h0 : frame_datalen f (f :: tl) = 0) :
    (feed msg (f :: tl ++ [(f :: tl).sum % 256])).1 =
        List.replicate (fmt_hdrlen f) iso_prc.ISO_PRC_NEEDMORE ++ [iso_prc.ISO_PRC_DONE] ∧
      (feed msg (f :: tl ++ [(f :: tl).sum % 256])).2.datalen = 0 ∧
      (feed msg (f :: tl ++ [(f :: tl).sum % 256])).2.data.getD 0 0 = (f :: tl).sum % 256 := by
  have hdata : msg.data.length = 256 := hclr.2.2.2.2.2
  have h := feed_frame msg hclr f tl [] ((f :: tl).sum % 256) hmode hlen
    (by rw [h0]; rfl) (by rw [h0]; omega)
  simp only [List.nil_append, List.length_nil, List.sum_nil, Nat.add_zero, if_true,
    overwrite] at h
  rw [h]
  refine ⟨rfl, rfl, ?_⟩
  simp [List.getD_eq_getElem?_getD, List.getElem?_set, hdata]

end Npkern
